import Mathlib

/-!
# xsimd kernels: generic memory kernel and 128-bit NEON kernel

A shallow embedding of the kernels of `xsimd_generic_memory.hpp` and
`xsimd_neon.hpp`.

Data model.

* A register (and a batch, which owns exactly one register) is the list of its
  lanes, lane `k` at index `k`.  A 128-bit register of a `w`-bit scalar type has
  `128 / w` lanes, a 64-bit half register has `64 / w` lanes.
* An integer lane is its bit pattern, a natural number below `2 ^ w`; the signed
  reading of a bit pattern is `toInt w`.  Arithmetic on lanes wraps modulo
  `2 ^ w`.
* A float lane is kept abstract: the kernels that compute on floats are
  parametrised by the lane addition, the kernels that only move or blend lanes
  work on the 32-bit pattern of the float.
* A stack buffer that the code declares without initialising it is a list of
  `Option` lanes, `none` standing for a lane that has not been written.
* A subscript outside the lanes of a vector, and a path that ends in
  `assert(false)`, have no defined value: such code returns `Option`.
* Memory is a function from element index to element and a pointer is an index
  into it; `p + n` is pointer arithmetic and a store returns the memory after
  the store.
* The built-in arithmetic of the code on signed scalars has no defined value
  when the mathematical result is outside the type (signed overflow): such
  code returns `Option`.  Unsigned scalars and the lanes of the intrinsics
  wrap.
-/

namespace xsimd

/-- The nine 128-bit register types of the NEON kernel, named as in the
source. -/
inductive RegisterType
  | uint8x16_t | int8x16_t
  | uint16x8_t | int16x8_t
  | uint32x4_t | int32x4_t
  | uint64x2_t | int64x2_t
  | float32x4_t
  deriving DecidableEq, Repr

namespace RegisterType

/-- Bit width of one lane of the register type. -/
def bits : RegisterType → Nat
  | uint8x16_t | int8x16_t => 8
  | uint16x8_t | int16x8_t => 16
  | uint32x4_t | int32x4_t | float32x4_t => 32
  | uint64x2_t | int64x2_t => 64

/-- Lane count of the register type: `batch<T, A>::size`. -/
def size : RegisterType → Nat
  | uint8x16_t | int8x16_t => 16
  | uint16x8_t | int16x8_t => 8
  | uint32x4_t | int32x4_t | float32x4_t => 4
  | uint64x2_t | int64x2_t => 2

end RegisterType

/-- Signed (two's complement) reading of a `w`-bit pattern. -/
def toInt (w : Nat) (x : Nat) : Int :=
  if x < 2 ^ (w - 1) then (x : Int) else (x : Int) - 2 ^ w

/-- The `w`-bit pattern of an integer (two's complement wrap), the inverse of
`toInt w` on the signed range and of the unsigned reading on `0 .. 2 ^ w - 1`. -/
def ofInt (w : Nat) (z : Int) : Nat :=
  (z % 2 ^ w).toNat

namespace RegisterType

/-- Whether the lanes of the register type are signed integers. -/
def signed : RegisterType → Bool
  | int8x16_t | int16x8_t | int32x4_t | int64x2_t => true
  | _ => false

/-- Whether the lanes of the register type are integers (all but `float32x4_t`). -/
def integral : RegisterType → Bool
  | float32x4_t => false
  | _ => true

/-- Value of a lane bit pattern in an integer register type: the unsigned or
the two's complement reading. -/
def value (t : RegisterType) (x : Nat) : Int :=
  if t.signed then toInt t.bits x else (x : Int)

end RegisterType

/-- The float lane operations of the hardware on binary32 bit patterns
(`vaddq_f32`, `vsubq_f32`, `vnegq_f32` and the comparisons `vceqq_f32` ..
`vcgeq_f32`).  The kernels only dispatch to them; they are kept abstract. -/
structure FloatLane where
  add : Nat → Nat → Nat
  sub : Nat → Nat → Nat
  neg : Nat → Nat
  ceq : Nat → Nat → Bool
  clt : Nat → Nat → Bool
  cle : Nat → Nat → Bool
  cgt : Nat → Nat → Bool
  cge : Nat → Nat → Bool

/-- A float lane model for evaluating the integer overloads on concrete
inputs; the integer overloads never consult it. -/
def FloatLane.unused : FloatLane :=
  ⟨fun _ _ => 0, fun _ _ => 0, fun _ => 0, fun _ _ => false, fun _ _ => false,
    fun _ _ => false, fun _ _ => false, fun _ _ => false⟩

namespace RegisterType

/-- Smallest value of the integer lane type: `min(T)`. -/
def minValue (t : RegisterType) : Int :=
  if t.signed then -(2 ^ (t.bits - 1)) else 0

/-- Largest value of the integer lane type: `max(T)`. -/
def maxValue (t : RegisterType) : Int :=
  if t.signed then 2 ^ (t.bits - 1) - 1 else 2 ^ t.bits - 1

end RegisterType

namespace kernel

/-! ## Generic kernel: `extract_pair` (xsimd_generic_memory.hpp, lines 29-50) -/

namespace generic

variable {α : Type}

/-- One iteration of the loop body of the generic `extract_pair`:
`concat_buffer[j] = other_buffer[i + j];`
`if (j < i) concat_buffer[size - 1 - j] = self_buffer[i - 1 - j];` -/
def extract_pair_body (size i : Nat) (self_buffer other_buffer : List α)
    (concat_buffer : List (Option α)) (j : Nat) : List (Option α) :=
  let concat_buffer := concat_buffer.set j other_buffer[i + j]?
  if j < i then
    concat_buffer.set (size - 1 - j) self_buffer[i - 1 - j]?
  else
    concat_buffer

/-- The loop `for (j = 0; j < size - i; ++j)` of the generic `extract_pair`,
run on the uninitialised `concat_buffer`. -/
def extract_pair_loop (size i : Nat) (self_buffer other_buffer : List α) :
    List (Option α) :=
  (List.range (size - i)).foldl
    (extract_pair_body size i self_buffer other_buffer)
    (List.replicate size none)

/-- Generic `extract_pair(self, other, i)`.  The result is `none` when the
assertion `i < size` fails; otherwise it is the batch loaded from
`concat_buffer`, a lane being `none` when the loop never wrote it. -/
def extract_pair (size : Nat) (self other : List α) (i : Nat) :
    Option (List (Option α)) :=
  if i < size then
    some (extract_pair_loop size i self other)
  else
    none

end generic

/-! ## NEON kernel -/

namespace neon

variable {α : Type}

/-- Intrinsic `vextq_<t>(a, b, n)`: lanes `n ..` of `a` followed by the first
`n` lanes of `b`. -/
def vextq (a b : List α) (n : Nat) : List α :=
  a.drop n ++ b.take n

namespace detail

/-- The recursion `detail::extract_pair(lhs, rhs, n, index_sequence<I, Is...>)`
(lines 1544-1665): the overload for the empty sequence ends in `assert(false)`,
the others test `n == I` and call `vextq_<t>(rhs, lhs, I)`. -/
def extract_pair (lhs rhs : List α) (n : Nat) : List Nat → Option (List α)
  | [] => none
  | I :: Is =>
    if n = I then
      some (vextq rhs lhs I)
    else
      extract_pair lhs rhs n Is

/-- The entry `detail::extract_pair_impl(lhs, rhs, n, index_sequence<0, Is...>)`
(lines 1667-1678). -/
def extract_pair_impl (lhs rhs : List α) (n : Nat) : List Nat → Option (List α)
  | 0 :: Is =>
    if n = 0 then
      some rhs
    else
      extract_pair lhs rhs n Is
  | _ => none

end detail

/-- NEON `extract_pair(lhs, rhs, n)` (lines 1681-1687) on a register of type
`t`; `none` when the assertion `n < size` fails. -/
def extract_pair (t : RegisterType) (lhs rhs : List α) (n : Nat) :
    Option (List α) :=
  if n < t.size then
    detail.extract_pair_impl lhs rhs n (List.range t.size)
  else
    none

/-! ### Intrinsics used by the reductions, `select`, `all` and `any`

The source calls these ARM intrinsics; their lane semantics is the one of the
ARM reference. -/

/-- Intrinsic `vget_low_<t>`: the lower half of the lanes. -/
def vget_low (a : List α) : List α :=
  a.take (a.length / 2)

/-- Intrinsic `vget_high_<t>`: the upper half of the lanes. -/
def vget_high (a : List α) : List α :=
  a.drop (a.length / 2)

/-- Intrinsic `vcombine_<t>(lo, hi)`. -/
def vcombine (lo hi : List α) : List α :=
  lo ++ hi

/-- Intrinsic `vget_lane_<t>(a, i)`, also the subscript `a[i]` of a vector:
there is no value outside the lanes of `a`. -/
def vget_lane (a : List α) (i : Nat) : Option α :=
  a[i]?

/-- Adjacent pairs of lanes combined by `f`: lanes `(0, 1)`, `(2, 3)`, ... -/
def pairwise (f : α → α → α) : List α → List α
  | x :: y :: rest => f x y :: pairwise f rest
  | _ => []

/-- Pairwise intrinsics `vpadd_<t>(a, b)`, `vpmin_<t>(a, b)`, `vpmax_<t>(a, b)`
with lane operation `f`: the pairs of `a` fill the lower half of the result,
the pairs of `b` the upper half. -/
def vpairwise (f : α → α → α) (a b : List α) : List α :=
  pairwise f a ++ pairwise f b

/-- Lane addition of a `w`-bit integer type: wraps modulo `2 ^ w`. -/
def addw (w : Nat) (x y : Nat) : Nat :=
  (x + y) % 2 ^ w

/-- Intrinsic `vpadd_u<w>` / `vpadd_s<w>` on bit patterns. -/
def vpadd (w : Nat) (a b : List Nat) : List Nat :=
  vpairwise (addw w) a b

/-- Intrinsic `vpmin_u<w>`. -/
def vpmin (a b : List Nat) : List Nat :=
  vpairwise min a b

/-- Intrinsic `vpmax_u<w>`. -/
def vpmax (a b : List Nat) : List Nat :=
  vpairwise max a b

/-- Intrinsic `vand_u<w>`. -/
def vand (a b : List Nat) : List Nat :=
  List.zipWith (· &&& ·) a b

/-- Intrinsic `vorr_u<w>`. -/
def vorr (a b : List Nat) : List Nat :=
  List.zipWith (· ||| ·) a b

/-- One lane of the bitwise select `vbslq`: the bits of `a` where the mask bit
is set, the bits of `b` where it is clear. -/
def vbsl_lane (w : Nat) (m a b : Nat) : Nat :=
  (m &&& a) ||| ((2 ^ w - 1 - m) &&& b)

/-- Intrinsic `vbslq_<t>(mask, a, b)` on lanes of `w` bits. -/
def vbslq (w : Nat) : List Nat → List Nat → List Nat → List Nat
  | m :: ms, a :: as, b :: bs => vbsl_lane w m a b :: vbslq w ms as bs
  | _, _, _ => []

/-! ### hadd (lines 1250-1320) -/

namespace detail

/-- The helper `detail::sum_batch<T, A>(arg)`: `res = T(0)`, then
`res += arg[i]` for `i` from `0` to `batch<T, A>::size - 1`, in the `w`-bit
type `T`.  The argument `size` is `batch<T, A>::size`. -/
def sum_batch (w size : Nat) (arg : List Nat) : Option Nat :=
  (List.range size).foldlM
    (fun res i => (vget_lane arg i).map (fun x => addw w res x)) 0

end detail

/-- Overload `hadd` for unsigned 8-bit lanes (lines 1264-1269). -/
def hadd_u8 (arg : List Nat) : Option Nat :=
  let tmp := vpadd 8 (vget_low arg) (vget_high arg)
  detail.sum_batch 8 RegisterType.uint8x16_t.size tmp

/-- Overload `hadd` for signed 8-bit lanes (lines 1271-1276). -/
def hadd_s8 (arg : List Nat) : Option Nat :=
  let tmp := vpadd 8 (vget_low arg) (vget_high arg)
  detail.sum_batch 8 RegisterType.int8x16_t.size tmp

/-- Overload `hadd` for unsigned 16-bit lanes (lines 1278-1283). -/
def hadd_u16 (arg : List Nat) : Option Nat :=
  let tmp := vpadd 16 (vget_low arg) (vget_high arg)
  detail.sum_batch 16 RegisterType.uint16x8_t.size tmp

/-- Overload `hadd` for signed 16-bit lanes (lines 1285-1290). -/
def hadd_s16 (arg : List Nat) : Option Nat :=
  let tmp := vpadd 16 (vget_low arg) (vget_high arg)
  detail.sum_batch 16 RegisterType.int16x8_t.size tmp

/-- Overload `hadd` for unsigned 32-bit lanes (lines 1292-1298). -/
def hadd_u32 (arg : List Nat) : Option Nat :=
  let tmp := vpadd 32 (vget_low arg) (vget_high arg)
  let tmp := vpadd 32 tmp tmp
  vget_lane tmp 0

/-- Overload `hadd` for signed 32-bit lanes (lines 1300-1306). -/
def hadd_s32 (arg : List Nat) : Option Nat :=
  let tmp := vpadd 32 (vget_low arg) (vget_high arg)
  let tmp := vpadd 32 tmp tmp
  vget_lane tmp 0

/-- The built-in `x + y` on two scalars of the integer type `T` of the register
type `t`: unsigned addition wraps; a signed sum outside the range of `T` is an
overflow and has no defined value. -/
def scalar_add (t : RegisterType) (x y : Nat) : Option Nat :=
  if t.signed then
    if t.minValue ≤ t.value x + t.value y ∧ t.value x + t.value y ≤ t.maxValue then
      some (ofInt t.bits (t.value x + t.value y))
    else
      none
  else
    some (addw t.bits x y)

/-- The built-in `-x` on a scalar of the integer type `T` of the register type
`t`: unsigned negation wraps; the negation of the minimum of a signed type is
an overflow and has no defined value. -/
def scalar_neg (t : RegisterType) (x : Nat) : Option Nat :=
  if t.signed then
    if t.minValue ≤ -(t.value x) ∧ -(t.value x) ≤ t.maxValue then
      some (ofInt t.bits (-(t.value x)))
    else
      none
  else
    some ((2 ^ t.bits - x) % 2 ^ t.bits)

/-- Overload `hadd` for the 64-bit integer lanes of the register type `t`,
signed or unsigned (lines 1308-1312): `arg.get(0) + arg.get(1)`, the sum of
two scalars of type `T`. -/
def hadd_64 (t : RegisterType) (arg : List Nat) : Option Nat := do
  let x ← vget_lane arg 0
  let y ← vget_lane arg 1
  scalar_add t x y

/-- Overload `hadd` for float lanes (lines 1314-1320); `add` is the float lane
addition of `vpadd_f32`. -/
def hadd_f32 (add : α → α → α) (arg : List α) : Option α :=
  let tmp := vpairwise add (vget_low arg) (vget_high arg)
  let tmp := vpairwise add tmp tmp
  vget_lane tmp 0

/-! ### haddp (lines 1326-1345) -/

/-- Kernel `haddp(row)` on an array `row` of float batches; `add` is the float
lane addition of `vpadd_f32`.  The result is `none` when `row` has fewer than
four batches. -/
def haddp (add : α → α → α) (row : List (List α)) : Option (List α) := do
  let row0 ← row[0]?
  let row1 ← row[1]?
  let row2 ← row[2]?
  let row3 ← row[3]?
  let tmp1 := vpairwise add (vget_low row0) (vget_high row0)
  let tmp2 := vpairwise add (vget_low row1) (vget_high row1)
  let tmp1 := vpairwise add tmp1 tmp2
  let tmp2 := vpairwise add (vget_low row2) (vget_high row2)
  let tmp3 := vpairwise add (vget_low row3) (vget_high row3)
  let tmp2 := vpairwise add tmp2 tmp3
  pure (vcombine tmp1 tmp2)

/-! ### select (lines 1351-1405) -/

/-- Kernel `select(cond, a, b)`: the dispatcher picks `vbslq_<t>` for the
register type `t` of the batch. -/
def select (t : RegisterType) (cond a b : List Nat) : List Nat :=
  vbslq t.bits cond a b

/-! ### all, any (lines 2057-2125) -/

/-- Kernel `all(arg)` on the mask of a batch of register type `t`; one overload
per lane size `sizeof(T)` = 1, 2, 4, 8. -/
def all (t : RegisterType) (arg : List Nat) : Option Bool :=
  match t with
  | .uint8x16_t | .int8x16_t =>
    let tmp := vand (vget_low arg) (vget_high arg)
    let tmp := vpmin tmp tmp
    let tmp := vpmin tmp tmp
    let tmp := vpmin tmp tmp
    (vget_lane tmp 0).map (fun r => r != 0)
  | .uint16x8_t | .int16x8_t =>
    let tmp := vand (vget_low arg) (vget_high arg)
    let tmp := vpmin tmp tmp
    let tmp := vpmin tmp tmp
    (vget_lane tmp 0).map (fun r => r != 0)
  | .uint32x4_t | .int32x4_t | .float32x4_t =>
    let tmp := vand (vget_low arg) (vget_high arg)
    (vget_lane (vpmin tmp tmp) 0).map (fun r => r != 0)
  | .uint64x2_t | .int64x2_t =>
    let tmp := vand (vget_low arg) (vget_high arg)
    (vget_lane tmp 0).map (fun r => r != 0)

/-- Kernel `any(arg)` on the mask of a batch of register type `t`; one overload
per lane size `sizeof(T)` = 1, 2, 4, 8. -/
def any (t : RegisterType) (arg : List Nat) : Option Bool :=
  match t with
  | .uint8x16_t | .int8x16_t =>
    let tmp := vorr (vget_low arg) (vget_high arg)
    let tmp := vpmax tmp tmp
    let tmp := vpmax tmp tmp
    let tmp := vpmax tmp tmp
    (vget_lane tmp 0).map (fun r => r != 0)
  | .uint16x8_t | .int16x8_t =>
    let tmp := vorr (vget_low arg) (vget_high arg)
    let tmp := vpmax tmp tmp
    let tmp := vpmax tmp tmp
    (vget_lane tmp 0).map (fun r => r != 0)
  | .uint32x4_t | .int32x4_t | .float32x4_t =>
    let tmp := vorr (vget_low arg) (vget_high arg)
    (vget_lane (vpmax tmp tmp) 0).map (fun r => r != 0)
  | .uint64x2_t | .int64x2_t =>
    let tmp := vorr (vget_low arg) (vget_high arg)
    (vget_lane tmp 0).map (fun r => r != 0)

/-! ### Mask register types (lines 149-207) -/

namespace detail

/-- The trait `comp_return_type<T>`: the register type of the comparison
results and of `batch_bool`, the unsigned type of the same lane width. -/
def comp_return_type : RegisterType → RegisterType
  | .uint8x16_t | .int8x16_t => .uint8x16_t
  | .uint16x8_t | .int16x8_t => .uint16x8_t
  | .uint32x4_t | .int32x4_t | .float32x4_t => .uint32x4_t
  | .uint64x2_t | .int64x2_t => .uint64x2_t

end detail

/-! ### Bitwise kernels (lines 902-1120) -/

/-- Intrinsic `vandq_<t>`. -/
def vandq (a b : List Nat) : List Nat :=
  List.zipWith (· &&& ·) a b

/-- Intrinsic `vorrq_<t>`. -/
def vorrq (a b : List Nat) : List Nat :=
  List.zipWith (· ||| ·) a b

/-- Intrinsic `veorq_<t>`. -/
def veorq (a b : List Nat) : List Nat :=
  List.zipWith (· ^^^ ·) a b

/-- Intrinsic `vmvnq_<t>` on lanes of `w` bits: the complement of every bit. -/
def vmvnq (w : Nat) (a : List Nat) : List Nat :=
  a.map (fun x => 2 ^ w - 1 - x)

/-- Intrinsic `vbicq_<t>(a, b)` on lanes of `w` bits: bit clear, `a AND NOT b`. -/
def vbicq (w : Nat) (a b : List Nat) : List Nat :=
  List.zipWith (fun x y => x &&& (2 ^ w - 1 - y)) a b

/-- Intrinsics `vreinterpretq_u32_u64` / `vreinterpretq_s32_s64`: the same 128
bits read as 32-bit lanes, each 64-bit lane giving its low word then its high
word. -/
def vreinterpretq_32_64 : List Nat → List Nat
  | [] => []
  | x :: rest => (x % 2 ^ 32) :: (x / 2 ^ 32 % 2 ^ 32) :: vreinterpretq_32_64 rest

/-- Intrinsics `vreinterpretq_u64_u32` / `vreinterpretq_s64_s32`: the same 128
bits read as 64-bit lanes, two 32-bit lanes (low word first) per lane. -/
def vreinterpretq_64_32 : List Nat → List Nat
  | lo :: hi :: rest => (lo + hi * 2 ^ 32) :: vreinterpretq_64_32 rest
  | _ => []

namespace detail

/-- Helper `detail::bitwise_and_f32`: `vandq_u32` on the bit patterns. -/
def bitwise_and_f32 (lhs rhs : List Nat) : List Nat :=
  vandq lhs rhs

/-- Helper `detail::bitwise_and_neon`: the dispatcher picks `vandq_<t>`, and
`bitwise_and_f32` for float. -/
def bitwise_and_neon (t : RegisterType) (lhs rhs : List Nat) : List Nat :=
  match t with
  | .float32x4_t => bitwise_and_f32 lhs rhs
  | _ => vandq lhs rhs

/-- Helper `detail::bitwise_or_f32`: `vorrq_u32` on the bit patterns. -/
def bitwise_or_f32 (lhs rhs : List Nat) : List Nat :=
  vorrq lhs rhs

/-- Helper `detail::bitwise_or_neon`. -/
def bitwise_or_neon (t : RegisterType) (lhs rhs : List Nat) : List Nat :=
  match t with
  | .float32x4_t => bitwise_or_f32 lhs rhs
  | _ => vorrq lhs rhs

/-- Helper `detail::bitwise_xor_f32`: `veorq_u32` on the bit patterns. -/
def bitwise_xor_f32 (lhs rhs : List Nat) : List Nat :=
  veorq lhs rhs

/-- Helper `detail::bitwise_xor_neon`. -/
def bitwise_xor_neon (t : RegisterType) (lhs rhs : List Nat) : List Nat :=
  match t with
  | .float32x4_t => bitwise_xor_f32 lhs rhs
  | _ => veorq lhs rhs

/-- Helper `detail::bitwise_not_s64`: `vmvnq_s32` through a 32-bit
reinterpretation. -/
def bitwise_not_s64 (arg : List Nat) : List Nat :=
  vreinterpretq_64_32 (vmvnq 32 (vreinterpretq_32_64 arg))

/-- Helper `detail::bitwise_not_u64`: `vmvnq_u32` through a 32-bit
reinterpretation. -/
def bitwise_not_u64 (arg : List Nat) : List Nat :=
  vreinterpretq_64_32 (vmvnq 32 (vreinterpretq_32_64 arg))

/-- Helper `detail::bitwise_not_f32`: `vmvnq_u32` on the bit patterns. -/
def bitwise_not_f32 (arg : List Nat) : List Nat :=
  vmvnq 32 arg

/-- Helper `detail::bitwise_not_neon`: the dispatcher picks `vmvnq_<t>` for the
8-, 16- and 32-bit integer types and the three helpers above otherwise. -/
def bitwise_not_neon (t : RegisterType) (arg : List Nat) : List Nat :=
  match t with
  | .uint8x16_t | .int8x16_t => vmvnq 8 arg
  | .uint16x8_t | .int16x8_t => vmvnq 16 arg
  | .uint32x4_t | .int32x4_t => vmvnq 32 arg
  | .uint64x2_t => bitwise_not_u64 arg
  | .int64x2_t => bitwise_not_s64 arg
  | .float32x4_t => bitwise_not_f32 arg

/-- Helper `detail::bitwise_andnot_f32`: `vbicq_u32` on the bit patterns. -/
def bitwise_andnot_f32 (lhs rhs : List Nat) : List Nat :=
  vbicq 32 lhs rhs

/-- Helper `detail::bitwise_andnot_neon`. -/
def bitwise_andnot_neon (t : RegisterType) (lhs rhs : List Nat) : List Nat :=
  match t with
  | .float32x4_t => bitwise_andnot_f32 lhs rhs
  | _ => vbicq t.bits lhs rhs

end detail

/-- Kernel `bitwise_and` on batches of register type `t`. -/
def bitwise_and (t : RegisterType) (lhs rhs : List Nat) : List Nat :=
  detail.bitwise_and_neon t lhs rhs

/-- Kernel `bitwise_and` on the masks (`batch_bool`) of batches of type `t`. -/
def bitwise_and_bool (t : RegisterType) (lhs rhs : List Nat) : List Nat :=
  detail.bitwise_and_neon (detail.comp_return_type t) lhs rhs

/-- Kernel `bitwise_or` on batches of register type `t`. -/
def bitwise_or (t : RegisterType) (lhs rhs : List Nat) : List Nat :=
  detail.bitwise_or_neon t lhs rhs

/-- Kernel `bitwise_or` on the masks of batches of type `t`. -/
def bitwise_or_bool (t : RegisterType) (lhs rhs : List Nat) : List Nat :=
  detail.bitwise_or_neon (detail.comp_return_type t) lhs rhs

/-- Kernel `bitwise_xor` on batches of register type `t`. -/
def bitwise_xor (t : RegisterType) (lhs rhs : List Nat) : List Nat :=
  detail.bitwise_xor_neon t lhs rhs

/-- Kernel `bitwise_xor` on the masks of batches of type `t`. -/
def bitwise_xor_bool (t : RegisterType) (lhs rhs : List Nat) : List Nat :=
  detail.bitwise_xor_neon (detail.comp_return_type t) lhs rhs

/-- Kernel `neq` on masks (lines 1025-1029): `bitwise_xor(lhs, rhs)`. -/
def neq_bool (t : RegisterType) (lhs rhs : List Nat) : List Nat :=
  bitwise_xor_bool t lhs rhs

/-- Kernel `bitwise_not` on batches of register type `t`. -/
def bitwise_not (t : RegisterType) (arg : List Nat) : List Nat :=
  detail.bitwise_not_neon t arg

/-- Kernel `bitwise_not` on the masks of batches of type `t`. -/
def bitwise_not_bool (t : RegisterType) (arg : List Nat) : List Nat :=
  detail.bitwise_not_neon (detail.comp_return_type t) arg

/-- Kernel `bitwise_andnot` on batches of register type `t`. -/
def bitwise_andnot (t : RegisterType) (lhs rhs : List Nat) : List Nat :=
  detail.bitwise_andnot_neon t lhs rhs

/-- Kernel `bitwise_andnot` on the masks of batches of type `t`. -/
def bitwise_andnot_bool (t : RegisterType) (lhs rhs : List Nat) : List Nat :=
  detail.bitwise_andnot_neon (detail.comp_return_type t) lhs rhs

/-! ### broadcast (lines 256-308) -/

/-- Kernel `broadcast(val)`: `vdupq_n_<t>(val)`, every lane holds `val`. -/
def broadcast (t : RegisterType) (val : Nat) : List Nat :=
  List.replicate t.size val

/-! ### neg (lines 568-620) -/

/-- Intrinsic `vnegq_s<w>`: the negation of every signed lane, wrapped to `w`
bits. -/
def vnegq (w : Nat) (a : List Nat) : List Nat :=
  a.map (fun x => ofInt w (-(toInt w x)))

/-- Modelled from the spec: the accessor `batch::get(i)` of `xsimd_batch.hpp`,
which is not under src/; it returns lane `i` (§3, lanes are indexed
`0 .. N-1`).  The kernels call it with `i = 0, 1` on two-lane batches only. -/
def get (b : List Nat) (i : Nat) : Nat :=
  b.getD i 0

/-- Modelled from the spec: the constructor `batch<T, A>({v0, v1})` of
`xsimd_batch.hpp`, which is not under src/; lane `i` of the batch equals `v_i`
(§4.4, Set). -/
def batch_init (vals : List Nat) : List Nat :=
  vals

/-- Kernel `neg(rhs)`, one overload per scalar type: the unsigned 8-, 16- and
32-bit overloads reinterpret to the signed type (the same bit patterns), call
`vnegq_s<w>` and reinterpret back; the 64-bit overloads negate the two lanes
as scalars (`{-rhs.get(0), -rhs.get(1)}` in `uint64_t` resp. `int64_t`); float
calls `vnegq_f32`.  The result is `none` when a scalar negation has no defined
value. -/
def neg (fp : FloatLane) (t : RegisterType) (rhs : List Nat) : Option (List Nat) :=
  match t with
  | .uint8x16_t => some (vnegq 8 rhs)
  | .int8x16_t => some (vnegq 8 rhs)
  | .uint16x8_t => some (vnegq 16 rhs)
  | .int16x8_t => some (vnegq 16 rhs)
  | .uint32x4_t => some (vnegq 32 rhs)
  | .int32x4_t => some (vnegq 32 rhs)
  | .uint64x2_t => do
    let n0 ← scalar_neg .uint64x2_t (get rhs 0)
    let n1 ← scalar_neg .uint64x2_t (get rhs 1)
    pure (batch_init [n0, n1])
  | .int64x2_t => do
    let n0 ← scalar_neg .int64x2_t (get rhs 0)
    let n1 ← scalar_neg .int64x2_t (get rhs 1)
    pure (batch_init [n0, n1])
  | .float32x4_t => some (rhs.map fp.neg)

/-! ### add, sadd, sub, ssub (lines 626-698) -/

/-- Intrinsic `vaddq_u<w>` / `vaddq_s<w>`: lane addition, wrapping. -/
def vaddq (w : Nat) (a b : List Nat) : List Nat :=
  List.zipWith (addw w) a b

/-- Intrinsic `vsubq_u<w>` / `vsubq_s<w>`: lane subtraction, wrapping. -/
def vsubq (w : Nat) (a b : List Nat) : List Nat :=
  List.zipWith (fun (x y : Nat) => ofInt w ((x : Int) - (y : Int))) a b

/-- Saturation of an exact result `z` to the lane type of `t`, as the
saturating intrinsics do: the largest value when `z` is above the range, the
smallest when it is below, as a bit pattern. -/
def saturate (t : RegisterType) (z : Int) : Nat :=
  if t.signed then
    if z > 2 ^ (t.bits - 1) - 1 then ofInt t.bits (2 ^ (t.bits - 1) - 1)
    else if z < -(2 ^ (t.bits - 1)) then ofInt t.bits (-(2 ^ (t.bits - 1)))
    else ofInt t.bits z
  else
    if z > 2 ^ t.bits - 1 then ofInt t.bits (2 ^ t.bits - 1)
    else if z < 0 then 0
    else ofInt t.bits z

/-- Intrinsic `vqaddq_<t>`: saturating lane addition. -/
def vqaddq (t : RegisterType) (a b : List Nat) : List Nat :=
  List.zipWith (fun x y => saturate t (t.value x + t.value y)) a b

/-- Intrinsic `vqsubq_<t>`: saturating lane subtraction. -/
def vqsubq (t : RegisterType) (a b : List Nat) : List Nat :=
  List.zipWith (fun x y => saturate t (t.value x - t.value y)) a b

/-- Kernel `add(lhs, rhs)`: the dispatcher picks `vaddq_<t>`. -/
def add (fp : FloatLane) (t : RegisterType) (lhs rhs : List Nat) : List Nat :=
  match t with
  | .float32x4_t => List.zipWith fp.add lhs rhs
  | _ => vaddq t.bits lhs rhs

/-- Kernel `sadd(lhs, rhs)`: the dispatcher picks `vqaddq_<t>` for the integer
types and `vaddq_f32` for float. -/
def sadd (fp : FloatLane) (t : RegisterType) (lhs rhs : List Nat) : List Nat :=
  match t with
  | .float32x4_t => List.zipWith fp.add lhs rhs
  | _ => vqaddq t lhs rhs

/-- Kernel `sub(lhs, rhs)`: the dispatcher picks `vsubq_<t>`. -/
def sub (fp : FloatLane) (t : RegisterType) (lhs rhs : List Nat) : List Nat :=
  match t with
  | .float32x4_t => List.zipWith fp.sub lhs rhs
  | _ => vsubq t.bits lhs rhs

/-- Kernel `ssub(lhs, rhs)`: the dispatcher picks `vqsubq_<t>` for the integer
types and `vsubq_f32` for float. -/
def ssub (fp : FloatLane) (t : RegisterType) (lhs rhs : List Nat) : List Nat :=
  match t with
  | .float32x4_t => List.zipWith fp.sub lhs rhs
  | _ => vqsubq t lhs rhs

/-! ### set for masks (lines 320-340) and comparisons (lines 759-896) -/

/-- A mask register of `w`-bit lanes is saturated when every lane is all-zeros
or all-ones: the invariant of `batch_bool`. -/
def saturated (w : Nat) (m : List Nat) : Prop :=
  ∀ x ∈ m, x = 0 ∨ x = 2 ^ w - 1

instance (w : Nat) (m : List Nat) : Decidable (saturated w m) :=
  inferInstanceAs (Decidable (∀ x ∈ m, x = 0 ∨ x = 2 ^ w - 1))

/-- Kernel `set(batch_bool, args...)`: every bool becomes the lane
`static_cast<unsigned_type>(args ? -1LL : 0LL)`. -/
def set_bool (t : RegisterType) (args : List Bool) : List Nat :=
  args.map (fun (b : Bool) => ofInt t.bits (if b then -1 else 0))

/-- Modelled from the spec: the constructor `batch_bool<T, A>({b0, b1})` of
`xsimd_batch.hpp`, which is not under src/; each provided bool maps to the
canonical all-ones / all-zeros lane (§4.4, Set), which is what the kernel
`set` above computes. -/
def batch_bool_init (t : RegisterType) (bools : List Bool) : List Nat :=
  set_bool t bools

/-- Modelled from the spec: the accessor `batch_bool::get(i)` of
`xsimd_batch.hpp`, which is not under src/; it returns lane `i` as a bool, a
lane being true when it is nonzero (§4.4, storing a mask to `bool`). -/
def get_bool (m : List Nat) (i : Nat) : Bool :=
  m.getD i 0 != 0

/-- Comparison intrinsics `vceqq_<t>`, `vcltq_<t>`, `vcleq_<t>`, `vcgtq_<t>`,
`vcgeq_<t>` with lane predicate `p`, on lanes of `w` bits: the result lane is
all-ones where the predicate holds and all-zeros elsewhere. -/
def vcmpq (w : Nat) (p : Nat → Nat → Bool) (a b : List Nat) : List Nat :=
  List.zipWith (fun x y => if p x y then 2 ^ w - 1 else 0) a b

namespace detail

/-- The shape shared by the kernels `eq`, `lt`, `le`, `gt`, `ge` on batches:
the 8-, 16- and 32-bit integer types dispatch to the comparison intrinsic of
the type (lane predicate `cmp` on the lane values), float dispatches to the
float intrinsic (lane predicate `fcmp`), and the 64-bit integer overload
compares the two lanes as scalars and builds the mask from the two bools. -/
def comparison (cmp : Int → Int → Bool) (fcmp : Nat → Nat → Bool) (t : RegisterType)
    (lhs rhs : List Nat) : List Nat :=
  match t with
  | .uint64x2_t | .int64x2_t =>
    batch_bool_init t [cmp (t.value (get lhs 0)) (t.value (get rhs 0)),
      cmp (t.value (get lhs 1)) (t.value (get rhs 1))]
  | .float32x4_t => vcmpq 32 fcmp lhs rhs
  | _ => vcmpq t.bits (fun x y => cmp (t.value x) (t.value y)) lhs rhs

end detail

/-- Kernel `eq(lhs, rhs)` on batches. -/
def eq (fp : FloatLane) (t : RegisterType) (lhs rhs : List Nat) : List Nat :=
  detail.comparison (fun x y => decide (x = y)) fp.ceq t lhs rhs

/-- Kernel `lt(lhs, rhs)` on batches. -/
def lt (fp : FloatLane) (t : RegisterType) (lhs rhs : List Nat) : List Nat :=
  detail.comparison (fun x y => decide (x < y)) fp.clt t lhs rhs

/-- Kernel `le(lhs, rhs)` on batches. -/
def le (fp : FloatLane) (t : RegisterType) (lhs rhs : List Nat) : List Nat :=
  detail.comparison (fun x y => decide (x ≤ y)) fp.cle t lhs rhs

/-- Kernel `gt(lhs, rhs)` on batches. -/
def gt (fp : FloatLane) (t : RegisterType) (lhs rhs : List Nat) : List Nat :=
  detail.comparison (fun x y => decide (x > y)) fp.cgt t lhs rhs

/-- Kernel `ge(lhs, rhs)` on batches. -/
def ge (fp : FloatLane) (t : RegisterType) (lhs rhs : List Nat) : List Nat :=
  detail.comparison (fun x y => decide (x ≥ y)) fp.cge t lhs rhs

/-- Kernel `eq(lhs, rhs)` on masks: `vceqq_u<w>` on the mask registers of the
8-, 16- and 32-bit lane types (float included), two scalar comparisons of the
lanes read as bools for the 64-bit integer types. -/
def eq_bool (t : RegisterType) (lhs rhs : List Nat) : List Nat :=
  match t with
  | .uint64x2_t | .int64x2_t =>
    batch_bool_init t [get_bool lhs 0 == get_bool rhs 0, get_bool lhs 1 == get_bool rhs 1]
  | _ => vcmpq t.bits (fun x y => decide (x = y)) lhs rhs

/-! ### zip_lo, zip_hi (lines 1411-1535) -/

/-- The lanes of `a` and `b` taken alternately: `a0, b0, a1, b1, ...`. -/
def interleave : List α → List α → List α
  | x :: xs, y :: ys => x :: y :: interleave xs ys
  | _, _ => []

/-- Intrinsic `vzip_<t>(a, b)` on two half registers: `val[0]` is the lower
half and `val[1]` the upper half of the interleaved lanes. -/
def vzip (a b : List α) : List α × List α :=
  ((interleave a b).take a.length, (interleave a b).drop a.length)

/-- Kernel `zip_lo(lhs, rhs)`: `vzip` of the lower halves, combined; for the
64-bit types `vcombine(vget_low(lhs), vget_low(rhs))`. -/
def zip_lo (t : RegisterType) (lhs rhs : List α) : List α :=
  match t with
  | .uint64x2_t | .int64x2_t => vcombine (vget_low lhs) (vget_low rhs)
  | _ =>
    let tmp := vzip (vget_low lhs) (vget_low rhs)
    vcombine tmp.1 tmp.2

/-- Kernel `zip_hi(lhs, rhs)`: `vzip` of the upper halves, combined; for the
64-bit types `vcombine(vget_high(lhs), vget_high(rhs))`. -/
def zip_hi (t : RegisterType) (lhs rhs : List α) : List α :=
  match t with
  | .uint64x2_t | .int64x2_t => vcombine (vget_high lhs) (vget_high rhs)
  | _ =>
    let tmp := vzip (vget_high lhs) (vget_high rhs)
    vcombine tmp.1 tmp.2

/-! ### bitwise_lshift, bitwise_rshift (lines 1693-2049) -/

/-- Intrinsic `vshlq_n_<t>(a, n)` on lanes of `w` bits: shift left by the
constant `n`, the bits leaving the lane being lost. -/
def vshlq_n (w : Nat) (a : List Nat) (n : Nat) : List Nat :=
  a.map (fun x => (x <<< n) % 2 ^ w)

/-- Intrinsic `vshrq_n_<t>(a, n)`: shift right by the constant `n`, logical on
an unsigned type and arithmetic (on the signed value) on a signed type. -/
def vshrq_n (t : RegisterType) (a : List Nat) (n : Nat) : List Nat :=
  a.map (fun x => if t.signed then ofInt t.bits (toInt t.bits x >>> n) else x >>> n)

/-- One lane of the intrinsic `vshlq_<t>(a, b)`: the shift amount is the signed
value of the least significant byte of the lane of `b`; a non-negative amount
shifts left, a negative amount shifts right by its magnitude (logical on an
unsigned type, arithmetic on a signed type). -/
def vshl_lane (t : RegisterType) (x s : Nat) : Nat :=
  if 0 ≤ toInt 8 (s % 256) then
    (x <<< (toInt 8 (s % 256)).toNat) % 2 ^ t.bits
  else if t.signed then
    ofInt t.bits (toInt t.bits x >>> (-(toInt 8 (s % 256))).toNat)
  else
    x >>> (-(toInt 8 (s % 256))).toNat

/-- Intrinsic `vshlq_<t>(a, b)`: shift of every lane of `a` by the signed
amount in the matching lane of `b`. -/
def vshlq (t : RegisterType) (a b : List Nat) : List Nat :=
  List.zipWith (vshl_lane t) a b

/-- Modelled from the spec: the utility `make_int_sequence<N>` of
`xsimd_utils.hpp`, which is not under src/; the constant-amount shifts search
the `bit_width(T)` amounts `0 .. N-1` (§4.4, Shifts). -/
def make_int_sequence (N : Nat) : List Int :=
  (List.range N).map (fun (i : Nat) => (i : Int))

namespace detail

/-- The recursion `detail::bitwise_lshift(lhs, n, int_sequence<I, Is...>)`
(lines 1695-1804): the overload for the empty sequence ends in
`assert(false)`, the others test `n == I` and call `vshlq_n_<t>(lhs, I)`. -/
def bitwise_lshift (t : RegisterType) (lhs : List Nat) (n : Int) :
    List Int → Option (List Nat)
  | [] => none
  | I :: Is =>
    if n = I then
      some (vshlq_n t.bits lhs I.toNat)
    else
      bitwise_lshift t lhs n Is

/-- The entry `detail::bitwise_lshift_impl(lhs, n, int_sequence<0, Is...>)`
(lines 1806-1817). -/
def bitwise_lshift_impl (t : RegisterType) (lhs : List Nat) (n : Int) :
    List Int → Option (List Nat)
  | 0 :: Is =>
    if n = 0 then
      some lhs
    else
      bitwise_lshift t lhs n Is
  | _ => none

/-- The recursion `detail::bitwise_rshift(lhs, n, int_sequence<I, Is...>)`
(lines 1882-1991): as for the left shift, with `vshrq_n_<t>(lhs, I)`. -/
def bitwise_rshift (t : RegisterType) (lhs : List Nat) (n : Int) :
    List Int → Option (List Nat)
  | [] => none
  | I :: Is =>
    if n = I then
      some (vshrq_n t lhs I.toNat)
    else
      bitwise_rshift t lhs n Is

/-- The entry `detail::bitwise_rshift_impl(lhs, n, int_sequence<0, Is...>)`
(lines 1993-2004). -/
def bitwise_rshift_impl (t : RegisterType) (lhs : List Nat) (n : Int) :
    List Int → Option (List Nat)
  | 0 :: Is =>
    if n = 0 then
      some lhs
    else
      bitwise_rshift t lhs n Is
  | _ => none

end detail

/-- Kernel `bitwise_lshift(lhs, n)` with an `int` amount (lines 1820-1826);
`none` when the assertion `0 <= n && n < size` fails, `size` being the bit
width of the lane type.  The overloads of the recursion exist for the eight
integer types only. -/
def bitwise_lshift (t : RegisterType) (lhs : List Nat) (n : Int) : Option (List Nat) :=
  match t with
  | .float32x4_t => none
  | _ =>
    if 0 ≤ n ∧ n < (t.bits : Int) then
      detail.bitwise_lshift_impl t lhs n (make_int_sequence t.bits)
    else
      none

/-- Kernel `bitwise_rshift(lhs, n)` with an `int` amount (lines 2007-2013). -/
def bitwise_rshift (t : RegisterType) (lhs : List Nat) (n : Int) : Option (List Nat) :=
  match t with
  | .float32x4_t => none
  | _ =>
    if 0 ≤ n ∧ n < (t.bits : Int) then
      detail.bitwise_rshift_impl t lhs n (make_int_sequence t.bits)
    else
      none

/-- Modelled from the spec: the trait `as_signed_integer_t<T>` of
`xsimd_utils.hpp`, which is not under src/; the per-lane shift amount is a
batch of the signed-equivalent type (§4.4, Shifts). -/
def as_signed_integer : RegisterType → RegisterType
  | .uint8x16_t | .int8x16_t => .int8x16_t
  | .uint16x8_t | .int16x8_t => .int16x8_t
  | .uint32x4_t | .int32x4_t | .float32x4_t => .int32x4_t
  | .uint64x2_t | .int64x2_t => .int64x2_t

/-- Kernel `bitwise_lshift(lhs, rhs)` with a batch of amounts (lines
1828-1874): `vshlq_<t>(lhs, rhs)` for the eight integer types; there is no
overload for float (`none`). -/
def bitwise_lshift_batch (t : RegisterType) (lhs rhs : List Nat) : Option (List Nat) :=
  match t with
  | .float32x4_t => none
  | _ => some (vshlq t lhs rhs)

/-- Kernel `bitwise_rshift(lhs, rhs)` with a batch of amounts (lines
2015-2049): `vshlq_<t>(lhs, vnegq_s<w>(rhs))` for the 8-, 16- and 32-bit
integer types; there is no overload for the 64-bit types and for float
(`none`). -/
def bitwise_rshift_batch (t : RegisterType) (lhs rhs : List Nat) : Option (List Nat) :=
  match t with
  | .uint8x16_t | .int8x16_t => some (vshlq t lhs (vnegq 8 rhs))
  | .uint16x8_t | .int16x8_t => some (vshlq t lhs (vnegq 16 rhs))
  | .uint32x4_t | .int32x4_t => some (vshlq t lhs (vnegq 32 rhs))
  | .uint64x2_t | .int64x2_t | .float32x4_t => none

/-! ### from_bool (lines 346-398) -/

/-- Intrinsic `vdupq_n_<t>(v)`: every lane of the register holds `v`. -/
def vdupq_n (t : RegisterType) (v : Nat) : List Nat :=
  List.replicate t.size v

/-- The 128 bits of a register of `w`-bit lanes, lane 0 in the lowest bits. -/
def register_bits (w : Nat) : List Nat → Nat
  | [] => 0
  | x :: rest => x + 2 ^ w * register_bits w rest

/-- The `n` lanes of `w` bits that the bits `x` of a register hold, lane 0 in
the lowest bits. -/
def register_lanes (w : Nat) : Nat → Nat → List Nat
  | 0, _ => []
  | n + 1, x => (x % 2 ^ w) :: register_lanes w n (x / 2 ^ w)

/-- Intrinsics `vreinterpretq_<dst>_<src>(a)`: the 128 bits of `a` read as a
register of type `dst`.  Between types of one lane width the lanes keep their
bit patterns; this covers the identity casters `vreinterpretq_<t>_<t>` of lines
71-79, which return their argument. -/
def vreinterpretq (dst src : RegisterType) (a : List Nat) : List Nat :=
  if dst.bits = src.bits then a
  else register_lanes dst.bits dst.size (register_bits src.bits a)

/-- The bit pattern of the binary32 constant `1.f`: sign 0, biased exponent
127, fraction 0. -/
def float_one : Nat := 0x3F800000

/-- Kernel `from_bool(arg)`, one overload per scalar type: the unsigned
overloads compute `vandq_u<w>(arg, vdupq_n_u<w>(1))`, the signed ones
`vandq_s<w>(reinterpret_cast<int<w>x<n>_t>(arg.data), vdupq_n_s<w>(1))` (the
cast keeps the bits of the mask register), and the float overload
`vreinterpretq_f32_u32(vandq_u32(arg, vreinterpretq_u32_f32(vdupq_n_f32(1.f))))`. -/
def from_bool (t : RegisterType) (arg : List Nat) : List Nat :=
  match t with
  | .uint8x16_t | .uint16x8_t | .uint32x4_t | .uint64x2_t => vandq arg (vdupq_n t 1)
  | .int8x16_t | .int16x8_t | .int32x4_t | .int64x2_t => vandq arg (vdupq_n t 1)
  | .float32x4_t =>
    vreinterpretq .float32x4_t .uint32x4_t
      (vandq arg (vreinterpretq .uint32x4_t .float32x4_t (vdupq_n .float32x4_t float_one)))

/-! ### load, store (lines 404-521)

Memory is a function from element index to element, a pointer is an index into
it, and a store returns the memory after the store. -/

/-- Intrinsic `vld1q_<t>(src)` for a register of `n` lanes: lane `k` is
`src[k]`. -/
def vld1q (n : Nat) (memory : Nat → α) (src : Nat) : List α :=
  (List.range n).map (fun k => memory (src + k))

/-- Intrinsic `vst1q_<t>(dst, src)` for a register of `n` lanes: `dst[k]`
becomes lane `k` of `src` for every `k < n`, nothing else is written. -/
def vst1q (n : Nat) (memory : Nat → α) (dst : Nat) (src : List α) : Nat → α :=
  fun j => if dst ≤ j ∧ j < dst + n then (src[j - dst]?).getD (memory j) else memory j

/-- Kernel `load_aligned(src, convert<T>)`: each of the nine overloads calls
`vld1q_<t>(src)` of its register type. -/
def load_aligned (t : RegisterType) (memory : Nat → α) (src : Nat) : List α :=
  vld1q t.size memory src

/-- Kernel `load_unaligned(src, convert<T>)`: `load_aligned<A>(src, convert<T>(), A{})`. -/
def load_unaligned (t : RegisterType) (memory : Nat → α) (src : Nat) : List α :=
  load_aligned t memory src

/-- Kernel `store_aligned(dst, src)`: each of the nine overloads calls
`vst1q_<t>(dst, src)` of its register type. -/
def store_aligned (t : RegisterType) (memory : Nat → α) (dst : Nat) (src : List α) :
    Nat → α :=
  vst1q t.size memory dst src

/-- Kernel `store_unaligned(dst, src)`: `store_aligned<A>(dst, src, A{})`. -/
def store_unaligned (t : RegisterType) (memory : Nat → α) (dst : Nat) (src : List α) :
    Nat → α :=
  store_aligned t memory dst src

/-! ### load_complex, store_complex (lines 527-562)

A batch of complex numbers is the pair `(real, imag)` of its two real batches.
The pointer to `std::complex<float>` is used as a pointer to `float`
(`reinterpret_cast`): complex number `k` lies at the floats `2k` and `2k + 1`. -/

/-- Intrinsic `vld2q_<t>(buf)` for registers of `n` lanes: de-interleaving load
of `2n` elements, `val[0]` lane `k` is `buf[2k]` and `val[1]` lane `k` is
`buf[2k + 1]`. -/
def vld2q (n : Nat) (memory : Nat → α) (buf : Nat) : List α × List α :=
  ((List.range n).map (fun k => memory (buf + 2 * k)),
    (List.range n).map (fun k => memory (buf + 2 * k + 1)))

/-- Intrinsic `vst2q_<t>(buf, tmp)` for registers of `n` lanes: interleaving
store of `2n` elements, `buf[2k]` becomes lane `k` of `val[0]` and `buf[2k + 1]`
lane `k` of `val[1]`. -/
def vst2q (n : Nat) (memory : Nat → α) (buf : Nat) (tmp : List α × List α) : Nat → α :=
  fun j =>
    if buf ≤ j ∧ j < buf + 2 * n then
      ((if (j - buf) % 2 = 0 then tmp.1 else tmp.2)[(j - buf) / 2]?).getD (memory j)
    else memory j

/-- Kernel `load_complex_aligned(mem, convert<std::complex<float>>)`:
`tmp = vld2q_f32(buf)`, `real = tmp.val[0]`, `imag = tmp.val[1]`. -/
def load_complex_aligned (memory : Nat → α) (mem : Nat) : List α × List α :=
  let buf := mem
  let tmp := vld2q RegisterType.float32x4_t.size memory buf
  let real := tmp.1
  let imag := tmp.2
  (real, imag)

/-- Kernel `load_complex_unaligned(mem, cvt)`: `load_complex_aligned<A>(mem, cvt, A{})`. -/
def load_complex_unaligned (memory : Nat → α) (mem : Nat) : List α × List α :=
  load_complex_aligned memory mem

/-- Kernel `store_complex_aligned(dst, src)`: `tmp.val[0] = src.real()`,
`tmp.val[1] = src.imag()`, `vst2q_f32(buf, tmp)`. -/
def store_complex_aligned (memory : Nat → α) (dst : Nat) (src : List α × List α) :
    Nat → α :=
  let tmp := (src.1, src.2)
  let buf := dst
  vst2q RegisterType.float32x4_t.size memory buf tmp

/-- Kernel `store_complex_unaligned(dst, src)`: `store_complex_aligned(dst, src, A{})`. -/
def store_complex_unaligned (memory : Nat → α) (dst : Nat) (src : List α × List α) :
    Nat → α :=
  store_complex_aligned memory dst src

/-! ### bitwise_cast (lines 2131-2246) -/

namespace detail

/-- A function pointer `R (*)(U)` stored in a caster tuple: its return type,
its argument type and the function. -/
structure caster_function where
  R : RegisterType
  U : RegisterType
  func : List Nat → List Nat

/-- Modelled from the spec: the tuple accessor `xsimd::detail::get<T>(tuple)` of
`xsimd_utils.hpp`, which is not under src/; it projects the element of type `T`
out of the tuple (§4.3, the lookup is keyed by the register type).  The
predicate `is_T` says which elements have the type asked for; no element of
that type is a build error (`none`). -/
def get {β : Type} (is_T : β → Bool) (tuple : List β) : Option β :=
  tuple.find? is_T

/-- Struct `bitwise_caster_impl<R, T...>`: the tuple `m_func` of the casters
`R (*)(T)...` to the register type `R`. -/
structure bitwise_caster_impl where
  R : RegisterType
  m_func : List caster_function

/-- Member `bitwise_caster_impl<R, T...>::apply(U rhs)`:
`func = get<R (*)(U)>(m_func); return func(rhs);`. -/
def bitwise_caster_impl.apply (c : bitwise_caster_impl) (U : RegisterType)
    (rhs : List Nat) : Option (List Nat) :=
  (get (fun (f : caster_function) => decide (f.R = c.R ∧ f.U = U)) c.m_func).map
    (fun func => func.func rhs)

/-- Helper `make_bitwise_caster_impl(arg...)`: the tuple of the pointers `arg`,
`R` being their common return type (deduced by the compiler, written out
here). -/
def make_bitwise_caster_impl (R : RegisterType) (arg : List caster_function) :
    bitwise_caster_impl :=
  ⟨R, arg⟩

/-- Struct `bitwise_caster<type_list<R...>, type_list<T...>>`: the tuple
`m_caster` of one `bitwise_caster_impl<R, T...>` per destination type. -/
structure bitwise_caster where
  m_caster : List bitwise_caster_impl

/-- Member `bitwise_caster::apply<V>(U rhs)`:
`caster = get<bitwise_caster_impl<V, T...>>(m_caster); return caster.apply(rhs);`. -/
def bitwise_caster.apply (c : bitwise_caster) (V U : RegisterType) (rhs : List Nat) :
    Option (List Nat) :=
  (get (fun (r : bitwise_caster_impl) => decide (r.R = V)) c.m_caster).bind
    (fun caster => caster.apply U rhs)

end detail

namespace wrap

/-- The wrappers `wrap::vreinterpretq_<dst>_<src>` generated by `WRAP_CAST`:
a function from the register type `src` to the register type `dst` that calls
the intrinsic `::vreinterpretq_<dst>_<src>`. -/
def vreinterpretq (dst src : RegisterType) : detail.caster_function :=
  ⟨dst, src, neon.vreinterpretq dst src⟩

end wrap

/-- The constant `caster` of `bitwise_cast`: nine rows, one per destination
type, of nine wrappers each, in the order of the source. -/
def bitwise_cast_caster : detail.bitwise_caster :=
  ⟨[
  detail.make_bitwise_caster_impl .uint8x16_t [
      wrap.vreinterpretq .uint8x16_t .uint8x16_t, wrap.vreinterpretq .uint8x16_t .int8x16_t, wrap.vreinterpretq .uint8x16_t .uint16x8_t,
      wrap.vreinterpretq .uint8x16_t .int16x8_t, wrap.vreinterpretq .uint8x16_t .uint32x4_t, wrap.vreinterpretq .uint8x16_t .int32x4_t,
      wrap.vreinterpretq .uint8x16_t .uint64x2_t, wrap.vreinterpretq .uint8x16_t .int64x2_t, wrap.vreinterpretq .uint8x16_t .float32x4_t],
  detail.make_bitwise_caster_impl .int8x16_t [
      wrap.vreinterpretq .int8x16_t .uint8x16_t, wrap.vreinterpretq .int8x16_t .int8x16_t, wrap.vreinterpretq .int8x16_t .uint16x8_t,
      wrap.vreinterpretq .int8x16_t .int16x8_t, wrap.vreinterpretq .int8x16_t .uint32x4_t, wrap.vreinterpretq .int8x16_t .int32x4_t,
      wrap.vreinterpretq .int8x16_t .uint64x2_t, wrap.vreinterpretq .int8x16_t .int64x2_t, wrap.vreinterpretq .int8x16_t .float32x4_t],
  detail.make_bitwise_caster_impl .uint16x8_t [
      wrap.vreinterpretq .uint16x8_t .uint8x16_t, wrap.vreinterpretq .uint16x8_t .int8x16_t, wrap.vreinterpretq .uint16x8_t .uint16x8_t,
      wrap.vreinterpretq .uint16x8_t .int16x8_t, wrap.vreinterpretq .uint16x8_t .uint32x4_t, wrap.vreinterpretq .uint16x8_t .int32x4_t,
      wrap.vreinterpretq .uint16x8_t .uint64x2_t, wrap.vreinterpretq .uint16x8_t .int64x2_t, wrap.vreinterpretq .uint16x8_t .float32x4_t],
  detail.make_bitwise_caster_impl .int16x8_t [
      wrap.vreinterpretq .int16x8_t .uint8x16_t, wrap.vreinterpretq .int16x8_t .int8x16_t, wrap.vreinterpretq .int16x8_t .uint16x8_t,
      wrap.vreinterpretq .int16x8_t .int16x8_t, wrap.vreinterpretq .int16x8_t .uint32x4_t, wrap.vreinterpretq .int16x8_t .int32x4_t,
      wrap.vreinterpretq .int16x8_t .uint64x2_t, wrap.vreinterpretq .int16x8_t .int64x2_t, wrap.vreinterpretq .int16x8_t .float32x4_t],
  detail.make_bitwise_caster_impl .uint32x4_t [
      wrap.vreinterpretq .uint32x4_t .uint8x16_t, wrap.vreinterpretq .uint32x4_t .int8x16_t, wrap.vreinterpretq .uint32x4_t .uint16x8_t,
      wrap.vreinterpretq .uint32x4_t .int16x8_t, wrap.vreinterpretq .uint32x4_t .uint32x4_t, wrap.vreinterpretq .uint32x4_t .int32x4_t,
      wrap.vreinterpretq .uint32x4_t .uint64x2_t, wrap.vreinterpretq .uint32x4_t .int64x2_t, wrap.vreinterpretq .uint32x4_t .float32x4_t],
  detail.make_bitwise_caster_impl .int32x4_t [
      wrap.vreinterpretq .int32x4_t .uint8x16_t, wrap.vreinterpretq .int32x4_t .int8x16_t, wrap.vreinterpretq .int32x4_t .uint16x8_t,
      wrap.vreinterpretq .int32x4_t .int16x8_t, wrap.vreinterpretq .int32x4_t .uint32x4_t, wrap.vreinterpretq .int32x4_t .int32x4_t,
      wrap.vreinterpretq .int32x4_t .uint64x2_t, wrap.vreinterpretq .int32x4_t .int64x2_t, wrap.vreinterpretq .int32x4_t .float32x4_t],
  detail.make_bitwise_caster_impl .uint64x2_t [
      wrap.vreinterpretq .uint64x2_t .uint8x16_t, wrap.vreinterpretq .uint64x2_t .int8x16_t, wrap.vreinterpretq .uint64x2_t .uint16x8_t,
      wrap.vreinterpretq .uint64x2_t .int16x8_t, wrap.vreinterpretq .uint64x2_t .uint32x4_t, wrap.vreinterpretq .uint64x2_t .int32x4_t,
      wrap.vreinterpretq .uint64x2_t .uint64x2_t, wrap.vreinterpretq .uint64x2_t .int64x2_t, wrap.vreinterpretq .uint64x2_t .float32x4_t],
  detail.make_bitwise_caster_impl .int64x2_t [
      wrap.vreinterpretq .int64x2_t .uint8x16_t, wrap.vreinterpretq .int64x2_t .int8x16_t, wrap.vreinterpretq .int64x2_t .uint16x8_t,
      wrap.vreinterpretq .int64x2_t .int16x8_t, wrap.vreinterpretq .int64x2_t .uint32x4_t, wrap.vreinterpretq .int64x2_t .int32x4_t,
      wrap.vreinterpretq .int64x2_t .uint64x2_t, wrap.vreinterpretq .int64x2_t .int64x2_t, wrap.vreinterpretq .int64x2_t .float32x4_t],
  detail.make_bitwise_caster_impl .float32x4_t [
      wrap.vreinterpretq .float32x4_t .uint8x16_t, wrap.vreinterpretq .float32x4_t .int8x16_t, wrap.vreinterpretq .float32x4_t .uint16x8_t,
      wrap.vreinterpretq .float32x4_t .int16x8_t, wrap.vreinterpretq .float32x4_t .uint32x4_t, wrap.vreinterpretq .float32x4_t .int32x4_t,
      wrap.vreinterpretq .float32x4_t .uint64x2_t, wrap.vreinterpretq .float32x4_t .int64x2_t, wrap.vreinterpretq .float32x4_t .float32x4_t]]⟩

/-- Kernel `bitwise_cast(arg, batch<R, A>)` from register type `T` to register
type `R`: `caster.apply<dst_register_type>(src_register_type(arg))`. -/
def bitwise_cast (T R : RegisterType) (arg : List Nat) : Option (List Nat) :=
  bitwise_cast_caster.apply R T arg

/-! ### to_int, to_float, fast_cast (lines 2266-2297) -/

/-- The position of the highest set bit of `m`, for `0 < m < 2 ^ fuel`. -/
def highest_bit : Nat → Nat → Nat
  | 0, _ => 0
  | fuel + 1, m => if m < 2 then 0 else highest_bit fuel (m / 2) + 1

/-- The binary32 bit pattern of the integer `z` of the `int32_t` range, rounded
to nearest, ties to even: what `vcvtq_f32_s32` computes in one lane (default
rounding mode). -/
def float_of_int (z : Int) : Nat :=
  if z = 0 then 0
  else
    let sign := if z < 0 then 2 ^ 31 else 0
    let m := z.natAbs
    let e := highest_bit 32 m
    let q :=
      if e ≤ 23 then m * 2 ^ (23 - e)
      else
        let q := m / 2 ^ (e - 23)
        let r := m % 2 ^ (e - 23)
        if 2 ^ (e - 23) < 2 * r ∨ (2 * r = 2 ^ (e - 23) ∧ q % 2 = 1) then q + 1 else q
    sign + (e + 127) * 2 ^ 23 + (q - 2 ^ 23)

/-- The integer that `vcvtq_s32_f32` computes in one lane from the binary32 bit
pattern `x`: the value rounded toward zero and saturated to the `int32_t`
range, `0` for a NaN. -/
def int_of_float (x : Nat) : Int :=
  let s := x / 2 ^ 31 % 2
  let e := x / 2 ^ 23 % 2 ^ 8
  let m := x % 2 ^ 23
  if e = 255 ∧ m ≠ 0 then 0
  else
    let mag : Nat :=
      if e = 0 then 0
      else if 150 ≤ e then (2 ^ 23 + m) * 2 ^ (e - 150)
      else (2 ^ 23 + m) / 2 ^ (150 - e)
    let z : Int := if s = 1 then -(mag : Int) else (mag : Int)
    max (-(2 ^ 31)) (min z (2 ^ 31 - 1))

/-- Intrinsic `vcvtq_s32_f32`. -/
def vcvtq_s32_f32 (a : List Nat) : List Nat :=
  a.map (fun x => ofInt 32 (int_of_float x))

/-- Intrinsic `vcvtq_f32_s32`. -/
def vcvtq_f32_s32 (a : List Nat) : List Nat :=
  a.map (fun x => float_of_int (toInt 32 x))

/-- Kernel `to_int(x)`: `vcvtq_s32_f32(x)`. -/
def to_int (x : List Nat) : List Nat :=
  vcvtq_s32_f32 x

/-- Kernel `to_float(x)`: `vcvtq_f32_s32(x)`. -/
def to_float (x : List Nat) : List Nat :=
  vcvtq_f32_s32 x

namespace detail

/-- Helper `detail::fast_cast(in, out)` from scalar type `Tin` (register type
`tin`) to `Tout` (register type `tout`): `bitwise_cast(in, out, A{})`. -/
def fast_cast (tin tout : RegisterType) (x : List Nat) : Option (List Nat) :=
  bitwise_cast tin tout x

end detail

/-! ### Enabling predicates (lines 219-250) and overload sets

A scalar type `T` is named by the register type of its batches. -/

namespace detail

/-- Operator `sizeof(T)`, in bytes. -/
def sizeof (t : RegisterType) : Nat :=
  t.bits / 8

/-- Standard trait `std::is_integral<T>`. -/
def is_integral (t : RegisterType) : Bool :=
  t.integral

/-- Standard trait `std::is_signed<T>`: true for the signed integer types and
for `float`. -/
def is_signed : RegisterType → Bool
  | .int8x16_t | .int16x8_t | .int32x4_t | .int64x2_t | .float32x4_t => true
  | _ => false

/-- Standard trait `std::is_same<T, float>`. -/
def is_same_float : RegisterType → Bool
  | .float32x4_t => true
  | _ => false

/-- Predicate `enable_integral_t<T>`. -/
def enable_integral_t (t : RegisterType) : Bool :=
  is_integral t

/-- Predicate `enable_neon_type_t<T>`. -/
def enable_neon_type_t (t : RegisterType) : Bool :=
  is_integral t || is_same_float t

/-- Predicate `enable_sized_signed_t<T, S>`. -/
def enable_sized_signed_t (t : RegisterType) (S : Nat) : Bool :=
  is_integral t && is_signed t && sizeof t == S

/-- Predicate `enable_sized_unsigned_t<T, S>`. -/
def enable_sized_unsigned_t (t : RegisterType) (S : Nat) : Bool :=
  is_integral t && !is_signed t && sizeof t == S

/-- Predicate `enable_sized_integral_t<T, S>`. -/
def enable_sized_integral_t (t : RegisterType) (S : Nat) : Bool :=
  is_integral t && sizeof t == S

/-- Predicate `enable_sized_t<T, S>`. -/
def enable_sized_t (t : RegisterType) (S : Nat) : Bool :=
  sizeof t == S

/-- Predicate `exclude_int64_neon_t<T>`. -/
def exclude_int64_neon_t (t : RegisterType) : Bool :=
  (is_integral t && sizeof t != 8) || is_same_float t

end detail

/-- The kernels whose overloads on batches are told apart by the enabling
predicates alone. -/
inductive Operation
  | eq | lt | le | gt | ge | min | max
  | broadcast | from_bool | load_aligned | store_aligned | neg | zip_lo | zip_hi
  | hadd
  | all | any
  deriving DecidableEq, Repr

/-- The overload set of an operation: for each overload, in the order of the
source, the condition on the scalar type `T` under which it takes part in
overload resolution.  An overload written for `batch<float, A>` takes part for
`T = float` only. -/
def overloads : Operation → List (RegisterType → Bool)
  | .eq | .lt | .le | .gt | .ge | .min | .max =>
    [detail.exclude_int64_neon_t, fun t => detail.enable_sized_integral_t t 8]
  | .broadcast | .from_bool | .load_aligned | .store_aligned | .neg | .zip_lo | .zip_hi =>
    [fun t => detail.enable_sized_unsigned_t t 1, fun t => detail.enable_sized_signed_t t 1,
      fun t => detail.enable_sized_unsigned_t t 2, fun t => detail.enable_sized_signed_t t 2,
      fun t => detail.enable_sized_unsigned_t t 4, fun t => detail.enable_sized_signed_t t 4,
      fun t => detail.enable_sized_unsigned_t t 8, fun t => detail.enable_sized_signed_t t 8,
      detail.is_same_float]
  | .hadd =>
    [fun t => detail.enable_sized_unsigned_t t 1, fun t => detail.enable_sized_signed_t t 1,
      fun t => detail.enable_sized_unsigned_t t 2, fun t => detail.enable_sized_signed_t t 2,
      fun t => detail.enable_sized_unsigned_t t 4, fun t => detail.enable_sized_signed_t t 4,
      fun t => detail.enable_sized_integral_t t 8,
      detail.is_same_float]
  | .all | .any =>
    [fun t => detail.enable_sized_t t 1, fun t => detail.enable_sized_t t 2,
      fun t => detail.enable_sized_t t 4, fun t => detail.enable_sized_t t 8]

/-! ### min, max, abs (lines 1122-1211) -/

/-- Intrinsics `vminq_<t>` of the 8-, 16- and 32-bit integer types: the lane of
smaller value. -/
def vminq (t : RegisterType) (a b : List Nat) : List Nat :=
  List.zipWith (fun x y => if t.value y < t.value x then y else x) a b

/-- Intrinsics `vmaxq_<t>` of the 8-, 16- and 32-bit integer types: the lane of
larger value. -/
def vmaxq (t : RegisterType) (a b : List Nat) : List Nat :=
  List.zipWith (fun x y => if t.value x < t.value y then y else x) a b

/-- Standard `std::min(a, b)` on two scalars of the integer type: `b` when
`b < a`, else `a`. -/
def std_min (t : RegisterType) (a b : Nat) : Nat :=
  if t.value b < t.value a then b else a

/-- Standard `std::max(a, b)` on two scalars of the integer type: `b` when
`a < b`, else `a`. -/
def std_max (t : RegisterType) (a b : Nat) : Nat :=
  if t.value a < t.value b then b else a

/-- Kernel `min(lhs, rhs)`: the dispatcher picks `vminq_<t>` for the 8-, 16- and
32-bit integer types and `vminq_f32` for float (lane operation `fmin`); the
64-bit overload is `{std::min(lhs.get(0), rhs.get(0)),
std::min(lhs.get(1), rhs.get(1))}`. -/
def min (fmin : Nat → Nat → Nat) (t : RegisterType) (lhs rhs : List Nat) : List Nat :=
  match t with
  | .uint64x2_t | .int64x2_t =>
    batch_init [std_min t (get lhs 0) (get rhs 0), std_min t (get lhs 1) (get rhs 1)]
  | .float32x4_t => List.zipWith fmin lhs rhs
  | _ => vminq t lhs rhs

/-- Kernel `max(lhs, rhs)`: as `min`, with `vmaxq_<t>`, `vmaxq_f32` (lane
operation `fmax`) and `std::max`. -/
def max (fmax : Nat → Nat → Nat) (t : RegisterType) (lhs rhs : List Nat) : List Nat :=
  match t with
  | .uint64x2_t | .int64x2_t =>
    batch_init [std_max t (get lhs 0) (get rhs 0), std_max t (get lhs 1) (get rhs 1)]
  | .float32x4_t => List.zipWith fmax lhs rhs
  | _ => vmaxq t lhs rhs

/-- Intrinsics `vabsq_s<w>`: the absolute value of every signed lane, wrapped to
`w` bits. -/
def vabsq (w : Nat) (a : List Nat) : List Nat :=
  a.map (fun x => ofInt w ((toInt w x).natAbs : Int))

/-- Intrinsic `vabsq_f32`: the sign bit of every lane is cleared. -/
def vabsq_f32 (a : List Nat) : List Nat :=
  a.map (fun x => x % 2 ^ 31)

namespace detail

/-- Helper `detail::abs_u8`: `return arg;`. -/
def abs_u8 (arg : List Nat) : List Nat :=
  arg

/-- Helper `detail::abs_u16`: `return arg;`. -/
def abs_u16 (arg : List Nat) : List Nat :=
  arg

/-- Helper `detail::abs_u32`: `return arg;`. -/
def abs_u32 (arg : List Nat) : List Nat :=
  arg

end detail

/-- Kernel `abs(arg)`: the only overload is enabled by `exclude_int64_neon_t<T>`
and its dispatcher holds `abs_u8`, `vabsq_s8`, `abs_u16`, `vabsq_s16`,
`abs_u32`, `vabsq_s32`, `vabsq_f32`; there is no overload for the 64-bit
integer types (`none`). -/
def abs (t : RegisterType) (arg : List Nat) : Option (List Nat) :=
  match t with
  | .uint8x16_t => some (detail.abs_u8 arg)
  | .int8x16_t => some (vabsq 8 arg)
  | .uint16x8_t => some (detail.abs_u16 arg)
  | .int16x8_t => some (vabsq 16 arg)
  | .uint32x4_t => some (detail.abs_u32 arg)
  | .int32x4_t => some (vabsq 32 arg)
  | .float32x4_t => some (vabsq_f32 arg)
  | .uint64x2_t | .int64x2_t => none

/-! ### Float arithmetic: div (lines 738-753), sqrt (lines 1217-1226), fused
operations (lines 1232-1244) -/

/-- The lane operations behind the float arithmetic intrinsics, on a carrier
`β`: the binary32 bit patterns for the hardware, a field when the arithmetic is
taken to be exact. -/
structure FloatArith (β : Type) where
  neg : β → β
  mul : β → β → β
  fma : β → β → β → β
  recpe : β → β
  recps : β → β → β
  rsqrte : β → β
  rsqrts : β → β → β

/-- Exact arithmetic on a field: every operation returns its documented result
without rounding, `vnegq(a) = -a`, `vmulq(a, b) = a * b`,
`vfmaq(a, b, c) = a + b * c`, `vrecpsq(a, b) = 2 - a * b`,
`vrsqrtsq(a, b) = (3 - a * b) / 2`; the two table-driven estimates `vrecpeq`
and `vrsqrteq` stay parameters. -/
def FloatArith.exact {R : Type} [Field R] (recpe rsqrte : R → R) : FloatArith R :=
  ⟨fun a => -a, fun a b => a * b, fun a b c => a + b * c, recpe, fun a b => 2 - a * b,
    rsqrte, fun a b => (3 - a * b) / 2⟩

/-- A lane operation of three operands applied lane by lane. -/
def map3 {β : Type} (f : β → β → β → β) : List β → List β → List β → List β
  | a :: as, b :: bs, c :: cs => f a b c :: map3 f as bs cs
  | _, _, _ => []

/-- Intrinsic `vnegq_f32`. -/
def vnegq_f32 {β : Type} (fa : FloatArith β) (a : List β) : List β :=
  a.map fa.neg

/-- Intrinsic `vmulq_f32`. -/
def vmulq_f32 {β : Type} (fa : FloatArith β) (a b : List β) : List β :=
  List.zipWith fa.mul a b

/-- Intrinsic `vfmaq_f32(a, b, c)`: `a + b * c` in every lane, fused. -/
def vfmaq_f32 {β : Type} (fa : FloatArith β) (a b c : List β) : List β :=
  map3 fa.fma a b c

/-- Intrinsic `vrecpeq_f32`: the reciprocal estimate. -/
def vrecpeq_f32 {β : Type} (fa : FloatArith β) (a : List β) : List β :=
  a.map fa.recpe

/-- Intrinsic `vrecpsq_f32(a, b)`: the Newton-Raphson step factor of the
reciprocal. -/
def vrecpsq_f32 {β : Type} (fa : FloatArith β) (a b : List β) : List β :=
  List.zipWith fa.recps a b

/-- Intrinsic `vrsqrteq_f32`: the reciprocal square root estimate. -/
def vrsqrteq_f32 {β : Type} (fa : FloatArith β) (a : List β) : List β :=
  a.map fa.rsqrte

/-- Intrinsic `vrsqrtsq_f32(a, b)`: the Newton-Raphson step factor of the
reciprocal square root. -/
def vrsqrtsq_f32 {β : Type} (fa : FloatArith β) (a b : List β) : List β :=
  List.zipWith fa.rsqrts a b

/-- Kernel `div(lhs, rhs)` on float batches. -/
def div {β : Type} (fa : FloatArith β) (lhs rhs : List β) : List β :=
  let reciprocal := vrecpeq_f32 fa rhs
  let reciprocal := vmulq_f32 fa (vrecpsq_f32 fa rhs reciprocal) reciprocal
  let reciprocal := vmulq_f32 fa (vrecpsq_f32 fa rhs reciprocal) reciprocal
  vmulq_f32 fa lhs reciprocal

/-- The local `sqrt_approx` of the kernel `sqrt`: the estimate `vrsqrteq_f32(arg)`
refined once, then `arg * sqrt_reciprocal * vrsqrtsq_f32(arg * sqrt_reciprocal,
sqrt_reciprocal)`.  The operator `*` of `batch` (`xsimd_batch.hpp`, not under
src/) is the kernel `mul`, `vmulq_f32` on float. -/
def sqrt_approx (fa : FloatArith Nat) (arg : List Nat) : List Nat :=
  let sqrt_reciprocal := vrsqrteq_f32 fa arg
  let sqrt_reciprocal := vmulq_f32 fa sqrt_reciprocal
    (vrsqrtsq_f32 fa (vmulq_f32 fa arg sqrt_reciprocal) sqrt_reciprocal)
  vmulq_f32 fa (vmulq_f32 fa arg sqrt_reciprocal)
    (vrsqrtsq_f32 fa (vmulq_f32 fa arg sqrt_reciprocal) sqrt_reciprocal)

/-- Kernel `sqrt(arg)` on float batches, lanes being binary32 bit patterns:
`zero` is the batch of `0.f` (bit pattern 0) and the result is
`select(arg == zero, zero, sqrt_approx)`, the operator `==` of `batch` being
the kernel `eq`. -/
def sqrt (fp : FloatLane) (fa : FloatArith Nat) (arg : List Nat) : List Nat :=
  let sqrt_approx := sqrt_approx fa arg
  let zero := broadcast .float32x4_t 0
  select .float32x4_t (eq fp .float32x4_t arg zero) zero sqrt_approx

/-- Kernel `fma(x, y, z)` on float batches, compiled under `__ARM_FEATURE_FMA`:
`vfmaq_f32(z, x, y)`. -/
def fma {β : Type} (fa : FloatArith β) (x y z : List β) : List β :=
  vfmaq_f32 fa z x y

/-- Kernel `fms(x, y, z)` on float batches, compiled under `__ARM_FEATURE_FMA`:
`vfmaq_f32(-z, x, y)`, the unary minus of `batch` being the kernel `neg`,
`vnegq_f32` on float. -/
def fms {β : Type} (fa : FloatArith β) (x y z : List β) : List β :=
  vfmaq_f32 fa (vnegq_f32 fa z) x y

end neon

/-! ## Generic kernel: loads with conversion and complex load, store
(xsimd_generic_memory.hpp, lines 52-92 and 120-181) -/

namespace generic

variable {α β γ : Type}

/-- Modelled from the spec: the tags `with_fast_conversion` and
`with_slow_conversion` of `xsimd_generic_details.hpp`, which is not under src/;
`detail::conversion_type<A, T_in, T_out>` is one of the two (§3, Conversion
policy). -/
inductive conversion_type
  | with_fast_conversion
  | with_slow_conversion
  deriving DecidableEq, Repr

/-- Modelled from the spec: the member `batch<T, A>::load_aligned(p)` of
`xsimd_batch.hpp`, which is not under src/, called with a pointer to `T`: it
reads the `size` contiguous elements that start at `p` (§4.4, Load/store). -/
def batch_load_aligned (size : Nat) (memory : Nat → α) (p : Nat) : List α :=
  (List.range size).map (fun k => memory (p + k))

/-- Modelled from the spec: the member `batch<T, A>::load_unaligned(p)` of
`xsimd_batch.hpp`, which is not under src/; as `load_aligned` without the
alignment precondition (§4.4, Load/store). -/
def batch_load_unaligned (size : Nat) (memory : Nat → α) (p : Nat) : List α :=
  (List.range size).map (fun k => memory (p + k))

/-- Modelled from the spec: the member `batch<T, A>::store_aligned(p)` of
`xsimd_batch.hpp`, which is not under src/, called with a pointer to `T`: it
writes the lanes of the batch to the contiguous elements that start at `p`
(§4.4, Store mirrors load). -/
def batch_store_aligned (memory : Nat → α) (p : Nat) (b : List α) : Nat → α :=
  fun j => if p ≤ j then (b[j - p]?).getD (memory j) else memory j

/-- Modelled from the spec: the member `batch<T, A>::store_unaligned(p)` of
`xsimd_batch.hpp`, which is not under src/; as `store_aligned` without the
alignment precondition. -/
def batch_store_unaligned (memory : Nat → α) (p : Nat) (b : List α) : Nat → α :=
  fun j => if p ≤ j then (b[j - p]?).getD (memory j) else memory j

/-- Standard algorithm `std::copy(first, first + n, out)` into a stack buffer:
`out[k] = first[k]` for `k = 0 .. n - 1` in this order, the assignment
converting the element to the element type of the buffer (`conv`). -/
def std_copy (conv : α → β) (memory : Nat → α) (first n : Nat) (out : List (Option β)) :
    List (Option β) :=
  (List.range n).foldl (fun buffer k => buffer.set k (some (conv (memory (first + k))))) out

namespace detail

/-- Helper `detail::load_aligned(mem, convert<T_out>, generic, with_fast_conversion)`:
`fast_cast(batch_type_in::load_aligned(mem), batch_type_out(), A{})`.  The
batch size `size_in` and `fast_cast` come from the architecture `A`. -/
def load_aligned_with_fast_conversion (size_in : Nat)
    (fast_cast : List α → Option (List β)) (memory : Nat → α) (mem : Nat) :
    Option (List β) :=
  fast_cast (batch_load_aligned size_in memory mem)

/-- Helper `detail::load_aligned(mem, convert<T_out>, generic, with_slow_conversion)`:
the uninitialised stack buffer `T_out buffer[batch_type_out::size]` is filled
by `std::copy(mem, mem + batch_type_out::size, std::begin(buffer))` and the
batch is loaded from it; a lane is `none` when the buffer element was never
written. -/
def load_aligned_with_slow_conversion (size_out : Nat) (conv : α → β)
    (memory : Nat → α) (mem : Nat) : List (Option β) :=
  let buffer : List (Option β) := List.replicate size_out none
  let buffer := std_copy conv memory mem size_out buffer
  buffer

/-- Helper `detail::load_unaligned(mem, convert<T_out>, generic, with_fast_conversion)`:
`fast_cast(batch_type_in::load_unaligned(mem), batch_type_out(), A{})`. -/
def load_unaligned_with_fast_conversion (size_in : Nat)
    (fast_cast : List α → Option (List β)) (memory : Nat → α) (mem : Nat) :
    Option (List β) :=
  fast_cast (batch_load_unaligned size_in memory mem)

/-- Helper `detail::load_unaligned(mem, cvt, generic, with_slow_conversion)`:
`load_aligned<A>(mem, cvt, generic{}, with_slow_conversion{})`. -/
def load_unaligned_with_slow_conversion (size_out : Nat) (conv : α → β)
    (memory : Nat → α) (mem : Nat) : List (Option β) :=
  load_aligned_with_slow_conversion size_out conv memory mem

end detail

/-- Generic `load_aligned(mem, convert<T_out>)` for `T_in != T_out`: the
overload of `detail::load_aligned` that the tag
`detail::conversion_type<A, T_in, T_out>` selects.  The result is `none` when
the cast of the fast path has no value. -/
def load_aligned (size_in size_out : Nat) (conv : α → β)
    (fast_cast : List α → Option (List β)) (memory : Nat → α) (mem : Nat) :
    conversion_type → Option (List (Option β))
  | .with_fast_conversion =>
    (detail.load_aligned_with_fast_conversion size_in fast_cast memory mem).map
      (fun b => b.map some)
  | .with_slow_conversion =>
    some (detail.load_aligned_with_slow_conversion size_out conv memory mem)

/-- Generic `load_unaligned(mem, convert<T_out>)` for `T_in != T_out`: the
overload of `detail::load_unaligned` that the tag selects. -/
def load_unaligned (size_in size_out : Nat) (conv : α → β)
    (fast_cast : List α → Option (List β)) (memory : Nat → α) (mem : Nat) :
    conversion_type → Option (List (Option β))
  | .with_fast_conversion =>
    (detail.load_unaligned_with_fast_conversion size_in fast_cast memory mem).map
      (fun b => b.map some)
  | .with_slow_conversion =>
    some (detail.load_unaligned_with_slow_conversion size_out conv memory mem)

/-- Generic `load_complex_aligned(mem, convert<std::complex<T_out>>)` at
`T_in = T_out`: `hi = real_batch::load_aligned(buffer)`,
`lo = real_batch::load_aligned(buffer + real_batch::size)`,
`return detail::load_complex(hi, lo, A{})`.  The generic `detail::load_complex`
is a `static_assert`; the architecture supplies it (`load_complex`). -/
def load_complex_aligned (size : Nat) (load_complex : List α → List α → γ)
    (memory : Nat → α) (mem : Nat) : γ :=
  let buffer := mem
  let hi := batch_load_aligned size memory buffer
  let lo := batch_load_aligned size memory (buffer + size)
  load_complex hi lo

/-- Generic `load_complex_unaligned(mem, convert<std::complex<T_out>>)`: as the
aligned kernel with `real_batch::load_unaligned`. -/
def load_complex_unaligned (size : Nat) (load_complex : List α → List α → γ)
    (memory : Nat → α) (mem : Nat) : γ :=
  let buffer := mem
  let hi := batch_load_unaligned size memory buffer
  let lo := batch_load_unaligned size memory (buffer + size)
  load_complex hi lo

/-- Generic `store_complex_aligned(dst, src)` at `T_in = T_out`:
`hi = detail::complex_high(src, A{})`, `lo = detail::complex_low(src, A{})`,
`lo.store_aligned(buffer)`, `hi.store_aligned(buffer + real_batch::size)`.  The
generic `detail::complex_high` and `detail::complex_low` are `static_assert`s;
the architecture supplies them. -/
def store_complex_aligned (size : Nat) (complex_high complex_low : γ → List α)
    (memory : Nat → α) (dst : Nat) (src : γ) : Nat → α :=
  let hi := complex_high src
  let lo := complex_low src
  let buffer := dst
  let memory := batch_store_aligned memory buffer lo
  batch_store_aligned memory (buffer + size) hi

/-- Generic `store_complex_unaligned(dst, src)`: as the aligned kernel with
`store_unaligned`. -/
def store_complex_unaligned (size : Nat) (complex_high complex_low : γ → List α)
    (memory : Nat → α) (dst : Nat) (src : γ) : Nat → α :=
  let hi := complex_high src
  let lo := complex_low src
  let buffer := dst
  let memory := batch_store_unaligned memory buffer lo
  batch_store_unaligned memory (buffer + size) hi

end generic

/-! ## FMA4 kernel (xsimd_fma4.hpp) -/

namespace fma4

variable {β : Type}

/-- The lane operations behind the four families of FMA4 intrinsics, on a
carrier `β`. -/
structure FusedArith (β : Type) where
  macc : β → β → β → β
  msub : β → β → β → β
  nmacc : β → β → β → β
  nmsub : β → β → β → β

/-- Exact arithmetic on a commutative ring: `macc(a, b, c) = a * b + c`,
`msub(a, b, c) = a * b - c`, `nmacc(a, b, c) = -(a * b) + c`,
`nmsub(a, b, c) = -(a * b) - c`. -/
def FusedArith.exact {R : Type} [CommRing R] : FusedArith R :=
  ⟨fun a b c => a * b + c, fun a b c => a * b - c, fun a b c => -(a * b) + c,
    fun a b c => -(a * b) - c⟩

/-- Intrinsics `_mm_macc_ps` and `_mm_macc_pd`. -/
def _mm_macc (fa : FusedArith β) (a b c : List β) : List β :=
  neon.map3 fa.macc a b c

/-- Intrinsics `_mm_msub_ps` and `_mm_msub_pd`. -/
def _mm_msub (fa : FusedArith β) (a b c : List β) : List β :=
  neon.map3 fa.msub a b c

/-- Intrinsics `_mm_nmacc_ps` and `_mm_nmacc_pd`. -/
def _mm_nmacc (fa : FusedArith β) (a b c : List β) : List β :=
  neon.map3 fa.nmacc a b c

/-- Intrinsics `_mm_nmsub_ps` and `_mm_nmsub_pd`. -/
def _mm_nmsub (fa : FusedArith β) (a b c : List β) : List β :=
  neon.map3 fa.nmsub a b c

/-- Kernel `fnma(x, y, z)`, float and double overloads: `_mm_nmacc_ps(x, y, z)`
resp. `_mm_nmacc_pd(x, y, z)`. -/
def fnma (fa : FusedArith β) (x y z : List β) : List β :=
  _mm_nmacc fa x y z

/-- Kernel `fnms(x, y, z)`, float and double overloads: `_mm_nmsub_ps(x, y, z)`
resp. `_mm_nmsub_pd(x, y, z)`. -/
def fnms (fa : FusedArith β) (x y z : List β) : List β :=
  _mm_nmsub fa x y z

/-- Kernel `fma(x, y, z)`, float and double overloads: `_mm_macc_ps(x, y, z)`
resp. `_mm_macc_pd(x, y, z)`. -/
def fma (fa : FusedArith β) (x y z : List β) : List β :=
  _mm_macc fa x y z

/-- Kernel `fms(x, y, z)`, float and double overloads: `_mm_msub_ps(x, y, z)`
resp. `_mm_msub_pd(x, y, z)`. -/
def fms (fa : FusedArith β) (x y z : List β) : List β :=
  _mm_msub fa x y z

end fma4

end kernel

end xsimd

namespace xsimd.kernel

variable {α : Type}

/-! ## extract_pair -/

/-- C1.  The generic `extract_pair` at `self = {0, 1, 2, 3}`,
`other = {10, 11, 12, 13}`, `i = N - 1 = 3`: the loop runs for `j = 0` only, so
only lanes 0 and 3 of `concat_buffer` are written and lanes 1 and 2 of the
result are never assigned, where the window of `(other, self)` at position 3 is
`{13, 0, 1, 2}`. -/
theorem generic_extract_pair_last_index_unwritten :
    generic.extract_pair 4 [0, 1, 2, 3] [10, 11, 12, 13] 3
      = some [some 13, none, none, some 2] := by
  decide

theorem neon_detail_extract_pair_of_mem (lhs rhs : List α) (n : Nat) (Is : List Nat)
    (h : n ∈ Is) :
    neon.detail.extract_pair lhs rhs n Is = some (neon.vextq rhs lhs n) := by
  induction Is with
  | nil => simp at h
  | cons I Is ih =>
    unfold neon.detail.extract_pair
    by_cases hI : n = I
    · simp [hI]
    · have hmem : n ∈ Is := by
        rcases List.mem_cons.mp h with h1 | h1
        · exact absurd h1 hI
        · exact h1
      simp [hI, ih hmem]

theorem neon_vextq_zero (lhs rhs : List α) : neon.vextq rhs lhs 0 = rhs := by
  simp [neon.vextq]

theorem neon_extract_pair_impl_range (lhs rhs : List α) (n N : Nat) (hn : n < N) :
    neon.detail.extract_pair_impl lhs rhs n (List.range N)
      = some (neon.vextq rhs lhs n) := by
  cases N with
  | zero => omega
  | succ M =>
    rw [List.range_succ_eq_map]
    unfold neon.detail.extract_pair_impl
    by_cases h0 : n = 0
    · simp [h0, neon_vextq_zero]
    · simp only [h0, if_false]
      apply neon_detail_extract_pair_of_mem
      simp only [List.mem_map, List.mem_range]
      exact ⟨n - 1, by omega, by omega⟩

theorem neon_vextq_lane (a b : List α) (n N k : Nat) (ha : a.length = N)
    (hb : b.length = N) (hn : n < N) (hk : k < N) :
    (neon.vextq a b n)[k]? = (a ++ b)[n + k]? := by
  unfold neon.vextq
  by_cases h : k < N - n
  · rw [List.getElem?_append_left (by simp; omega),
      List.getElem?_append_left (by omega)]
    simp
  · rw [List.getElem?_append_right (by simp; omega),
      List.getElem?_append_right (by omega)]
    simp only [List.length_drop, ha]
    rw [List.getElem?_take_of_lt (by omega)]
    congr 1
    omega

theorem neon_extract_pair_eq_vextq (t : RegisterType) (lhs rhs : List α) (n : Nat)
    (hn : n < t.size) :
    neon.extract_pair t lhs rhs n = some (neon.vextq rhs lhs n) := by
  unfold neon.extract_pair
  rw [if_pos hn]
  exact neon_extract_pair_impl_range lhs rhs n t.size hn

/-- C2.  NEON `extract_pair(lhs, rhs, n)` for each of the nine register types
`t`, batches of `t.size` lanes and `n < t.size`: the call returns a batch of
`t.size` lanes whose lane `k` is element `n + k` of `rhs` followed by `lhs`;
for `n = 0` it is `rhs` itself and for `n > 0` it is `vextq(rhs, lhs, n)`. -/
theorem neon_extract_pair_window (t : RegisterType) (lhs rhs : List α) (n : Nat)
    (hl : lhs.length = t.size) (hr : rhs.length = t.size) (hn : n < t.size) :
    ∃ r, neon.extract_pair t lhs rhs n = some r ∧ r.length = t.size ∧
      (∀ k, k < t.size → r[k]? = (rhs ++ lhs)[n + k]?) ∧
      (n = 0 → r = rhs) ∧ (0 < n → r = neon.vextq rhs lhs n) := by
  refine ⟨neon.vextq rhs lhs n, ?_, ?_, ?_, ?_, ?_⟩
  · exact neon_extract_pair_eq_vextq t lhs rhs n hn
  · simp [neon.vextq, hl, hr]
    omega
  · intro k hk
    exact neon_vextq_lane rhs lhs n t.size k hr hl hn hk
  · intro h0
    rw [h0]
    exact neon_vextq_zero lhs rhs
  · intro _
    rfl

theorem neon_extract_pair_window_witness :
    ([0, 1, 2, 3] : List Nat).length = RegisterType.int32x4_t.size ∧
    ([10, 11, 12, 13] : List Nat).length = RegisterType.int32x4_t.size ∧
    2 < RegisterType.int32x4_t.size ∧
    ∃ r, neon.extract_pair .int32x4_t [0, 1, 2, 3] [10, 11, 12, 13] 2 = some r ∧
      r.length = RegisterType.int32x4_t.size ∧
      (∀ k, k < RegisterType.int32x4_t.size →
        r[k]? = ([10, 11, 12, 13] ++ [0, 1, 2, 3])[2 + k]?) ∧
      (2 = 0 → r = [10, 11, 12, 13]) ∧
      (0 < 2 → r = neon.vextq [10, 11, 12, 13] [0, 1, 2, 3] 2) :=
  ⟨rfl, rfl, by decide,
    neon_extract_pair_window .int32x4_t [0, 1, 2, 3] [10, 11, 12, 13] 2 rfl rfl
      (by decide)⟩

/-- State of `concat_buffer` after the first `m` iterations of the generic
`extract_pair` loop (`m ≤ size - i`): lanes `0 .. m-1` hold `other[i ..]`, the
last `min m i` lanes hold lanes of `self`, the lanes in between are unwritten. -/
theorem generic_extract_pair_loop_invariant (size i : Nat) (self other : List α)
    (m : Nat) (hm : m ≤ size - i) :
    ((List.range m).foldl (generic.extract_pair_body size i self other)
        (List.replicate size none)).length = size ∧
    ∀ k, k < size →
      ((List.range m).foldl (generic.extract_pair_body size i self other)
          (List.replicate size none))[k]?
        = some (if k < m then other[i + k]?
            else if size - min m i ≤ k then self[i + k - size]?
            else none) := by
  induction m with
  | zero =>
    refine ⟨by simp, ?_⟩
    intro k hk
    have h1 : ¬ size ≤ k := by omega
    simp [List.getElem?_replicate, hk, h1]
  | succ m ih =>
    obtain ⟨hlen, hget⟩ := ih (by omega)
    rw [List.range_succ, List.foldl_append]
    simp only [List.foldl_cons, List.foldl_nil]
    generalize (List.range m).foldl (generic.extract_pair_body size i self other)
      (List.replicate size none) = B at hlen hget
    unfold generic.extract_pair_body
    constructor
    · by_cases hmi : m < i <;> simp [hmi, hlen]
    · intro k hk
      by_cases hmi : m < i
      · simp only [hmi, if_true, List.getElem?_set, List.length_set, hlen, hget k hk]
        by_cases h1 : size - 1 - m = k
        · have h2 : ¬ k < m + 1 := by omega
          have h3 : size - min (m + 1) i ≤ k := by omega
          have h4 : size - 1 - m < size := by omega
          have h5 : i - 1 - m = i + k - size := by omega
          simp [h1, h2, h3, hk, h5]
        · by_cases h2 : m = k
          · subst h2
            simp [h1, hk]
          · simp only [h1, h2, if_false]
            by_cases h3 : k < m
            · have h4 : k < m + 1 := by omega
              simp [h3, h4]
            · have h4 : ¬ k < m + 1 := by omega
              have h5 : (size - min m i ≤ k) ↔ (size - min (m + 1) i ≤ k) := by omega
              simp [h3, h4, h5]
      · simp only [hmi, if_false, List.getElem?_set, hlen, hget k hk]
        by_cases h2 : m = k
        · subst h2
          simp [hk]
        · simp only [h2, if_false]
          by_cases h3 : k < m
          · have h4 : k < m + 1 := by omega
            simp [h3, h4]
          · have h4 : ¬ k < m + 1 := by omega
            have h5 : min (m + 1) i = min m i := by omega
            simp [h3, h4, h5]

/-- Lanes of the generic `extract_pair` for `i < size`: lane `k < size - i` is
`other[i + k]`, lane `k ≥ max i (size - i)` is `self[i + k - size]`, and the
lanes `size - i ≤ k < i` are never written. -/
theorem generic_extract_pair_lanes (size i : Nat) (self other : List α) (hi : i < size) :
    ∃ r, generic.extract_pair size self other i = some r ∧ r.length = size ∧
      ∀ k, k < size →
        r[k]? = some (if k < size - i then other[i + k]?
          else if i ≤ k then self[i + k - size]?
          else none) := by
  obtain ⟨hlen, hget⟩ :=
    generic_extract_pair_loop_invariant size i self other (size - i) (le_refl _)
  refine ⟨generic.extract_pair_loop size i self other, ?_, hlen, ?_⟩
  · simp [generic.extract_pair, hi]
  · intro k hk
    unfold generic.extract_pair_loop
    rw [hget k hk]
    by_cases h1 : k < size - i
    · simp [h1]
    · have h2 : (size - min (size - i) i ≤ k) ↔ i ≤ k := by omega
      simp [h1, h2]

/-- Up to the middle index (`2 * i ≤ size`) the generic `extract_pair` writes
every lane and returns the window of `other` followed by `self` at position
`i`, the batch the NEON kernel returns. -/
theorem generic_extract_pair_window_of_le_half (t : RegisterType) (self other : List α)
    (i : Nat) (hs : self.length = t.size) (ho : other.length = t.size)
    (hi : 2 * i ≤ t.size) :
    ∃ r, generic.extract_pair t.size self other i = some r ∧ r.length = t.size ∧
      (∀ k, k < t.size → r[k]? = some (other ++ self)[i + k]?) ∧
      some r = (neon.extract_pair t self other i).map (List.map some) := by
  have hpos : 0 < t.size := by cases t <;> decide
  have hlt : i < t.size := by omega
  obtain ⟨r, hr, hlen, hget⟩ := generic_extract_pair_lanes t.size i self other hlt
  have hwin : ∀ k, k < t.size → r[k]? = some (other ++ self)[i + k]? := by
    intro k hk
    rw [hget k hk]
    by_cases h1 : k < t.size - i
    · rw [if_pos h1, List.getElem?_append_left (by omega)]
    · rw [if_neg h1, if_pos (by omega), List.getElem?_append_right (by omega), ho]
  refine ⟨r, hr, hlen, hwin, ?_⟩
  rw [neon_extract_pair_eq_vextq t self other i hlt, Option.map_some']
  congr 1
  apply List.ext_getElem?
  intro k
  by_cases hk : k < t.size
  · have hin : i + k < (other ++ self).length := by
      rw [List.length_append, hs, ho]
      omega
    rw [hwin k hk, List.getElem?_map, neon_vextq_lane other self i t.size k ho hs hlt hk,
      List.getElem?_eq_getElem hin]
    rfl
  · have hq : (neon.vextq other self i).length = t.size := by
      simp [neon.vextq, hs, ho]
      omega
    rw [List.getElem?_eq_none (by omega), List.getElem?_eq_none (by simp; omega)]

/-- Past the middle index (`size < 2 * i`, `i < size`) the generic
`extract_pair` leaves the lanes `size - i ≤ k < i` of its result unwritten. -/
theorem generic_extract_pair_unwritten_of_gt_half (size i : Nat) (self other : List α)
    (hi : i < size) (k : Nat) (hk1 : size - i ≤ k) (hk2 : k < i) :
    ∃ r, generic.extract_pair size self other i = some r ∧ r[k]? = some none := by
  obtain ⟨r, hr, -, hget⟩ := generic_extract_pair_lanes size i self other hi
  refine ⟨r, hr, ?_⟩
  rw [hget k (by omega)]
  have h1 : ¬ k < size - i := by omega
  have h2 : ¬ i ≤ k := by omega
  simp [h1, h2]

/-- C3.  The NEON and the generic `extract_pair` at `self = {0, 1, 2, 3}`,
`other = {10, 11, 12, 13}`, `i = 3` on four 32-bit lanes: NEON returns
`{13, 0, 1, 2}`, the generic kernel returns a batch whose lanes 1 and 2 were
never written, so the two results are not the same batch. -/
theorem extract_pair_neon_generic_differ :
    neon.extract_pair .int32x4_t [0, 1, 2, 3] [10, 11, 12, 13] 3
        = some [13, 0, 1, 2] ∧
      generic.extract_pair 4 [0, 1, 2, 3] [10, 11, 12, 13] 3
        ≠ (neon.extract_pair .int32x4_t [0, 1, 2, 3] [10, 11, 12, 13] 3).map
            (List.map some) := by
  decide

/-! ## hadd -/

theorem neon_pairwise_length (f : α → α → α) (l : List α) :
    (neon.pairwise f l).length = l.length / 2 := by
  induction l using neon.pairwise.induct f with
  | case1 x y rest ih =>
    simp only [neon.pairwise, List.length_cons, ih]
    omega
  | case2 l h =>
    match l, h with
    | [], _ => simp [neon.pairwise]
    | [x], _ => simp [neon.pairwise]
    | x :: y :: rest, h => exact absurd rfl (h x y rest)

theorem neon_vpairwise_halves_length (f : α → α → α) (arg : List α) :
    (neon.vpairwise f (neon.vget_low arg) (neon.vget_high arg)).length
      = arg.length / 2 / 2 + (arg.length - arg.length / 2) / 2 := by
  simp [neon.vpairwise, neon.vget_low, neon.vget_high, neon_pairwise_length,
    Nat.min_eq_left (Nat.div_le_self _ _)]

theorem option_foldlM_none_of_mem (g : Nat → Nat → Option Nat) (l : List Nat) (i : Nat)
    (hi : i ∈ l) (hg : ∀ r, g r i = none) (init : Nat) :
    l.foldlM g init = none := by
  induction l generalizing init with
  | nil => simp at hi
  | cons j l ih =>
    rw [List.foldlM_cons]
    rcases List.mem_cons.mp hi with h | h
    · subst h
      simp [hg]
    · cases hj : g init j with
      | none => rfl
      | some r => exact ih h r

/-- The loop of `sum_batch` reads `arg[arg.length]` as soon as its bound `size`
exceeds the lane count of `arg`, so the sum has no defined value. -/
theorem neon_sum_batch_out_of_bounds (w size : Nat) (arg : List Nat)
    (h : arg.length < size) : neon.detail.sum_batch w size arg = none := by
  unfold neon.detail.sum_batch
  apply option_foldlM_none_of_mem _ _ arg.length (List.mem_range.mpr h)
  intro r
  simp [neon.vget_lane]

/-- The 8-bit and 16-bit `hadd` overloads hand `sum_batch` a half register
(8 resp. 4 lanes) with the loop bound `batch<T, A>::size` (16 resp. 8): no
batch of the right lane count has a defined horizontal sum. -/
theorem neon_hadd_8_16_undefined (arg : List Nat) :
    (arg.length = 16 → neon.hadd_u8 arg = none ∧ neon.hadd_s8 arg = none) ∧
    (arg.length = 8 → neon.hadd_u16 arg = none ∧ neon.hadd_s16 arg = none) := by
  constructor
  · intro h
    constructor <;>
    · apply neon_sum_batch_out_of_bounds
      simp [neon.vpadd, neon_vpairwise_halves_length, h, RegisterType.size]
  · intro h
    constructor <;>
    · apply neon_sum_batch_out_of_bounds
      simp [neon.vpadd, neon_vpairwise_halves_length, h, RegisterType.size]

/-- C4.  The 8-bit and 16-bit `hadd` overloads at the batches with every lane
equal to 1: the pairwise add leaves a half register of 8 (resp. 4) lanes, and
`sum_batch` subscripts it up to `batch<T, A>::size - 1` = 15 (resp. 7), outside
its lanes, so no overload returns the lane sum 16 (resp. 8). -/
theorem neon_hadd_8_16_ones_undefined :
    neon.hadd_u8 (List.replicate 16 1) = none ∧
    neon.hadd_s8 (List.replicate 16 1) = none ∧
    neon.hadd_u16 (List.replicate 8 1) = none ∧
    neon.hadd_s16 (List.replicate 8 1) = none ∧
    neon.vpadd 8 (neon.vget_low (List.replicate 16 1))
        (neon.vget_high (List.replicate 16 1)) = List.replicate 8 2 ∧
    neon.detail.sum_batch 8 8 (List.replicate 8 2) = some 16 := by
  decide

theorem toInt_modEq (w x : Nat) :
    toInt w x ≡ (x : Int) [ZMOD ((2 ^ w : Nat) : Int)] := by
  unfold toInt
  split
  · rfl
  · unfold Int.ModEq
    push_cast
    simp [Int.sub_emod]

theorem toInt_eq_bmod (w x : Nat) (hw : 0 < w) (hx : x < 2 ^ w) :
    toInt w x = Int.bmod x (2 ^ w) := by
  obtain ⟨v, rfl⟩ : ∃ v, w = v + 1 := ⟨w - 1, by omega⟩
  unfold toInt Int.bmod
  have h2 : (2 : Nat) ^ (v + 1) = 2 * 2 ^ v := by ring
  have hx1 : ((x : Int)) % ((2 ^ (v + 1) : Nat) : Int) = x := by
    apply Int.emod_eq_of_lt (by omega)
    exact_mod_cast hx
  simp only [Nat.add_sub_cancel]
  rw [hx1]
  have h3 : ((((2 ^ (v + 1) : Nat) : Int)) + 1) / 2 = ((2 ^ v : Nat) : Int) := by
    rw [h2]; push_cast; omega
  rw [h3]
  by_cases h : x < 2 ^ v
  · have h4 : (x : Int) < ((2 ^ v : Nat) : Int) := by exact_mod_cast h
    rw [if_pos h, if_pos h4]
  · have h4 : ¬ (x : Int) < ((2 ^ v : Nat) : Int) := by exact_mod_cast h
    rw [if_neg h, if_neg h4]
    push_cast
    rfl

theorem bmod_congr_of_modEq (x y : Int) (m : Nat) (h : x ≡ y [ZMOD (m : Int)]) :
    Int.bmod x m = Int.bmod y m := by
  rw [← Int.emod_bmod_congr x, ← Int.emod_bmod_congr y, h]

/-- The signed reading of a sum wrapped to `w` bits is the balanced residue of
any integer congruent to that sum. -/
theorem toInt_wrap_sum (w : Nat) (hw : 0 < w) (s : Nat) (t : Int)
    (h : t ≡ (s : Int) [ZMOD ((2 ^ w : Nat) : Int)]) :
    toInt w (s % 2 ^ w) = Int.bmod t (2 ^ w) := by
  rw [toInt_eq_bmod w _ hw (Nat.mod_lt _ (by positivity))]
  apply bmod_congr_of_modEq
  refine Int.ModEq.trans ?_ h.symm
  unfold Int.ModEq
  push_cast
  simp

theorem ofInt_cast (w : Nat) (z : Int) : ((ofInt w z : Nat) : Int) = z % 2 ^ w := by
  unfold ofInt
  exact Int.toNat_of_nonneg (Int.emod_nonneg _ (by positivity))

theorem toInt_range (w : Nat) (hw : 0 < w) (x : Nat) (hx : x < 2 ^ w) :
    -(2 ^ (w - 1)) ≤ toInt w x ∧ toInt w x < 2 ^ (w - 1) := by
  obtain ⟨v, rfl⟩ : ∃ v, w = v + 1 := ⟨w - 1, by omega⟩
  simp only [Nat.add_sub_cancel]
  have h2 : (2 : Int) ^ (v + 1) = 2 * 2 ^ v := by ring
  have hP : (0 : Int) < 2 ^ v := by positivity
  have hxi : (x : Int) < 2 ^ (v + 1) := by exact_mod_cast hx
  unfold toInt
  simp only [Nat.add_sub_cancel]
  split
  · rename_i h
    have hi : (x : Int) < 2 ^ v := by exact_mod_cast h
    constructor <;> omega
  · rename_i h
    have hi : ¬ (x : Int) < 2 ^ v := by exact_mod_cast h
    constructor <;> omega

/-- The sum of two scalars of `int64_t` is the wrapped sum when the signed sum
is in the range of the type and has no defined value otherwise; the sum of two
scalars of `uint64_t` wraps. -/
theorem neon_scalar_add_64 (x y : Nat) :
    neon.scalar_add .uint64x2_t x y = some ((x + y) % 2 ^ 64) ∧
    (RegisterType.int64x2_t.minValue ≤ toInt 64 x + toInt 64 y ∧
        toInt 64 x + toInt 64 y ≤ RegisterType.int64x2_t.maxValue →
      neon.scalar_add .int64x2_t x y = some ((x + y) % 2 ^ 64)) ∧
    (¬ (RegisterType.int64x2_t.minValue ≤ toInt 64 x + toInt 64 y ∧
        toInt 64 x + toInt 64 y ≤ RegisterType.int64x2_t.maxValue) →
      neon.scalar_add .int64x2_t x y = none) := by
  refine ⟨rfl, ?_, ?_⟩
  · intro h
    have e : neon.scalar_add .int64x2_t x y
        = if RegisterType.int64x2_t.minValue ≤ toInt 64 x + toInt 64 y ∧
            toInt 64 x + toInt 64 y ≤ RegisterType.int64x2_t.maxValue
          then some (ofInt 64 (toInt 64 x + toInt 64 y)) else none := rfl
    rw [e, if_pos h]
    congr 1
    have hc : ((ofInt 64 (toInt 64 x + toInt 64 y) : Nat) : Int)
        = (((x + y) % 2 ^ 64 : Nat) : Int) := by
      rw [ofInt_cast]
      push_cast
      exact ((toInt_modEq 64 x).add (toInt_modEq 64 y))
    exact_mod_cast hc
  · intro h
    have e : neon.scalar_add .int64x2_t x y
        = if RegisterType.int64x2_t.minValue ≤ toInt 64 x + toInt 64 y ∧
            toInt 64 x + toInt 64 y ≤ RegisterType.int64x2_t.maxValue
          then some (ofInt 64 (toInt 64 x + toInt 64 y)) else none := rfl
    rw [e, if_neg h]

/-- NEON `hadd` on 32-bit and 64-bit integer batches: for lanes `a0 .. a3` the
32-bit overloads (unsigned and signed) return `(a0 + a1 + a2 + a3) mod 2^32`,
which read as a signed value is the sum of the signed lanes wrapped to the
signed range; for lanes `a0, a1` the 64-bit overload returns
`(a0 + a1) mod 2^64` on `uint64_t`, and on `int64_t` when the sum of the two
signed lanes is in the range of the type; on `int64_t` it has no defined value
when that sum is outside the range. -/
theorem neon_hadd_32_64_lanes (a0 a1 a2 a3 : Nat) :
    neon.hadd_u32 [a0, a1, a2, a3] = some ((a0 + a1 + a2 + a3) % 2 ^ 32) ∧
    neon.hadd_s32 [a0, a1, a2, a3] = some ((a0 + a1 + a2 + a3) % 2 ^ 32) ∧
    toInt 32 ((a0 + a1 + a2 + a3) % 2 ^ 32)
      = Int.bmod (toInt 32 a0 + toInt 32 a1 + toInt 32 a2 + toInt 32 a3) (2 ^ 32) ∧
    neon.hadd_64 .uint64x2_t [a0, a1] = some ((a0 + a1) % 2 ^ 64) ∧
    (RegisterType.int64x2_t.minValue ≤ toInt 64 a0 + toInt 64 a1 ∧
        toInt 64 a0 + toInt 64 a1 ≤ RegisterType.int64x2_t.maxValue →
      neon.hadd_64 .int64x2_t [a0, a1] = some ((a0 + a1) % 2 ^ 64)) ∧
    (¬ (RegisterType.int64x2_t.minValue ≤ toInt 64 a0 + toInt 64 a1 ∧
        toInt 64 a0 + toInt 64 a1 ≤ RegisterType.int64x2_t.maxValue) →
      neon.hadd_64 .int64x2_t [a0, a1] = none) ∧
    toInt 64 ((a0 + a1) % 2 ^ 64) = Int.bmod (toInt 64 a0 + toInt 64 a1) (2 ^ 64) := by
  have h64 : ∀ t, neon.hadd_64 t [a0, a1] = neon.scalar_add t a0 a1 := fun _ => rfl
  have hs := neon_scalar_add_64 a0 a1
  refine ⟨?_, ?_, ?_, ?_, ?_, ?_, ?_⟩
  · simp [neon.hadd_u32, neon.vpadd, neon.vpairwise, neon.pairwise, neon.vget_low,
      neon.vget_high, neon.vget_lane, neon.addw]
    omega
  · simp [neon.hadd_s32, neon.vpadd, neon.vpairwise, neon.pairwise, neon.vget_low,
      neon.vget_high, neon.vget_lane, neon.addw]
    omega
  · apply toInt_wrap_sum 32 (by decide)
    push_cast
    exact (((toInt_modEq 32 a0).add (toInt_modEq 32 a1)).add (toInt_modEq 32 a2)).add
      (toInt_modEq 32 a3)
  · rw [h64]
    exact hs.1
  · intro h
    rw [h64]
    exact hs.2.1 h
  · intro h
    rw [h64]
    exact hs.2.2 h
  · apply toInt_wrap_sum 64 (by decide)
    push_cast
    exact (toInt_modEq 64 a0).add (toInt_modEq 64 a1)

/-- C5.  The 64-bit `hadd` overload at the `int64_t` batch
`{INT64_MAX, 1} = {9223372036854775807, 1}`: the sum
`arg.get(0) + arg.get(1)` of the two `int64_t` scalars is `2^63`, above the
maximum `2^63 - 1` of the type, a signed overflow, so the call has no defined
value, where `(a0 + a1) mod 2^64` is the bit pattern `2^63` of `INT64_MIN`.
The same lanes as `uint64_t` give `2^63`, and the signed 32-bit overload at
`{INT32_MAX, 1, 0, 0}` gives the wrapped sum `2^31`. -/
theorem neon_hadd_s64_overflow_undefined :
    neon.hadd_64 .int64x2_t [9223372036854775807, 1] = none ∧
    RegisterType.int64x2_t.value 9223372036854775807
        + RegisterType.int64x2_t.value 1 = 2 ^ 63 ∧
    RegisterType.int64x2_t.maxValue = 2 ^ 63 - 1 ∧
    (9223372036854775807 + 1) % 2 ^ 64 = 9223372036854775808 ∧
    neon.hadd_64 .uint64x2_t [9223372036854775807, 1] = some 9223372036854775808 ∧
    neon.hadd_64 .int64x2_t [9223372036854775807, 0] = some 9223372036854775807 ∧
    neon.hadd_s32 [2147483647, 1, 0, 0] = some 2147483648 := by
  decide

/-- C6.  NEON `hadd` on a 4-lane float batch `{a0, a1, a2, a3}` returns
`(a0 + a1) + (a2 + a3)` for the lane addition `add`; hence for lanes
`{11, 22, 33, 44}` it returns 110 as soon as the lane addition gives
`11 + 22 = 33`, `33 + 44 = 77` and `33 + 77 = 110`. -/
theorem neon_hadd_f32_pairwise (add : α → α → α) (a0 a1 a2 a3 : α)
    (c11 c22 c33 c44 c77 c110 : α) (h1 : add c11 c22 = c33)
    (h2 : add c33 c44 = c77) (h3 : add c33 c77 = c110) :
    neon.hadd_f32 add [a0, a1, a2, a3] = some (add (add a0 a1) (add a2 a3)) ∧
    neon.hadd_f32 add [c11, c22, c33, c44] = some c110 := by
  constructor
  · simp [neon.hadd_f32, neon.vpairwise, neon.pairwise, neon.vget_low, neon.vget_high,
      neon.vget_lane]
  · simp [neon.hadd_f32, neon.vpairwise, neon.pairwise, neon.vget_low, neon.vget_high,
      neon.vget_lane, h1, h2, h3]

theorem neon_hadd_f32_pairwise_witness :
    (11 : ℚ) + 22 = 33 ∧ (33 : ℚ) + 44 = 77 ∧ (33 : ℚ) + 77 = 110 ∧
    neon.hadd_f32 (fun x y : ℚ => x + y) [1, 2, 3, 4] = some ((1 + 2) + (3 + 4)) ∧
    neon.hadd_f32 (fun x y : ℚ => x + y) [11, 22, 33, 44] = some 110 :=
  ⟨by norm_num, by norm_num, by norm_num,
    neon_hadd_f32_pairwise (fun x y : ℚ => x + y) 1 2 3 4 11 22 33 44 77 110
      (by norm_num) (by norm_num) (by norm_num)⟩

/-! ## haddp -/

/-- C7.  NEON `haddp(row)` on four 4-lane float batches `a, b, c, d` returns
the batch whose lane `i` is `(r0 + r1) + (r2 + r3)` for the lanes `r0 .. r3` of
`row[i]` alone; it is the batch of the four `hadd` results of the rows. -/
theorem neon_haddp_rows (add : α → α → α) (a0 a1 a2 a3 b0 b1 b2 b3 c0 c1 c2 c3
    d0 d1 d2 d3 : α) :
    neon.haddp add [[a0, a1, a2, a3], [b0, b1, b2, b3], [c0, c1, c2, c3],
        [d0, d1, d2, d3]]
      = some [add (add a0 a1) (add a2 a3), add (add b0 b1) (add b2 b3),
          add (add c0 c1) (add c2 c3), add (add d0 d1) (add d2 d3)] ∧
    some [neon.hadd_f32 add [a0, a1, a2, a3], neon.hadd_f32 add [b0, b1, b2, b3],
        neon.hadd_f32 add [c0, c1, c2, c3], neon.hadd_f32 add [d0, d1, d2, d3]]
      = (neon.haddp add [[a0, a1, a2, a3], [b0, b1, b2, b3], [c0, c1, c2, c3],
          [d0, d1, d2, d3]]).map (List.map some) := by
  simp [neon.haddp, neon.hadd_f32, neon.vpairwise, neon.pairwise, neon.vget_low,
    neon.vget_high, neon.vget_lane, neon.vcombine]

/-! ## select -/

theorem neon_vbsl_lane_ones (w a b : Nat) (ha : a < 2 ^ w) :
    neon.vbsl_lane w (2 ^ w - 1) a b = a := by
  unfold neon.vbsl_lane
  rw [Nat.and_comm, Nat.and_pow_two_sub_one_eq_mod, Nat.sub_self, Nat.zero_and,
    Nat.or_zero, Nat.mod_eq_of_lt ha]

theorem neon_vbsl_lane_zeros (w a b : Nat) (hb : b < 2 ^ w) :
    neon.vbsl_lane w 0 a b = b := by
  unfold neon.vbsl_lane
  rw [Nat.zero_and, Nat.zero_or, Nat.sub_zero, Nat.and_comm,
    Nat.and_pow_two_sub_one_eq_mod, Nat.mod_eq_of_lt hb]

theorem neon_vbslq_length (w : Nat) (cond a b : List Nat) (n : Nat)
    (hc : cond.length = n) (ha : a.length = n) (hb : b.length = n) :
    (neon.vbslq w cond a b).length = n := by
  induction cond generalizing a b n with
  | nil => simpa [neon.vbslq] using hc
  | cons m ms ih =>
    match a, b, ha, hb with
    | [], _, ha, _ => simp at hc ha; omega
    | _ :: _, [], _, hb => simp at hc hb; omega
    | x :: as, y :: bs, ha, hb =>
      simp only [List.length_cons] at hc ha hb
      simp only [neon.vbslq, List.length_cons]
      rw [ih as bs (n - 1) (by omega) (by omega) (by omega)]
      omega

theorem neon_vbslq_lane (w : Nat) (hw : 0 < w) (cond a b : List Nat)
    (hab : a.length = cond.length) (hbb : b.length = cond.length)
    (hsat : ∀ x ∈ cond, x = 0 ∨ x = 2 ^ w - 1)
    (ha : ∀ x ∈ a, x < 2 ^ w) (hb : ∀ x ∈ b, x < 2 ^ w) (i : Nat) :
    (neon.vbslq w cond a b)[i]?
      = if cond[i]? = some (2 ^ w - 1) then a[i]? else b[i]? := by
  have hM : 0 ≠ 2 ^ w - 1 := by
    have : 2 ≤ 2 ^ w := by
      calc 2 = 2 ^ 1 := rfl
        _ ≤ 2 ^ w := Nat.pow_le_pow_right (by decide) hw
    omega
  induction cond generalizing a b i with
  | nil =>
    have hb0 : b = [] := List.length_eq_zero.mp (by simpa using hbb)
    simp [neon.vbslq, hb0]
  | cons m ms ih =>
    match a, b, hab, hbb, ha, hb with
    | [], _, hab, _, _, _ => simp at hab
    | _ :: _, [], _, hbb, _, _ => simp at hbb
    | x :: as, y :: bs, hab, hbb, ha, hb =>
      simp only [List.length_cons, Nat.add_right_cancel_iff] at hab hbb
      simp only [List.mem_cons, forall_eq_or_imp] at hsat ha hb
      cases i with
      | zero =>
        rcases hsat.1 with h0 | h1
        · subst h0
          simp [neon.vbslq, neon_vbsl_lane_zeros w x y hb.1, hM]
        · subst h1
          simp [neon.vbslq, neon_vbsl_lane_ones w x y ha.1]
      | succ k =>
        simp only [neon.vbslq, List.getElem?_cons_succ]
        exact ih as bs hab hbb hsat.2 ha.2 hb.2 k

theorem registerType_bits_pos (t : RegisterType) : 0 < t.bits := by
  cases t <;> decide

/-- C8.  NEON `select(cond, a, b)` for every register type `t`, every saturated
mask `cond` (each lane all-zeros or all-ones) and batches `a`, `b` of `t.size`
lanes of `t.bits` bits: the result has `t.size` lanes and lane `i` is `a[i]`
when `cond[i]` is all-ones and `b[i]` otherwise.  On four float lanes,
`cond = {T, F, T, F}`, `a = {1, 2, 3, 4}`, `b = {9, 9, 9, 9}` (as binary32 bit
patterns) gives `{1, 9, 3, 9}`. -/
theorem neon_select_lanes (t : RegisterType) (cond a b : List Nat)
    (hc : cond.length = t.size) (hal : a.length = t.size) (hbl : b.length = t.size)
    (hsat : ∀ x ∈ cond, x = 0 ∨ x = 2 ^ t.bits - 1)
    (ha : ∀ x ∈ a, x < 2 ^ t.bits) (hb : ∀ x ∈ b, x < 2 ^ t.bits) :
    (neon.select t cond a b).length = t.size ∧
    (∀ i, i < t.size → (neon.select t cond a b)[i]?
      = if cond[i]? = some (2 ^ t.bits - 1) then a[i]? else b[i]?) ∧
    neon.select .float32x4_t [0xFFFFFFFF, 0, 0xFFFFFFFF, 0]
        [0x3F800000, 0x40000000, 0x40400000, 0x40800000]
        [0x41100000, 0x41100000, 0x41100000, 0x41100000]
      = [0x3F800000, 0x41100000, 0x40400000, 0x41100000] := by
  refine ⟨neon_vbslq_length _ cond a b t.size hc hal hbl, ?_, by decide⟩
  intro i _
  exact neon_vbslq_lane t.bits (registerType_bits_pos t) cond a b (by omega) (by omega) hsat ha hb i

theorem neon_select_lanes_witness :
    ([65535, 0, 0, 65535, 0, 0, 0, 65535] : List Nat).length
      = RegisterType.int16x8_t.size ∧
    (∀ x ∈ ([65535, 0, 0, 65535, 0, 0, 0, 65535] : List Nat),
      x = 0 ∨ x = 2 ^ RegisterType.int16x8_t.bits - 1) ∧
    neon.select .int16x8_t [65535, 0, 0, 65535, 0, 0, 0, 65535]
        [1, 2, 3, 4, 5, 6, 7, 65535] [11, 12, 13, 14, 15, 16, 17, 18]
      = [1, 12, 13, 4, 15, 16, 17, 65535] ∧
    ((neon.select .int16x8_t [65535, 0, 0, 65535, 0, 0, 0, 65535]
        [1, 2, 3, 4, 5, 6, 7, 65535] [11, 12, 13, 14, 15, 16, 17, 18]).length
      = RegisterType.int16x8_t.size ∧
    (∀ i, i < RegisterType.int16x8_t.size →
      (neon.select .int16x8_t [65535, 0, 0, 65535, 0, 0, 0, 65535]
        [1, 2, 3, 4, 5, 6, 7, 65535] [11, 12, 13, 14, 15, 16, 17, 18])[i]?
      = if [65535, 0, 0, 65535, 0, 0, 0, 65535][i]?
            = some (2 ^ RegisterType.int16x8_t.bits - 1)
          then [1, 2, 3, 4, 5, 6, 7, 65535][i]?
          else [11, 12, 13, 14, 15, 16, 17, 18][i]?) ∧
    neon.select .float32x4_t [0xFFFFFFFF, 0, 0xFFFFFFFF, 0]
        [0x3F800000, 0x40000000, 0x40400000, 0x40800000]
        [0x41100000, 0x41100000, 0x41100000, 0x41100000]
      = [0x3F800000, 0x41100000, 0x40400000, 0x41100000]) :=
  ⟨rfl, by decide, by decide,
    neon_select_lanes .int16x8_t [65535, 0, 0, 65535, 0, 0, 0, 65535]
      [1, 2, 3, 4, 5, 6, 7, 65535] [11, 12, 13, 14, 15, 16, 17, 18] rfl rfl rfl
      (by decide) (by decide) (by decide)⟩

/-! ## all, any

For each lane count (16, 8, 4, 2) the lemma `neon_all_value<N>` computes lane 0
of the folded register on explicit lanes `m0 ..`, and `neon_all_lanes<N>` turns
it into the statement about the mask; likewise for `any`. -/

theorem nat_or_eq_zero (x y : Nat) : x ||| y = 0 ↔ x = 0 ∧ y = 0 := by
  constructor
  · intro h
    constructor <;> apply Nat.eq_of_testBit_eq <;> intro i <;>
      have h1 := congrArg (fun z => z.testBit i) h <;>
      simp [Nat.testBit_or] at h1 <;> simp [h1]
  · rintro ⟨rfl, rfl⟩
    simp

theorem nat_min_ne_zero (x y : Nat) : ¬ min x y = 0 ↔ ¬ x = 0 ∧ ¬ y = 0 := by
  omega

/-- On saturated lanes (each `0` or the all-ones pattern `M`), the bitwise and is
nonzero exactly when both lanes are all-ones. -/
theorem sat_and_ne_zero (M x y : Nat) (hM : 0 < M) (hx : x = 0 ∨ x = M)
    (hy : y = 0 ∨ y = M) : ¬ x &&& y = 0 ↔ x = M ∧ y = M := by
  rcases hx with rfl | rfl <;> rcases hy with rfl | rfl <;> simp <;> omega

theorem exists_mem_ne_zero_iff (m : List Nat) :
    (∃ x ∈ m, x ≠ 0) ↔ ¬ ∀ x ∈ m, x = 0 := by
  push_neg
  rfl

theorem neon_all_value16 (t : RegisterType)
    (ht : t = .uint8x16_t ∨ t = .int8x16_t)
    (m0 m1 m2 m3 m4 m5 m6 m7 m8 m9 m10 m11 m12 m13 m14 m15 : Nat) :
    neon.all t
        [m0, m1, m2, m3, m4, m5, m6, m7, m8, m9, m10, m11, m12, m13, m14, m15]
      = some (min (min (min (m0 &&& m8) (m1 &&& m9)) (min (m2 &&& m10) (m3 &&& m11))) (min (min (m4
          &&& m12) (m5 &&& m13)) (min (m6 &&& m14) (m7 &&& m15))) != 0) := by
  rcases ht with rfl | rfl <;>
  · simp only [neon.all, neon.vget_low, neon.vget_high, List.length_cons, List.length_nil]
    rfl

theorem neon_all_lanes16 (t : RegisterType)
    (ht : t = .uint8x16_t ∨ t = .int8x16_t) (M : Nat) (hM : 0 < M)
    (m : List Nat) (hlen : m.length = 16) (hsat : ∀ x ∈ m, x = 0 ∨ x = M) :
    ∃ r, neon.all t m = some r ∧ (r = true ↔ ∀ x ∈ m, x = M) := by
  match m, hlen with
  | [m0, m1, m2, m3, m4, m5, m6, m7, m8, m9, m10, m11, m12, m13, m14, m15], _ =>
    simp only [List.mem_cons, List.mem_singleton, forall_eq_or_imp, forall_eq] at hsat
    obtain ⟨h0, h1, h2, h3, h4, h5, h6, h7, h8, h9, h10, h11, h12, h13, h14, h15, -⟩ := hsat
    refine ⟨_, neon_all_value16 t ht
      m0 m1 m2 m3 m4 m5 m6 m7 m8 m9 m10 m11 m12 m13 m14 m15, ?_⟩
    simp only [bne_iff_ne, ne_eq, nat_min_ne_zero,
      sat_and_ne_zero M _ _ hM h0 h8, sat_and_ne_zero M _ _ hM h1 h9, sat_and_ne_zero M _ _ hM
      h2 h10, sat_and_ne_zero M _ _ hM h3 h11, sat_and_ne_zero M _ _ hM h4 h12, sat_and_ne_zero
      M _ _ hM h5 h13, sat_and_ne_zero M _ _ hM h6 h14, sat_and_ne_zero M _ _ hM h7 h15,
      List.mem_cons, List.mem_singleton, forall_eq_or_imp, forall_eq, List.not_mem_nil,
      false_imp_iff, implies_true, and_true]
    constructor
    · rintro ⟨⟨⟨⟨a0, a8⟩, ⟨a1, a9⟩⟩, ⟨⟨a2, a10⟩, ⟨a3, a11⟩⟩⟩, ⟨⟨⟨a4, a12⟩, ⟨a5, a13⟩⟩, ⟨⟨a6, a14⟩, ⟨a7,
      a15⟩⟩⟩⟩
      exact ⟨a0, a1, a2, a3, a4, a5, a6, a7, a8, a9, a10, a11, a12, a13, a14, a15⟩
    · rintro ⟨a0, a1, a2, a3, a4, a5, a6, a7, a8, a9, a10, a11, a12, a13, a14, a15⟩
      exact ⟨⟨⟨⟨a0, a8⟩, ⟨a1, a9⟩⟩, ⟨⟨a2, a10⟩, ⟨a3, a11⟩⟩⟩, ⟨⟨⟨a4, a12⟩, ⟨a5, a13⟩⟩, ⟨⟨a6, a14⟩, ⟨a7,
      a15⟩⟩⟩⟩

theorem neon_any_value16 (t : RegisterType)
    (ht : t = .uint8x16_t ∨ t = .int8x16_t)
    (m0 m1 m2 m3 m4 m5 m6 m7 m8 m9 m10 m11 m12 m13 m14 m15 : Nat) :
    neon.any t
        [m0, m1, m2, m3, m4, m5, m6, m7, m8, m9, m10, m11, m12, m13, m14, m15]
      = some (max (max (max (m0 ||| m8) (m1 ||| m9)) (max (m2 ||| m10) (m3 ||| m11))) (max (max (m4
          ||| m12) (m5 ||| m13)) (max (m6 ||| m14) (m7 ||| m15))) != 0) := by
  rcases ht with rfl | rfl <;>
  · simp only [neon.any, neon.vget_low, neon.vget_high, List.length_cons, List.length_nil]
    rfl

theorem neon_any_lanes16 (t : RegisterType)
    (ht : t = .uint8x16_t ∨ t = .int8x16_t)
    (m : List Nat) (hlen : m.length = 16) :
    ∃ r, neon.any t m = some r ∧ (r = true ↔ ∃ x ∈ m, x ≠ 0) := by
  match m, hlen with
  | [m0, m1, m2, m3, m4, m5, m6, m7, m8, m9, m10, m11, m12, m13, m14, m15], _ =>
    refine ⟨_, neon_any_value16 t ht
      m0 m1 m2 m3 m4 m5 m6 m7 m8 m9 m10 m11 m12 m13 m14 m15, ?_⟩
    rw [bne_iff_ne, ne_eq, exists_mem_ne_zero_iff]
    apply not_congr
    simp only [Nat.max_eq_zero_iff, nat_or_eq_zero,
      List.mem_cons, List.mem_singleton, forall_eq_or_imp, forall_eq, List.not_mem_nil,
      false_imp_iff, implies_true, and_true]
    constructor
    · rintro ⟨⟨⟨⟨a0, a8⟩, ⟨a1, a9⟩⟩, ⟨⟨a2, a10⟩, ⟨a3, a11⟩⟩⟩, ⟨⟨⟨a4, a12⟩, ⟨a5, a13⟩⟩, ⟨⟨a6, a14⟩, ⟨a7,
      a15⟩⟩⟩⟩
      exact ⟨a0, a1, a2, a3, a4, a5, a6, a7, a8, a9, a10, a11, a12, a13, a14, a15⟩
    · rintro ⟨a0, a1, a2, a3, a4, a5, a6, a7, a8, a9, a10, a11, a12, a13, a14, a15⟩
      exact ⟨⟨⟨⟨a0, a8⟩, ⟨a1, a9⟩⟩, ⟨⟨a2, a10⟩, ⟨a3, a11⟩⟩⟩, ⟨⟨⟨a4, a12⟩, ⟨a5, a13⟩⟩, ⟨⟨a6, a14⟩, ⟨a7,
      a15⟩⟩⟩⟩

theorem neon_all_value8 (t : RegisterType)
    (ht : t = .uint16x8_t ∨ t = .int16x8_t)
    (m0 m1 m2 m3 m4 m5 m6 m7 : Nat) :
    neon.all t
        [m0, m1, m2, m3, m4, m5, m6, m7]
      = some (min (min (m0 &&& m4) (m1 &&& m5)) (min (m2 &&& m6) (m3 &&& m7)) != 0) := by
  rcases ht with rfl | rfl <;>
  · simp only [neon.all, neon.vget_low, neon.vget_high, List.length_cons, List.length_nil]
    rfl

theorem neon_all_lanes8 (t : RegisterType)
    (ht : t = .uint16x8_t ∨ t = .int16x8_t) (M : Nat) (hM : 0 < M)
    (m : List Nat) (hlen : m.length = 8) (hsat : ∀ x ∈ m, x = 0 ∨ x = M) :
    ∃ r, neon.all t m = some r ∧ (r = true ↔ ∀ x ∈ m, x = M) := by
  match m, hlen with
  | [m0, m1, m2, m3, m4, m5, m6, m7], _ =>
    simp only [List.mem_cons, List.mem_singleton, forall_eq_or_imp, forall_eq] at hsat
    obtain ⟨h0, h1, h2, h3, h4, h5, h6, h7, -⟩ := hsat
    refine ⟨_, neon_all_value8 t ht
      m0 m1 m2 m3 m4 m5 m6 m7, ?_⟩
    simp only [bne_iff_ne, ne_eq, nat_min_ne_zero,
      sat_and_ne_zero M _ _ hM h0 h4, sat_and_ne_zero M _ _ hM h1 h5, sat_and_ne_zero M _ _ hM
      h2 h6, sat_and_ne_zero M _ _ hM h3 h7,
      List.mem_cons, List.mem_singleton, forall_eq_or_imp, forall_eq, List.not_mem_nil,
      false_imp_iff, implies_true, and_true]
    constructor
    · rintro ⟨⟨⟨a0, a4⟩, ⟨a1, a5⟩⟩, ⟨⟨a2, a6⟩, ⟨a3, a7⟩⟩⟩
      exact ⟨a0, a1, a2, a3, a4, a5, a6, a7⟩
    · rintro ⟨a0, a1, a2, a3, a4, a5, a6, a7⟩
      exact ⟨⟨⟨a0, a4⟩, ⟨a1, a5⟩⟩, ⟨⟨a2, a6⟩, ⟨a3, a7⟩⟩⟩

theorem neon_any_value8 (t : RegisterType)
    (ht : t = .uint16x8_t ∨ t = .int16x8_t)
    (m0 m1 m2 m3 m4 m5 m6 m7 : Nat) :
    neon.any t
        [m0, m1, m2, m3, m4, m5, m6, m7]
      = some (max (max (m0 ||| m4) (m1 ||| m5)) (max (m2 ||| m6) (m3 ||| m7)) != 0) := by
  rcases ht with rfl | rfl <;>
  · simp only [neon.any, neon.vget_low, neon.vget_high, List.length_cons, List.length_nil]
    rfl

theorem neon_any_lanes8 (t : RegisterType)
    (ht : t = .uint16x8_t ∨ t = .int16x8_t)
    (m : List Nat) (hlen : m.length = 8) :
    ∃ r, neon.any t m = some r ∧ (r = true ↔ ∃ x ∈ m, x ≠ 0) := by
  match m, hlen with
  | [m0, m1, m2, m3, m4, m5, m6, m7], _ =>
    refine ⟨_, neon_any_value8 t ht
      m0 m1 m2 m3 m4 m5 m6 m7, ?_⟩
    rw [bne_iff_ne, ne_eq, exists_mem_ne_zero_iff]
    apply not_congr
    simp only [Nat.max_eq_zero_iff, nat_or_eq_zero,
      List.mem_cons, List.mem_singleton, forall_eq_or_imp, forall_eq, List.not_mem_nil,
      false_imp_iff, implies_true, and_true]
    constructor
    · rintro ⟨⟨⟨a0, a4⟩, ⟨a1, a5⟩⟩, ⟨⟨a2, a6⟩, ⟨a3, a7⟩⟩⟩
      exact ⟨a0, a1, a2, a3, a4, a5, a6, a7⟩
    · rintro ⟨a0, a1, a2, a3, a4, a5, a6, a7⟩
      exact ⟨⟨⟨a0, a4⟩, ⟨a1, a5⟩⟩, ⟨⟨a2, a6⟩, ⟨a3, a7⟩⟩⟩

theorem neon_all_value4 (t : RegisterType)
    (ht : t = .uint32x4_t ∨ t = .int32x4_t ∨ t = .float32x4_t)
    (m0 m1 m2 m3 : Nat) :
    neon.all t
        [m0, m1, m2, m3]
      = some (min (m0 &&& m2) (m1 &&& m3) != 0) := by
  rcases ht with rfl | rfl | rfl <;>
  · simp only [neon.all, neon.vget_low, neon.vget_high, List.length_cons, List.length_nil]
    rfl

theorem neon_all_lanes4 (t : RegisterType)
    (ht : t = .uint32x4_t ∨ t = .int32x4_t ∨ t = .float32x4_t) (M : Nat) (hM : 0 < M)
    (m : List Nat) (hlen : m.length = 4) (hsat : ∀ x ∈ m, x = 0 ∨ x = M) :
    ∃ r, neon.all t m = some r ∧ (r = true ↔ ∀ x ∈ m, x = M) := by
  match m, hlen with
  | [m0, m1, m2, m3], _ =>
    simp only [List.mem_cons, List.mem_singleton, forall_eq_or_imp, forall_eq] at hsat
    obtain ⟨h0, h1, h2, h3, -⟩ := hsat
    refine ⟨_, neon_all_value4 t ht
      m0 m1 m2 m3, ?_⟩
    simp only [bne_iff_ne, ne_eq, nat_min_ne_zero,
      sat_and_ne_zero M _ _ hM h0 h2, sat_and_ne_zero M _ _ hM h1 h3,
      List.mem_cons, List.mem_singleton, forall_eq_or_imp, forall_eq, List.not_mem_nil,
      false_imp_iff, implies_true, and_true]
    constructor
    · rintro ⟨⟨a0, a2⟩, ⟨a1, a3⟩⟩
      exact ⟨a0, a1, a2, a3⟩
    · rintro ⟨a0, a1, a2, a3⟩
      exact ⟨⟨a0, a2⟩, ⟨a1, a3⟩⟩

theorem neon_any_value4 (t : RegisterType)
    (ht : t = .uint32x4_t ∨ t = .int32x4_t ∨ t = .float32x4_t)
    (m0 m1 m2 m3 : Nat) :
    neon.any t
        [m0, m1, m2, m3]
      = some (max (m0 ||| m2) (m1 ||| m3) != 0) := by
  rcases ht with rfl | rfl | rfl <;>
  · simp only [neon.any, neon.vget_low, neon.vget_high, List.length_cons, List.length_nil]
    rfl

theorem neon_any_lanes4 (t : RegisterType)
    (ht : t = .uint32x4_t ∨ t = .int32x4_t ∨ t = .float32x4_t)
    (m : List Nat) (hlen : m.length = 4) :
    ∃ r, neon.any t m = some r ∧ (r = true ↔ ∃ x ∈ m, x ≠ 0) := by
  match m, hlen with
  | [m0, m1, m2, m3], _ =>
    refine ⟨_, neon_any_value4 t ht
      m0 m1 m2 m3, ?_⟩
    rw [bne_iff_ne, ne_eq, exists_mem_ne_zero_iff]
    apply not_congr
    simp only [Nat.max_eq_zero_iff, nat_or_eq_zero,
      List.mem_cons, List.mem_singleton, forall_eq_or_imp, forall_eq, List.not_mem_nil,
      false_imp_iff, implies_true, and_true]
    constructor
    · rintro ⟨⟨a0, a2⟩, ⟨a1, a3⟩⟩
      exact ⟨a0, a1, a2, a3⟩
    · rintro ⟨a0, a1, a2, a3⟩
      exact ⟨⟨a0, a2⟩, ⟨a1, a3⟩⟩

theorem neon_all_value2 (t : RegisterType)
    (ht : t = .uint64x2_t ∨ t = .int64x2_t)
    (m0 m1 : Nat) :
    neon.all t
        [m0, m1]
      = some (m0 &&& m1 != 0) := by
  rcases ht with rfl | rfl <;>
  · simp only [neon.all, neon.vget_low, neon.vget_high, List.length_cons, List.length_nil]
    rfl

theorem neon_all_lanes2 (t : RegisterType)
    (ht : t = .uint64x2_t ∨ t = .int64x2_t) (M : Nat) (hM : 0 < M)
    (m : List Nat) (hlen : m.length = 2) (hsat : ∀ x ∈ m, x = 0 ∨ x = M) :
    ∃ r, neon.all t m = some r ∧ (r = true ↔ ∀ x ∈ m, x = M) := by
  match m, hlen with
  | [m0, m1], _ =>
    simp only [List.mem_cons, List.mem_singleton, forall_eq_or_imp, forall_eq] at hsat
    obtain ⟨h0, h1, -⟩ := hsat
    refine ⟨_, neon_all_value2 t ht
      m0 m1, ?_⟩
    simp only [bne_iff_ne, ne_eq, nat_min_ne_zero,
      sat_and_ne_zero M _ _ hM h0 h1,
      List.mem_cons, List.mem_singleton, forall_eq_or_imp, forall_eq, List.not_mem_nil,
      false_imp_iff, implies_true, and_true]

theorem neon_any_value2 (t : RegisterType)
    (ht : t = .uint64x2_t ∨ t = .int64x2_t)
    (m0 m1 : Nat) :
    neon.any t
        [m0, m1]
      = some (m0 ||| m1 != 0) := by
  rcases ht with rfl | rfl <;>
  · simp only [neon.any, neon.vget_low, neon.vget_high, List.length_cons, List.length_nil]
    rfl

theorem neon_any_lanes2 (t : RegisterType)
    (ht : t = .uint64x2_t ∨ t = .int64x2_t)
    (m : List Nat) (hlen : m.length = 2) :
    ∃ r, neon.any t m = some r ∧ (r = true ↔ ∃ x ∈ m, x ≠ 0) := by
  match m, hlen with
  | [m0, m1], _ =>
    refine ⟨_, neon_any_value2 t ht
      m0 m1, ?_⟩
    rw [bne_iff_ne, ne_eq, exists_mem_ne_zero_iff]
    apply not_congr
    simp only [Nat.max_eq_zero_iff, nat_or_eq_zero,
      List.mem_cons, List.mem_singleton, forall_eq_or_imp, forall_eq, List.not_mem_nil,
      false_imp_iff, implies_true, and_true]

theorem registerType_ones_pos (t : RegisterType) : 0 < 2 ^ t.bits - 1 := by
  cases t <;> decide

/-- C9.  NEON `all(m)` for every register type `t` (lane widths 1, 2, 4 and 8
bytes) and every saturated mask `m` of `t.size` lanes (each lane all-zeros or
all-ones): the call returns a value, and it is `true` if and only if every
lane of `m` is all-ones. -/
theorem neon_all_iff (t : RegisterType) (m : List Nat) (hlen : m.length = t.size)
    (hsat : ∀ x ∈ m, x = 0 ∨ x = 2 ^ t.bits - 1) :
    ∃ r, neon.all t m = some r ∧ (r = true ↔ ∀ x ∈ m, x = 2 ^ t.bits - 1) := by
  have hM := registerType_ones_pos t
  cases t
  case uint8x16_t => exact neon_all_lanes16 _ (Or.inl rfl) _ hM m hlen hsat
  case int8x16_t => exact neon_all_lanes16 _ (Or.inr rfl) _ hM m hlen hsat
  case uint16x8_t => exact neon_all_lanes8 _ (Or.inl rfl) _ hM m hlen hsat
  case int16x8_t => exact neon_all_lanes8 _ (Or.inr rfl) _ hM m hlen hsat
  case uint32x4_t => exact neon_all_lanes4 _ (Or.inl rfl) _ hM m hlen hsat
  case int32x4_t => exact neon_all_lanes4 _ (Or.inr (Or.inl rfl)) _ hM m hlen hsat
  case float32x4_t => exact neon_all_lanes4 _ (Or.inr (Or.inr rfl)) _ hM m hlen hsat
  case uint64x2_t => exact neon_all_lanes2 _ (Or.inl rfl) _ hM m hlen hsat
  case int64x2_t => exact neon_all_lanes2 _ (Or.inr rfl) _ hM m hlen hsat

theorem neon_all_iff_witness :
    ([65535, 65535, 65535, 65535, 65535, 65535, 65535, 0] : List Nat).length
      = RegisterType.uint16x8_t.size ∧
    (∀ x ∈ ([65535, 65535, 65535, 65535, 65535, 65535, 65535, 0] : List Nat),
      x = 0 ∨ x = 2 ^ RegisterType.uint16x8_t.bits - 1) ∧
    neon.all .uint16x8_t [65535, 65535, 65535, 65535, 65535, 65535, 65535, 0]
      = some false ∧
    ∃ r, neon.all .uint16x8_t [65535, 65535, 65535, 65535, 65535, 65535, 65535, 0]
        = some r ∧
      (r = true ↔ ∀ x ∈ ([65535, 65535, 65535, 65535, 65535, 65535, 65535, 0] : List Nat),
        x = 2 ^ RegisterType.uint16x8_t.bits - 1) :=
  ⟨rfl, by decide, by decide,
    neon_all_iff .uint16x8_t [65535, 65535, 65535, 65535, 65535, 65535, 65535, 0] rfl
      (by decide)⟩

/-- C10.  NEON `any(m)` for every register type `t` (lane widths 1, 2, 4 and 8
bytes) and every mask register `m` of `t.size` lanes, saturated or not: the
call returns a value, and it is `true` if and only if some lane of `m` is
nonzero. -/
theorem neon_any_iff (t : RegisterType) (m : List Nat) (hlen : m.length = t.size) :
    ∃ r, neon.any t m = some r ∧ (r = true ↔ ∃ x ∈ m, x ≠ 0) := by
  cases t
  case uint8x16_t => exact neon_any_lanes16 _ (Or.inl rfl) m hlen
  case int8x16_t => exact neon_any_lanes16 _ (Or.inr rfl) m hlen
  case uint16x8_t => exact neon_any_lanes8 _ (Or.inl rfl) m hlen
  case int16x8_t => exact neon_any_lanes8 _ (Or.inr rfl) m hlen
  case uint32x4_t => exact neon_any_lanes4 _ (Or.inl rfl) m hlen
  case int32x4_t => exact neon_any_lanes4 _ (Or.inr (Or.inl rfl)) m hlen
  case float32x4_t => exact neon_any_lanes4 _ (Or.inr (Or.inr rfl)) m hlen
  case uint64x2_t => exact neon_any_lanes2 _ (Or.inl rfl) m hlen
  case int64x2_t => exact neon_any_lanes2 _ (Or.inr rfl) m hlen

theorem neon_any_iff_witness :
    ([0, 0, 0, 0, 0, 0, 0, 0, 0, 0, 0, 0, 0, 4, 0, 0] : List Nat).length
      = RegisterType.int8x16_t.size ∧
    neon.any .int8x16_t [0, 0, 0, 0, 0, 0, 0, 0, 0, 0, 0, 0, 0, 4, 0, 0] = some true ∧
    ∃ r, neon.any .int8x16_t [0, 0, 0, 0, 0, 0, 0, 0, 0, 0, 0, 0, 0, 4, 0, 0] = some r ∧
      (r = true ↔ ∃ x ∈ ([0, 0, 0, 0, 0, 0, 0, 0, 0, 0, 0, 0, 0, 4, 0, 0] : List Nat),
        x ≠ 0) :=
  ⟨rfl, by decide,
    neon_any_iff .int8x16_t [0, 0, 0, 0, 0, 0, 0, 0, 0, 0, 0, 0, 0, 4, 0, 0] rfl⟩

/-! ## Bitwise kernels on masks -/

theorem nat_and_compl (w x : Nat) (h : x < 2 ^ w) : x &&& (2 ^ w - 1 - x) = 0 := by
  have e : 2 ^ w - 1 - x = 2 ^ w - (x + 1) := by omega
  apply Nat.eq_of_testBit_eq
  intro i
  rw [e, Nat.testBit_and, Nat.testBit_two_pow_sub_succ h]
  cases x.testBit i <;> simp

theorem nat_or_compl (w x : Nat) (h : x < 2 ^ w) :
    x ||| (2 ^ w - 1 - x) = 2 ^ w - 1 := by
  have e : 2 ^ w - 1 - x = 2 ^ w - (x + 1) := by omega
  apply Nat.eq_of_testBit_eq
  intro i
  rw [e, Nat.testBit_or, Nat.testBit_two_pow_sub_succ h, Nat.testBit_two_pow_sub_one]
  by_cases hi : i < w
  · cases x.testBit i <;> simp [hi]
  · have hx : x.testBit i = false :=
      Nat.testBit_lt_two_pow (lt_of_lt_of_le h (Nat.pow_le_pow_right (by decide) (by omega)))
    simp [hi, hx]

theorem comp_return_type_bits (t : RegisterType) :
    (neon.detail.comp_return_type t).bits = t.bits := by
  cases t <;> rfl

theorem comp_return_type_size (t : RegisterType) :
    (neon.detail.comp_return_type t).size = t.size := by
  cases t <;> rfl

/-- The complement through the 32-bit reinterpretation is the complement of
every 64-bit lane. -/
theorem neon_bitwise_not_64_lanes (a : List Nat) (h : ∀ x ∈ a, x < 2 ^ 64) :
    neon.vreinterpretq_64_32 (neon.vmvnq 32 (neon.vreinterpretq_32_64 a))
      = a.map (fun x => 2 ^ 64 - 1 - x) := by
  induction a with
  | nil => rfl
  | cons x rest ih =>
    simp only [List.mem_cons, forall_eq_or_imp] at h
    have ih1 := ih h.2
    simp only [neon.vmvnq] at ih1 ⊢
    simp only [neon.vreinterpretq_32_64, List.map_cons, neon.vreinterpretq_64_32, ih1]
    congr 1
    have hx := h.1
    norm_num at hx ⊢
    omega

/-- Every overload behind `bitwise_not` complements each lane of a register
whose lanes fit the lane width. -/
theorem neon_bitwise_not_neon_lanes (t : RegisterType) (a : List Nat)
    (h : ∀ x ∈ a, x < 2 ^ t.bits) :
    neon.detail.bitwise_not_neon t a = a.map (fun x => 2 ^ t.bits - 1 - x) := by
  cases t
  case uint64x2_t => exact neon_bitwise_not_64_lanes a h
  case int64x2_t => exact neon_bitwise_not_64_lanes a h
  all_goals rfl

theorem neon_bitwise_not_bool_lanes (t : RegisterType) (m : List Nat)
    (h : ∀ x ∈ m, x < 2 ^ t.bits) :
    neon.bitwise_not_bool t m = m.map (fun x => 2 ^ t.bits - 1 - x) := by
  unfold neon.bitwise_not_bool
  rw [neon_bitwise_not_neon_lanes _ m (by rw [comp_return_type_bits]; exact h),
    comp_return_type_bits]

theorem neon_all_sat_iff (t : RegisterType) (m : List Nat) (hlen : m.length = t.size)
    (hsat : ∀ x ∈ m, x = 0 ∨ x = 2 ^ t.bits - 1) :
    ∃ r, neon.all t m = some r ∧ (r = true ↔ ∀ x ∈ m, x = 2 ^ t.bits - 1) := by
  have hM := registerType_ones_pos t
  cases t
  case uint8x16_t => exact neon_all_lanes16 _ (Or.inl rfl) _ hM m hlen hsat
  case int8x16_t => exact neon_all_lanes16 _ (Or.inr rfl) _ hM m hlen hsat
  case uint16x8_t => exact neon_all_lanes8 _ (Or.inl rfl) _ hM m hlen hsat
  case int16x8_t => exact neon_all_lanes8 _ (Or.inr rfl) _ hM m hlen hsat
  case uint32x4_t => exact neon_all_lanes4 _ (Or.inl rfl) _ hM m hlen hsat
  case int32x4_t => exact neon_all_lanes4 _ (Or.inr (Or.inl rfl)) _ hM m hlen hsat
  case float32x4_t => exact neon_all_lanes4 _ (Or.inr (Or.inr rfl)) _ hM m hlen hsat
  case uint64x2_t => exact neon_all_lanes2 _ (Or.inl rfl) _ hM m hlen hsat
  case int64x2_t => exact neon_all_lanes2 _ (Or.inr rfl) _ hM m hlen hsat

theorem neon_any_nonzero_iff (t : RegisterType) (m : List Nat) (hlen : m.length = t.size) :
    ∃ r, neon.any t m = some r ∧ (r = true ↔ ∃ x ∈ m, x ≠ 0) := by
  cases t
  case uint8x16_t => exact neon_any_lanes16 _ (Or.inl rfl) m hlen
  case int8x16_t => exact neon_any_lanes16 _ (Or.inr rfl) m hlen
  case uint16x8_t => exact neon_any_lanes8 _ (Or.inl rfl) m hlen
  case int16x8_t => exact neon_any_lanes8 _ (Or.inr rfl) m hlen
  case uint32x4_t => exact neon_any_lanes4 _ (Or.inl rfl) m hlen
  case int32x4_t => exact neon_any_lanes4 _ (Or.inr (Or.inl rfl)) m hlen
  case float32x4_t => exact neon_any_lanes4 _ (Or.inr (Or.inr rfl)) m hlen
  case uint64x2_t => exact neon_any_lanes2 _ (Or.inl rfl) m hlen
  case int64x2_t => exact neon_any_lanes2 _ (Or.inr rfl) m hlen

/-- C11.  Duality of `all` and `any` on the NEON kernel: for every register
type `t` and every mask `m` of `t.size` lanes (a mask is a `batch_bool`, whose
lanes are all-zeros or all-ones), `any(m)` is defined and equals the negation
of `all(bitwise_not(m))`. -/
theorem neon_any_eq_not_all_not (t : RegisterType) (m : List Nat)
    (hlen : m.length = t.size) (hsat : ∀ x ∈ m, x = 0 ∨ x = 2 ^ t.bits - 1) :
    ∃ r, neon.any t m = some r ∧
      neon.all t (neon.bitwise_not_bool t m) = some (!r) := by
  have hM := registerType_ones_pos t
  have hlt : ∀ x ∈ m, x < 2 ^ t.bits := by
    intro x hx
    rcases hsat x hx with h | h <;> omega
  obtain ⟨r1, h1, h1iff⟩ := neon_any_nonzero_iff t m hlen
  have hnot := neon_bitwise_not_bool_lanes t m hlt
  have hsat2 : ∀ y ∈ neon.bitwise_not_bool t m, y = 0 ∨ y = 2 ^ t.bits - 1 := by
    rw [hnot]
    intro y hy
    obtain ⟨x, hx, rfl⟩ := List.mem_map.mp hy
    rcases hsat x hx with h | h
    · right; rw [h]; rfl
    · left; rw [h]; omega
  obtain ⟨r2, h2, h2iff⟩ := neon_all_sat_iff t (neon.bitwise_not_bool t m)
    (by rw [hnot, List.length_map, hlen]) hsat2
  refine ⟨r1, h1, ?_⟩
  rw [h2]
  congr 1
  have key : (r2 = true) ↔ ¬ (r1 = true) := by
    rw [h2iff, h1iff, hnot]
    constructor
    · rintro h ⟨x, hx, hne⟩
      have := h (2 ^ t.bits - 1 - x) (List.mem_map.mpr ⟨x, hx, rfl⟩)
      rcases hsat x hx with h0 | h0
      · exact hne h0
      · rw [h0] at this; omega
    · intro h y hy
      obtain ⟨x, hx, rfl⟩ := List.mem_map.mp hy
      have hx0 : x = 0 := by
        by_contra hne
        exact h ⟨x, hx, hne⟩
      rw [hx0]
      rfl
  cases r1 <;> cases r2 <;> first | rfl | (exfalso; simp at key)

theorem neon_any_eq_not_all_not_witness :
    ([0, 4294967295, 0, 0] : List Nat).length = RegisterType.float32x4_t.size ∧
    (∀ x ∈ ([0, 4294967295, 0, 0] : List Nat),
      x = 0 ∨ x = 2 ^ RegisterType.float32x4_t.bits - 1) ∧
    neon.any .float32x4_t [0, 4294967295, 0, 0] = some true ∧
    neon.bitwise_not_bool .float32x4_t [0, 4294967295, 0, 0]
      = [4294967295, 0, 4294967295, 4294967295] ∧
    ∃ r, neon.any .float32x4_t [0, 4294967295, 0, 0] = some r ∧
      neon.all .float32x4_t (neon.bitwise_not_bool .float32x4_t [0, 4294967295, 0, 0])
        = some (!r) :=
  ⟨rfl, by decide, by decide, by decide,
    neon_any_eq_not_all_not .float32x4_t [0, 4294967295, 0, 0] rfl (by decide)⟩

/-- Without saturation the duality does not hold: on the register
`{1, 0, 0, 0}` of 32-bit lanes `any` is true and `all` of the complement is
true as well. -/
theorem neon_any_all_not_unsaturated :
    neon.any .uint32x4_t [1, 0, 0, 0] = some true ∧
    neon.all .uint32x4_t (neon.bitwise_not_bool .uint32x4_t [1, 0, 0, 0]) = some true := by
  decide

theorem neon_zipWith_self_compl (f : Nat → Nat → Nat) (w c : Nat) (m : List Nat)
    (h : ∀ x ∈ m, x < 2 ^ w) (hf : ∀ x, x < 2 ^ w → f x (2 ^ w - 1 - x) = c) :
    List.zipWith f m (m.map (fun x => 2 ^ w - 1 - x)) = List.replicate m.length c := by
  induction m with
  | nil => rfl
  | cons x rest ih =>
    simp only [List.mem_cons, forall_eq_or_imp] at h
    simp only [List.map_cons, List.zipWith_cons_cons, List.length_cons, List.replicate_succ,
      ih h.2, hf x h.1]

theorem neon_veorq_self (m : List Nat) : neon.veorq m m = List.replicate m.length 0 := by
  induction m with
  | nil => rfl
  | cons x rest ih =>
    unfold neon.veorq at ih ⊢
    simp only [List.zipWith_cons_cons, List.length_cons, List.replicate_succ, ih,
      Nat.xor_self]

/-- C13.  Boolean algebra of masks on the NEON kernel: for every register type
`t` (the 64-bit complement going through the 32-bit reinterpretation) and every
mask register `m` of `t.size` lanes of `t.bits` bits, saturated or not,
`bitwise_and(m, bitwise_not(m))` is all-zeros, `bitwise_or(m, bitwise_not(m))`
is all-ones and `bitwise_xor(m, m)` is all-zeros. -/
theorem neon_mask_boolean_algebra (t : RegisterType) (m : List Nat)
    (hlen : m.length = t.size) (hlt : ∀ x ∈ m, x < 2 ^ t.bits) :
    neon.bitwise_and_bool t m (neon.bitwise_not_bool t m) = List.replicate t.size 0 ∧
    neon.bitwise_or_bool t m (neon.bitwise_not_bool t m)
      = List.replicate t.size (2 ^ t.bits - 1) ∧
    neon.bitwise_xor_bool t m m = List.replicate t.size 0 := by
  have hnot := neon_bitwise_not_bool_lanes t m hlt
  refine ⟨?_, ?_, ?_⟩
  · have h1 : neon.bitwise_and_bool t m (neon.bitwise_not_bool t m)
        = List.zipWith (· &&& ·) m (neon.bitwise_not_bool t m) := by
      cases t <;> rfl
    rw [h1, hnot, ← hlen]
    exact neon_zipWith_self_compl _ t.bits 0 m hlt (fun x hx => nat_and_compl t.bits x hx)
  · have h1 : neon.bitwise_or_bool t m (neon.bitwise_not_bool t m)
        = List.zipWith (· ||| ·) m (neon.bitwise_not_bool t m) := by
      cases t <;> rfl
    rw [h1, hnot, ← hlen]
    exact neon_zipWith_self_compl _ t.bits _ m hlt (fun x hx => nat_or_compl t.bits x hx)
  · have h1 : neon.bitwise_xor_bool t m m = neon.veorq m m := by
      cases t <;> rfl
    rw [h1, ← hlen]
    exact neon_veorq_self m

theorem neon_mask_boolean_algebra_witness :
    ([5, 0, 255, 128, 5, 0, 255, 128, 5, 0, 255, 128, 5, 0, 255, 128] : List Nat).length
      = RegisterType.int8x16_t.size ∧
    (∀ x ∈ ([5, 0, 255, 128, 5, 0, 255, 128, 5, 0, 255, 128, 5, 0, 255, 128] : List Nat),
      x < 2 ^ RegisterType.int8x16_t.bits) ∧
    neon.bitwise_not_bool .int8x16_t
        [5, 0, 255, 128, 5, 0, 255, 128, 5, 0, 255, 128, 5, 0, 255, 128]
      = [250, 255, 0, 127, 250, 255, 0, 127, 250, 255, 0, 127, 250, 255, 0, 127] ∧
    (neon.bitwise_and_bool .int8x16_t
        [5, 0, 255, 128, 5, 0, 255, 128, 5, 0, 255, 128, 5, 0, 255, 128]
        (neon.bitwise_not_bool .int8x16_t
          [5, 0, 255, 128, 5, 0, 255, 128, 5, 0, 255, 128, 5, 0, 255, 128])
      = List.replicate RegisterType.int8x16_t.size 0 ∧
    neon.bitwise_or_bool .int8x16_t
        [5, 0, 255, 128, 5, 0, 255, 128, 5, 0, 255, 128, 5, 0, 255, 128]
        (neon.bitwise_not_bool .int8x16_t
          [5, 0, 255, 128, 5, 0, 255, 128, 5, 0, 255, 128, 5, 0, 255, 128])
      = List.replicate RegisterType.int8x16_t.size (2 ^ RegisterType.int8x16_t.bits - 1) ∧
    neon.bitwise_xor_bool .int8x16_t
        [5, 0, 255, 128, 5, 0, 255, 128, 5, 0, 255, 128, 5, 0, 255, 128]
        [5, 0, 255, 128, 5, 0, 255, 128, 5, 0, 255, 128, 5, 0, 255, 128]
      = List.replicate RegisterType.int8x16_t.size 0) :=
  ⟨rfl, by decide, by decide,
    neon_mask_boolean_algebra .int8x16_t
      [5, 0, 255, 128, 5, 0, 255, 128, 5, 0, 255, 128, 5, 0, 255, 128] rfl (by decide)⟩


/-! ## add, sub, sadd, ssub, neg -/

theorem list_zipWith_self_map_const {β : Type} (f : Nat → Nat → β) (g : Nat → Nat) (c : β)
    (m : List Nat) (h : ∀ x ∈ m, f x (g x) = c) :
    List.zipWith f m (m.map g) = List.replicate m.length c := by
  induction m with
  | nil => rfl
  | cons x rest ih =>
    simp only [List.mem_cons, forall_eq_or_imp] at h
    simp only [List.map_cons, List.zipWith_cons_cons, List.length_cons, List.replicate_succ,
      ih h.2, h.1]

theorem neon_add_integral (fp : FloatLane) (t : RegisterType) (ht : t.integral = true)
    (a b : List Nat) :
    neon.add fp t a b = List.zipWith (fun x y => (x + y) % 2 ^ t.bits) a b := by
  cases t <;> first | rfl | exact absurd ht (by decide)

theorem neon_sub_integral (fp : FloatLane) (t : RegisterType) (ht : t.integral = true)
    (a b : List Nat) :
    neon.sub fp t a b = List.zipWith (fun (x y : Nat) => ofInt t.bits ((x : Int) - (y : Int))) a b := by
  cases t <;> first | rfl | exact absurd ht (by decide)

/-- C14.  NEON `add` and `sub` on an integer register type `t` of lane width
`w = t.bits`: each lane of `add(a, b)` is `(a_k + b_k) mod 2^w` and each lane
of `sub(a, b)` is `(a_k - b_k) mod 2^w`; hence `add(a, broadcast(0)) = a` for a
batch `a` of `t.size` lanes below `2^w`, on unsigned 8-bit lanes
`add(broadcast(255), broadcast(1)) = broadcast(0)`, and
`broadcast(3) + broadcast(5)` has all 16 lanes equal to 8. -/
theorem neon_add_sub_wrap (fp : FloatLane) (t : RegisterType) (ht : t.integral = true)
    (a b : List Nat) (hlen : a.length = t.size) (hlt : ∀ x ∈ a, x < 2 ^ t.bits) :
    neon.add fp t a b = List.zipWith (fun x y => (x + y) % 2 ^ t.bits) a b ∧
    (neon.sub fp t a b).map (fun (r : Nat) => (r : Int))
      = List.zipWith (fun (x y : Nat) => ((x : Int) - (y : Int)) % 2 ^ t.bits) a b ∧
    neon.add fp t a (neon.broadcast t 0) = a ∧
    neon.add fp .uint8x16_t (neon.broadcast .uint8x16_t 255) (neon.broadcast .uint8x16_t 1)
      = neon.broadcast .uint8x16_t 0 ∧
    neon.add fp .uint8x16_t (neon.broadcast .uint8x16_t 3) (neon.broadcast .uint8x16_t 5)
      = List.replicate 16 8 := by
  refine ⟨neon_add_integral fp t ht a b, ?_, ?_, by rfl, by rfl⟩
  · rw [neon_sub_integral fp t ht, List.map_zipWith]
    congr 1
    funext x y
    exact ofInt_cast _ _
  · rw [neon_add_integral fp t ht, neon.broadcast, ← hlen]
    clear hlen
    induction a with
    | nil => rfl
    | cons x rest ih =>
      simp only [List.mem_cons, forall_eq_or_imp] at hlt
      simp only [List.length_cons, List.replicate_succ, List.zipWith_cons_cons, ih hlt.2,
        Nat.add_zero, Nat.mod_eq_of_lt hlt.1]

theorem neon_add_sub_wrap_witness :
    RegisterType.int16x8_t.integral = true ∧
    ([1, 65535, 3, 4, 5, 6, 7, 32768] : List Nat).length = RegisterType.int16x8_t.size ∧
    (∀ x ∈ ([1, 65535, 3, 4, 5, 6, 7, 32768] : List Nat),
      x < 2 ^ RegisterType.int16x8_t.bits) ∧
    neon.add FloatLane.unused .int16x8_t
        [1, 65535, 3, 4, 5, 6, 7, 32768] [1, 1, 65535, 0, 0, 0, 0, 32768]
      = [2, 0, 2, 4, 5, 6, 7, 0] ∧
    neon.sub FloatLane.unused .int16x8_t
        [1, 65535, 3, 4, 5, 6, 7, 32768] [2, 1, 65535, 0, 0, 0, 0, 32768]
      = [65535, 65534, 4, 4, 5, 6, 7, 0] ∧
    neon.add FloatLane.unused .int16x8_t
        [1, 65535, 3, 4, 5, 6, 7, 32768] (neon.broadcast .int16x8_t 0)
      = [1, 65535, 3, 4, 5, 6, 7, 32768] :=
  ⟨rfl, rfl, by decide, by decide, by decide,
    (neon_add_sub_wrap FloatLane.unused .int16x8_t rfl
      [1, 65535, 3, 4, 5, 6, 7, 32768] [1, 1, 65535, 0, 0, 0, 0, 32768] rfl
      (by decide)).2.2.1⟩


theorem ofInt_cast_of_range (w : Nat) (z : Int) (h0 : 0 ≤ z) (h1 : z < 2 ^ w) :
    ((ofInt w z : Nat) : Int) = z := by
  rw [ofInt_cast, Int.emod_eq_of_lt h0 h1]

theorem toInt_ofInt_of_range (w : Nat) (hw : 0 < w) (z : Int)
    (h0 : -(2 ^ (w - 1)) ≤ z) (h1 : z < 2 ^ (w - 1)) :
    toInt w (ofInt w z) = z := by
  obtain ⟨v, rfl⟩ : ∃ v, w = v + 1 := ⟨w - 1, by omega⟩
  simp only [Nat.add_sub_cancel] at h0 h1
  have h2 : (2 : Int) ^ (v + 1) = 2 * 2 ^ v := by ring
  have hP : (0 : Int) < 2 ^ v := by positivity
  have hx := ofInt_cast (v + 1) z
  unfold toInt
  simp only [Nat.add_sub_cancel]
  by_cases hz : 0 ≤ z
  · have hmod : z % 2 ^ (v + 1) = z := Int.emod_eq_of_lt hz (by omega)
    rw [hmod] at hx
    have hlt : ofInt (v + 1) z < 2 ^ v := by
      have : ((ofInt (v + 1) z : Nat) : Int) < ((2 ^ v : Nat) : Int) := by
        push_cast
        omega
      exact_mod_cast this
    rw [if_pos hlt, hx]
  · have hmod : z % 2 ^ (v + 1) = z + 2 ^ (v + 1) := by
      rw [← Int.add_emod_self]
      exact Int.emod_eq_of_lt (by omega) (by omega)
    rw [hmod] at hx
    have hge : ¬ ofInt (v + 1) z < 2 ^ v := by
      intro hlt
      have : ((ofInt (v + 1) z : Nat) : Int) < ((2 ^ v : Nat) : Int) := by exact_mod_cast hlt
      push_cast at this
      omega
    rw [if_neg hge, hx]
    omega

/-- Reading the saturated pattern back gives the exact result clamped to the
range of the lane type. -/
theorem neon_saturate_value (t : RegisterType) (z : Int) :
    t.value (neon.saturate t z) = max t.minValue (min t.maxValue z) := by
  have hw := registerType_bits_pos t
  have hP : (0 : Int) < 2 ^ (t.bits - 1) := by positivity
  have hQ : (0 : Int) < 2 ^ t.bits := by positivity
  unfold RegisterType.value RegisterType.minValue RegisterType.maxValue neon.saturate
  rcases Bool.eq_false_or_eq_true t.signed with hs | hs
  · simp only [hs, if_true]
    split_ifs with h1 h2
    · rw [toInt_ofInt_of_range _ hw _ (by omega) (by omega)]
      omega
    · rw [toInt_ofInt_of_range _ hw _ (by omega) (by omega)]
      omega
    · rw [toInt_ofInt_of_range _ hw _ (by omega) (by omega)]
      omega
  · simp only [hs, Bool.false_eq_true, if_false]
    split_ifs with h1 h2
    · rw [ofInt_cast_of_range _ _ (by omega) (by omega)]
      omega
    · simp only [Nat.cast_zero]
      omega
    · rw [ofInt_cast_of_range _ _ (by omega) (by omega)]
      omega

theorem neon_sadd_integral (fp : FloatLane) (t : RegisterType) (ht : t.integral = true)
    (a b : List Nat) :
    neon.sadd fp t a b
      = List.zipWith (fun x y => neon.saturate t (t.value x + t.value y)) a b := by
  cases t <;> first | rfl | exact absurd ht (by decide)

theorem neon_ssub_integral (fp : FloatLane) (t : RegisterType) (ht : t.integral = true)
    (a b : List Nat) :
    neon.ssub fp t a b
      = List.zipWith (fun x y => neon.saturate t (t.value x - t.value y)) a b := by
  cases t <;> first | rfl | exact absurd ht (by decide)

/-- C15.  NEON `sadd` and `ssub` on an integer register type `t`: read in the
lane type of `t`, each lane of `sadd(a, b)` is `a_k + b_k` clamped to
`[min(T), max(T)]` and each lane of `ssub(a, b)` is `a_k - b_k` clamped to the
same range; hence `sadd(broadcast(INT8_MAX), broadcast(1)) = broadcast(INT8_MAX)`,
unsigned `ssub(broadcast(0), broadcast(1)) = broadcast(0)`, and on signed
16-bit lanes `30000 + 5000` saturates to `32767` in every lane. -/
theorem neon_sadd_ssub_clamp (fp : FloatLane) (t : RegisterType) (ht : t.integral = true)
    (a b : List Nat) :
    (neon.sadd fp t a b).map t.value
      = List.zipWith (fun x y => max t.minValue (min t.maxValue (t.value x + t.value y)))
          a b ∧
    (neon.ssub fp t a b).map t.value
      = List.zipWith (fun x y => max t.minValue (min t.maxValue (t.value x - t.value y)))
          a b ∧
    neon.sadd fp .int8x16_t (neon.broadcast .int8x16_t 127) (neon.broadcast .int8x16_t 1)
      = neon.broadcast .int8x16_t 127 ∧
    (∀ u, u = RegisterType.uint8x16_t ∨ u = RegisterType.uint16x8_t ∨
        u = RegisterType.uint32x4_t ∨ u = RegisterType.uint64x2_t →
      neon.ssub fp u (neon.broadcast u 0) (neon.broadcast u 1) = neon.broadcast u 0) ∧
    neon.sadd fp .int16x8_t (neon.broadcast .int16x8_t 30000)
        (neon.broadcast .int16x8_t 5000)
      = List.replicate 8 32767 := by
  refine ⟨?_, ?_, by rfl, ?_, by rfl⟩
  · rw [neon_sadd_integral fp t ht, List.map_zipWith]
    congr 1
    funext x y
    exact neon_saturate_value t _
  · rw [neon_ssub_integral fp t ht, List.map_zipWith]
    congr 1
    funext x y
    exact neon_saturate_value t _
  · rintro u (rfl | rfl | rfl | rfl) <;> rfl

theorem neon_sadd_ssub_clamp_witness :
    RegisterType.int8x16_t.integral = true ∧
    neon.sadd FloatLane.unused .int8x16_t
        [127, 128, 1, 255, 100, 156, 0, 0, 0, 0, 0, 0, 0, 0, 0, 0]
        [1, 255, 2, 255, 100, 156, 0, 0, 0, 0, 0, 0, 0, 0, 0, 0]
      = [127, 128, 3, 254, 127, 128, 0, 0, 0, 0, 0, 0, 0, 0, 0, 0] ∧
    (neon.sadd FloatLane.unused .int8x16_t
        [127, 128, 1, 255, 100, 156, 0, 0, 0, 0, 0, 0, 0, 0, 0, 0]
        [1, 255, 2, 255, 100, 156, 0, 0, 0, 0, 0, 0, 0, 0, 0, 0]).map
        RegisterType.int8x16_t.value
      = List.zipWith (fun x y => max RegisterType.int8x16_t.minValue
          (min RegisterType.int8x16_t.maxValue
            (RegisterType.int8x16_t.value x + RegisterType.int8x16_t.value y)))
          [127, 128, 1, 255, 100, 156, 0, 0, 0, 0, 0, 0, 0, 0, 0, 0]
          [1, 255, 2, 255, 100, 156, 0, 0, 0, 0, 0, 0, 0, 0, 0, 0] :=
  ⟨rfl, by decide,
    (neon_sadd_ssub_clamp FloatLane.unused .int8x16_t rfl
      [127, 128, 1, 255, 100, 156, 0, 0, 0, 0, 0, 0, 0, 0, 0, 0]
      [1, 255, 2, 255, 100, 156, 0, 0, 0, 0, 0, 0, 0, 0, 0, 0]).1⟩


theorem ofInt_neg_toInt (w x : Nat) (hx : x < 2 ^ w) :
    ofInt w (-(toInt w x)) = (2 ^ w - x) % 2 ^ w := by
  have h : ((ofInt w (-(toInt w x)) : Nat) : Int) = (((2 ^ w - x) % 2 ^ w : Nat) : Int) := by
    rw [ofInt_cast]
    push_cast [Nat.cast_sub (le_of_lt hx)]
    unfold toInt
    split
    · rw [show ((2 : Int) ^ w - (x : Int)) = -(x : Int) + 2 ^ w by ring, Int.add_emod_self]
    · congr 1
      ring
  exact_mod_cast h

theorem nat_add_neg_mod (w x : Nat) (hx : x < 2 ^ w) :
    (x + (2 ^ w - x) % 2 ^ w) % 2 ^ w = 0 := by
  rcases Nat.eq_zero_or_pos x with h | h
  · subst h
    simp
  · rw [Nat.mod_eq_of_lt (a := 2 ^ w - x) (by omega), show x + (2 ^ w - x) = 2 ^ w by omega,
      Nat.mod_self]

theorem nat_neg_neg_mod (w x : Nat) (hx : x < 2 ^ w) :
    (2 ^ w - (2 ^ w - x) % 2 ^ w) % 2 ^ w = x := by
  rcases Nat.eq_zero_or_pos x with h | h
  · subst h
    simp
  · rw [Nat.mod_eq_of_lt (a := 2 ^ w - x) (by omega), show 2 ^ w - (2 ^ w - x) = x by omega,
      Nat.mod_eq_of_lt hx]

theorem neon_vnegq_lanes (w : Nat) (a : List Nat) (h : ∀ x ∈ a, x < 2 ^ w) :
    neon.vnegq w a = a.map (fun x => (2 ^ w - x) % 2 ^ w) := by
  unfold neon.vnegq
  apply List.map_congr_left
  intro x hx
  exact ofInt_neg_toInt w x (h x hx)

/-- The negation of a scalar of the integer type of `t` is the two's complement
negation of its bit pattern, unless the type is signed and the scalar is its
minimum: then the negation has no defined value. -/
theorem neon_scalar_neg_lane (t : RegisterType) (x : Nat) (hx : x < 2 ^ t.bits) :
    (t.signed = false → neon.scalar_neg t x = some ((2 ^ t.bits - x) % 2 ^ t.bits)) ∧
    (t.signed = true → t.value x ≠ t.minValue →
      neon.scalar_neg t x = some ((2 ^ t.bits - x) % 2 ^ t.bits)) ∧
    (t.signed = true → t.value x = t.minValue → neon.scalar_neg t x = none) := by
  have hw := registerType_bits_pos t
  have hr := toInt_range t.bits hw x hx
  have hP : (0 : Int) < 2 ^ (t.bits - 1) := by positivity
  refine ⟨?_, ?_, ?_⟩
  · intro hs
    simp only [neon.scalar_neg, hs, Bool.false_eq_true, if_false]
  · intro hs hne
    simp only [RegisterType.value, RegisterType.minValue, hs, if_true] at hne
    have hc : -(2 ^ (t.bits - 1)) ≤ -(toInt t.bits x) ∧
        -(toInt t.bits x) ≤ 2 ^ (t.bits - 1) - 1 := by
      constructor <;> omega
    simp only [neon.scalar_neg, RegisterType.value, RegisterType.minValue,
      RegisterType.maxValue, hs, if_true, hc, and_self]
    rw [ofInt_neg_toInt t.bits x hx]
  · intro hs he
    simp only [RegisterType.value, RegisterType.minValue, hs, if_true] at he
    have hc : ¬ (-(2 ^ (t.bits - 1)) ≤ -(toInt t.bits x) ∧
        -(toInt t.bits x) ≤ 2 ^ (t.bits - 1) - 1) := by
      rw [he]
      omega
    simp only [neon.scalar_neg, RegisterType.value, RegisterType.minValue,
      RegisterType.maxValue, hs, if_true, hc, if_false]

/-- Every integer overload of `neg` returns the two's complement negation of
each lane; on `int64_t` this needs every lane to differ from the minimum of the
type. -/
theorem neon_neg_lanes (fp : FloatLane) (t : RegisterType) (ht : t.integral = true)
    (a : List Nat) (hlen : a.length = t.size) (hlt : ∀ x ∈ a, x < 2 ^ t.bits)
    (hmin : t = .int64x2_t → ∀ x ∈ a, t.value x ≠ t.minValue) :
    neon.neg fp t a = some (a.map (fun x => (2 ^ t.bits - x) % 2 ^ t.bits)) := by
  cases t
  case float32x4_t => exact absurd ht (by decide)
  case uint64x2_t =>
    match a, hlen with
    | [x0, x1], _ => rfl
  case int64x2_t =>
    match a, hlen with
    | [x0, x1], _ =>
      simp only [List.mem_cons, forall_eq_or_imp] at hlt
      have hm := hmin rfl
      simp only [List.mem_cons, forall_eq_or_imp] at hm
      have h0 := (neon_scalar_neg_lane .int64x2_t x0 hlt.1).2.1 rfl hm.1
      have h1 := (neon_scalar_neg_lane .int64x2_t x1 hlt.2.1).2.1 rfl hm.2.1
      have e : neon.neg fp .int64x2_t [x0, x1]
          = (neon.scalar_neg .int64x2_t x0).bind (fun n0 =>
              (neon.scalar_neg .int64x2_t x1).bind (fun n1 => some [n0, n1])) := rfl
      rw [e, h0, h1]
      rfl
  all_goals exact congrArg some (neon_vnegq_lanes _ a hlt)

/-- On `int64_t` the kernel `neg` has no defined value as soon as a lane holds
the minimum of the type. -/
theorem neon_neg_s64_undefined (fp : FloatLane) (x0 x1 : Nat) (h0 : x0 < 2 ^ 64)
    (h1 : x1 < 2 ^ 64)
    (h : RegisterType.int64x2_t.value x0 = RegisterType.int64x2_t.minValue ∨
      RegisterType.int64x2_t.value x1 = RegisterType.int64x2_t.minValue) :
    neon.neg fp .int64x2_t [x0, x1] = none := by
  have e : neon.neg fp .int64x2_t [x0, x1]
      = (neon.scalar_neg .int64x2_t x0).bind (fun n0 =>
          (neon.scalar_neg .int64x2_t x1).bind (fun n1 => some [n0, n1])) := rfl
  rw [e]
  rcases h with h | h
  · rw [(neon_scalar_neg_lane .int64x2_t x0 h0).2.2 rfl h]
    rfl
  · rw [(neon_scalar_neg_lane .int64x2_t x1 h1).2.2 rfl h]
    cases neon.scalar_neg .int64x2_t x0 <;> rfl

/-- The value of a negated lane that is not the minimum of the signed type is
not the minimum either. -/
theorem neon_neg_value_ne_min (t : RegisterType) (hs : t.signed = true) (x : Nat)
    (hx : x < 2 ^ t.bits) (hne : t.value x ≠ t.minValue) :
    t.value ((2 ^ t.bits - x) % 2 ^ t.bits) ≠ t.minValue := by
  have hw := registerType_bits_pos t
  have hr := toInt_range t.bits hw x hx
  have hP : (0 : Int) < 2 ^ (t.bits - 1) := by positivity
  simp only [RegisterType.value, RegisterType.minValue, hs, if_true] at hne ⊢
  rw [← ofInt_neg_toInt t.bits x hx,
    toInt_ofInt_of_range t.bits hw _ (by omega) (by omega)]
  omega

/-- NEON `neg` on an integer register type `t` of lane width `w`, signed or
unsigned, the 64-bit scalar path included, for a batch `a` of `t.size` lanes
below `2^w` none of which, on `int64_t`, is the minimum of the type: `neg(a)` is
defined, each lane is `(2^w - a_k) mod 2^w`, `add(a, neg(a)) = broadcast(0)`
and `neg(neg(a)) = a`. -/
theorem neon_neg_defined_twos_complement (fp : FloatLane) (t : RegisterType)
    (ht : t.integral = true) (a : List Nat) (hlen : a.length = t.size)
    (hlt : ∀ x ∈ a, x < 2 ^ t.bits)
    (hmin : t = .int64x2_t → ∀ x ∈ a, t.value x ≠ t.minValue) :
    ∃ n, neon.neg fp t a = some n ∧
      n = a.map (fun x => (2 ^ t.bits - x) % 2 ^ t.bits) ∧
      neon.add fp t a n = neon.broadcast t 0 ∧
      neon.neg fp t n = some a := by
  have hneg := neon_neg_lanes fp t ht a hlen hlt hmin
  refine ⟨_, hneg, rfl, ?_, ?_⟩
  · rw [neon_add_integral fp t ht, neon.broadcast, ← hlen]
    exact list_zipWith_self_map_const _ _ 0 a (fun x hx => nat_add_neg_mod t.bits x (hlt x hx))
  · have hlen2 : (a.map (fun x => (2 ^ t.bits - x) % 2 ^ t.bits)).length = t.size := by
      rw [List.length_map, hlen]
    have hlt2 : ∀ y ∈ a.map (fun x => (2 ^ t.bits - x) % 2 ^ t.bits), y < 2 ^ t.bits := by
      intro y hy
      obtain ⟨x, -, rfl⟩ := List.mem_map.mp hy
      exact Nat.mod_lt _ (by positivity)
    have hmin2 : t = .int64x2_t →
        ∀ y ∈ a.map (fun x => (2 ^ t.bits - x) % 2 ^ t.bits), t.value y ≠ t.minValue := by
      intro h64 y hy
      obtain ⟨x, hx, rfl⟩ := List.mem_map.mp hy
      exact neon_neg_value_ne_min t (by rw [h64]; rfl) x (hlt x hx) (hmin h64 x hx)
    rw [neon_neg_lanes fp t ht _ hlen2 hlt2 hmin2, List.map_map]
    congr 1
    conv_rhs => rw [← List.map_id a]
    apply List.map_congr_left
    intro x hx
    exact nat_neg_neg_mod t.bits x (hlt x hx)

/-- C16.  The `int64_t` overload of NEON `neg` at the batch `{INT64_MIN, 0}`
(bit pattern `2^63 = 9223372036854775808` in lane 0): the scalar negation
`-rhs.get(0)` of the minimum of `int64_t` is a signed overflow, so the call has
no defined value, where `(2^64 - a_0) mod 2^64` is the bit pattern `2^63`
itself.  The same lanes as `uint64_t` give `{2^63, 0}`, the `int32_t` overload
at `{INT32_MIN, 0, 0, 0}` gives `{INT32_MIN, 0, 0, 0}` through `vnegq_s32`, and
the `int64_t` overload at `{1, 0}` gives `{-1, 0}`. -/
theorem neon_neg_s64_minimum_undefined :
    neon.neg FloatLane.unused .int64x2_t [9223372036854775808, 0] = none ∧
    RegisterType.int64x2_t.value 9223372036854775808 = RegisterType.int64x2_t.minValue ∧
    (2 ^ 64 - 9223372036854775808) % 2 ^ 64 = 9223372036854775808 ∧
    neon.neg FloatLane.unused .uint64x2_t [9223372036854775808, 0]
      = some [9223372036854775808, 0] ∧
    neon.neg FloatLane.unused .int32x4_t [2147483648, 0, 0, 0]
      = some [2147483648, 0, 0, 0] ∧
    neon.neg FloatLane.unused .int64x2_t [1, 0] = some [18446744073709551615, 0] := by
  decide


/-! ## Mask saturation -/

theorem ofInt_neg_one (w : Nat) : ofInt w (-1) = 2 ^ w - 1 := by
  have hP : (0 : Int) < 2 ^ w := by positivity
  have hN : 0 < 2 ^ w := by positivity
  have h : ((ofInt w (-1) : Nat) : Int) = ((2 ^ w - 1 : Nat) : Int) := by
    rw [ofInt_cast, ← Int.add_emod_self, Int.emod_eq_of_lt (by omega) (by omega)]
    push_cast [Nat.cast_sub hN]
    ring
  exact_mod_cast h

theorem ofInt_zero (w : Nat) : ofInt w 0 = 0 := by
  simp [ofInt]

theorem list_forall_zipWith {β γ δ : Type} (f : β → γ → δ) (P : δ → Prop)
    (h : ∀ x y, P (f x y)) (a : List β) (b : List γ) :
    ∀ z ∈ List.zipWith f a b, P z := by
  induction a generalizing b with
  | nil => simp
  | cons x xs ih =>
    cases b with
    | nil => simp
    | cons y ys =>
      intro z hz
      simp only [List.zipWith_cons_cons, List.mem_cons] at hz
      rcases hz with rfl | hz
      · exact h x y
      · exact ih ys z hz

theorem list_forall_zipWith_of_mem {β γ δ : Type} (f : β → γ → δ) (P : δ → Prop)
    (a : List β) (b : List γ) (h : ∀ x ∈ a, ∀ y ∈ b, P (f x y)) :
    ∀ z ∈ List.zipWith f a b, P z := by
  induction a generalizing b with
  | nil => simp
  | cons x xs ih =>
    cases b with
    | nil => simp
    | cons y ys =>
      intro z hz
      simp only [List.zipWith_cons_cons, List.mem_cons] at hz
      rcases hz with rfl | hz
      · exact h x (List.mem_cons_self _ _) y (List.mem_cons_self _ _)
      · exact ih ys (fun x1 hx1 y1 hy1 =>
          h x1 (List.mem_cons_of_mem _ hx1) y1 (List.mem_cons_of_mem _ hy1)) z hz

theorem neon_set_bool_saturated (t : RegisterType) (args : List Bool) :
    neon.saturated t.bits (neon.set_bool t args) := by
  intro x hx
  obtain ⟨b, -, rfl⟩ := List.mem_map.mp hx
  cases b
  · left
    exact ofInt_zero _
  · right
    exact ofInt_neg_one _

theorem neon_vcmpq_saturated (w : Nat) (p : Nat → Nat → Bool) (a b : List Nat) :
    neon.saturated w (neon.vcmpq w p a b) := by
  apply list_forall_zipWith
  intro x y
  cases p x y
  · left; rfl
  · right; rfl

theorem neon_comparison_saturated (cmp : Int → Int → Bool) (fcmp : Nat → Nat → Bool)
    (t : RegisterType) (a b : List Nat) :
    neon.saturated t.bits (neon.detail.comparison cmp fcmp t a b) := by
  cases t
  case uint64x2_t => exact neon_set_bool_saturated _ _
  case int64x2_t => exact neon_set_bool_saturated _ _
  all_goals exact neon_vcmpq_saturated _ _ _ _

theorem neon_eq_bool_saturated (t : RegisterType) (a b : List Nat) :
    neon.saturated t.bits (neon.eq_bool t a b) := by
  cases t
  case uint64x2_t => exact neon_set_bool_saturated _ _
  case int64x2_t => exact neon_set_bool_saturated _ _
  all_goals exact neon_vcmpq_saturated _ _ _ _

theorem neon_bitwise_bool_saturated (t : RegisterType) (m1 m2 : List Nat)
    (h1 : neon.saturated t.bits m1) (h2 : neon.saturated t.bits m2) :
    neon.saturated t.bits (neon.bitwise_and_bool t m1 m2) ∧
    neon.saturated t.bits (neon.bitwise_or_bool t m1 m2) ∧
    neon.saturated t.bits (neon.bitwise_xor_bool t m1 m2) ∧
    neon.saturated t.bits (neon.bitwise_andnot_bool t m1 m2) := by
  have hand : neon.bitwise_and_bool t m1 m2 = List.zipWith (· &&& ·) m1 m2 := by
    cases t <;> rfl
  have hor : neon.bitwise_or_bool t m1 m2 = List.zipWith (· ||| ·) m1 m2 := by
    cases t <;> rfl
  have hxor : neon.bitwise_xor_bool t m1 m2 = List.zipWith (· ^^^ ·) m1 m2 := by
    cases t <;> rfl
  have hbic : neon.bitwise_andnot_bool t m1 m2
      = List.zipWith (fun x y => x &&& (2 ^ t.bits - 1 - y)) m1 m2 := by
    cases t <;> rfl
  rw [hand, hor, hxor, hbic]
  refine ⟨?_, ?_, ?_, ?_⟩ <;>
  · apply list_forall_zipWith_of_mem
    intro x hx y hy
    rcases h1 x hx with rfl | rfl <;> rcases h2 y hy with rfl | rfl <;> simp

theorem neon_bitwise_not_bool_saturated (t : RegisterType) (m : List Nat)
    (h : neon.saturated t.bits m) :
    neon.saturated t.bits (neon.bitwise_not_bool t m) := by
  have hM := registerType_ones_pos t
  have hlt : ∀ x ∈ m, x < 2 ^ t.bits := by
    intro x hx
    rcases h x hx with h0 | h0 <;> omega
  rw [neon_bitwise_not_bool_lanes t m hlt]
  intro y hy
  obtain ⟨x, hx, rfl⟩ := List.mem_map.mp hy
  rcases h x hx with h0 | h0
  · right; rw [h0]; rfl
  · left; rw [h0]; omega

/-- C12.  Mask saturation on the NEON kernel, for every register type `t`: the
mask built by `set` from bools, the results of `eq`, `lt`, `le`, `gt`, `ge` on
any two batches (the 64-bit scalar path included) and of `eq` on any two mask
registers are saturated, and `bitwise_and`, `bitwise_or`, `bitwise_xor`,
`bitwise_not`, `bitwise_andnot` and `neq` of saturated masks are saturated. -/
theorem neon_mask_saturation (fp : FloatLane) (t : RegisterType) (args : List Bool)
    (a b m1 m2 : List Nat) (h1 : neon.saturated t.bits m1)
    (h2 : neon.saturated t.bits m2) :
    neon.saturated t.bits (neon.set_bool t args) ∧
    neon.saturated t.bits (neon.eq fp t a b) ∧
    neon.saturated t.bits (neon.lt fp t a b) ∧
    neon.saturated t.bits (neon.le fp t a b) ∧
    neon.saturated t.bits (neon.gt fp t a b) ∧
    neon.saturated t.bits (neon.ge fp t a b) ∧
    neon.saturated t.bits (neon.eq_bool t a b) ∧
    neon.saturated t.bits (neon.bitwise_and_bool t m1 m2) ∧
    neon.saturated t.bits (neon.bitwise_or_bool t m1 m2) ∧
    neon.saturated t.bits (neon.bitwise_xor_bool t m1 m2) ∧
    neon.saturated t.bits (neon.bitwise_not_bool t m1) ∧
    neon.saturated t.bits (neon.bitwise_andnot_bool t m1 m2) ∧
    neon.saturated t.bits (neon.neq_bool t m1 m2) := by
  obtain ⟨hand, hor, hxor, hbic⟩ := neon_bitwise_bool_saturated t m1 m2 h1 h2
  exact ⟨neon_set_bool_saturated t args,
    neon_comparison_saturated _ _ t a b, neon_comparison_saturated _ _ t a b,
    neon_comparison_saturated _ _ t a b, neon_comparison_saturated _ _ t a b,
    neon_comparison_saturated _ _ t a b, neon_eq_bool_saturated t a b,
    hand, hor, hxor, neon_bitwise_not_bool_saturated t m1 h1, hbic, hxor⟩

theorem neon_mask_saturation_witness :
    neon.saturated RegisterType.int64x2_t.bits [18446744073709551615, 0] ∧
    neon.saturated RegisterType.int64x2_t.bits [0, 0] ∧
    neon.set_bool .int64x2_t [true, false] = [18446744073709551615, 0] ∧
    neon.lt FloatLane.unused .int64x2_t [18446744073709551615, 7] [0, 7]
      = [18446744073709551615, 0] ∧
    neon.bitwise_not_bool .int64x2_t [18446744073709551615, 0]
      = [0, 18446744073709551615] ∧
    (neon.saturated RegisterType.int64x2_t.bits
        (neon.lt FloatLane.unused .int64x2_t [18446744073709551615, 7] [0, 7]) ∧
      neon.saturated RegisterType.int64x2_t.bits
        (neon.bitwise_not_bool .int64x2_t [18446744073709551615, 0]) ∧
      neon.saturated RegisterType.int64x2_t.bits
        (neon.neq_bool .int64x2_t [18446744073709551615, 0] [0, 0])) :=
  ⟨by decide, by decide, by decide, by decide, by decide,
    (neon_mask_saturation FloatLane.unused .int64x2_t [true, false]
      [18446744073709551615, 7] [0, 7] [18446744073709551615, 0] [0, 0]
      (by decide) (by decide)).2.2.1,
    (neon_mask_saturation FloatLane.unused .int64x2_t [true, false]
      [18446744073709551615, 7] [0, 7] [18446744073709551615, 0] [0, 0]
      (by decide) (by decide)).2.2.2.2.2.2.2.2.2.2.1,
    (neon_mask_saturation FloatLane.unused .int64x2_t [true, false]
      [18446744073709551615, 7] [0, 7] [18446744073709551615, 0] [0, 0]
      (by decide) (by decide)).2.2.2.2.2.2.2.2.2.2.2.2⟩


/-! ## Shifts -/

theorem neon_detail_bitwise_lshift_of_mem (t : RegisterType) (lhs : List Nat) (n : Int)
    (Is : List Int) (h : n ∈ Is) :
    neon.detail.bitwise_lshift t lhs n Is = some (neon.vshlq_n t.bits lhs n.toNat) := by
  induction Is with
  | nil => simp at h
  | cons I Is ih =>
    unfold neon.detail.bitwise_lshift
    by_cases hI : n = I
    · simp [hI]
    · have hmem : n ∈ Is := by
        rcases List.mem_cons.mp h with h1 | h1
        · exact absurd h1 hI
        · exact h1
      simp [hI, ih hmem]

theorem neon_detail_bitwise_rshift_of_mem (t : RegisterType) (lhs : List Nat) (n : Int)
    (Is : List Int) (h : n ∈ Is) :
    neon.detail.bitwise_rshift t lhs n Is = some (neon.vshrq_n t lhs n.toNat) := by
  induction Is with
  | nil => simp at h
  | cons I Is ih =>
    unfold neon.detail.bitwise_rshift
    by_cases hI : n = I
    · simp [hI]
    · have hmem : n ∈ Is := by
        rcases List.mem_cons.mp h with h1 | h1
        · exact absurd h1 hI
        · exact h1
      simp [hI, ih hmem]

theorem neon_make_int_sequence_succ (N : Nat) :
    neon.make_int_sequence (N + 1)
      = 0 :: (List.range N).map (fun (i : Nat) => ((i + 1 : Nat) : Int)) := by
  unfold neon.make_int_sequence
  rw [List.range_succ_eq_map, List.map_cons, List.map_map]
  rfl

theorem neon_mem_make_int_sequence_tail (N n : Nat) (h1 : 0 < n) (h2 : n < N + 1) :
    (n : Int) ∈ (List.range N).map (fun (i : Nat) => ((i + 1 : Nat) : Int)) := by
  rw [List.mem_map]
  exact ⟨n - 1, List.mem_range.mpr (by omega), by congr 1; omega⟩

theorem neon_bitwise_lshift_impl_cons (t : RegisterType) (lhs : List Nat) (n : Int)
    (Is : List Int) :
    neon.detail.bitwise_lshift_impl t lhs n (0 :: Is)
      = if n = 0 then some lhs else neon.detail.bitwise_lshift t lhs n Is := by
  rfl

theorem neon_bitwise_rshift_impl_cons (t : RegisterType) (lhs : List Nat) (n : Int)
    (Is : List Int) :
    neon.detail.bitwise_rshift_impl t lhs n (0 :: Is)
      = if n = 0 then some lhs else neon.detail.bitwise_rshift t lhs n Is := by
  rfl

/-- The constant-amount left shift with `0 ≤ n < bits` ends in the branch for
`n`: the input itself for `n = 0`, `vshlq_n(lhs, n)` otherwise. -/
theorem neon_bitwise_lshift_const (t : RegisterType) (ht : t.integral = true)
    (lhs : List Nat) (n : Nat) (hn : n < t.bits) :
    neon.bitwise_lshift t lhs (n : Int)
      = some (if n = 0 then lhs else neon.vshlq_n t.bits lhs n) := by
  have hguard : (0 : Int) ≤ (n : Int) ∧ (n : Int) < (t.bits : Int) :=
    ⟨Int.ofNat_nonneg n, by exact_mod_cast hn⟩
  have himpl : neon.detail.bitwise_lshift_impl t lhs (n : Int)
      (neon.make_int_sequence t.bits)
      = some (if n = 0 then lhs else neon.vshlq_n t.bits lhs n) := by
    obtain ⟨N, hN⟩ : ∃ N, t.bits = N + 1 := ⟨t.bits - 1, by omega⟩
    have hseq : neon.make_int_sequence t.bits
        = 0 :: (List.range N).map (fun (i : Nat) => ((i + 1 : Nat) : Int)) := by
      rw [hN, neon_make_int_sequence_succ]
    rw [hseq, neon_bitwise_lshift_impl_cons]
    by_cases h0 : n = 0
    · simp [h0]
    · have h0i : ¬ ((n : Int) = 0) := by exact_mod_cast h0
      rw [if_neg h0i, if_neg h0,
        neon_detail_bitwise_lshift_of_mem t lhs n _
          (neon_mem_make_int_sequence_tail N n (by omega) (by omega))]
      simp
  cases t <;> first
    | exact absurd ht (by decide)
    | (unfold neon.bitwise_lshift
       simp only [if_pos hguard]
       exact himpl)

/-- The constant-amount right shift with `0 ≤ n < bits` ends in the branch for
`n`: the input itself for `n = 0`, `vshrq_n(lhs, n)` otherwise. -/
theorem neon_bitwise_rshift_const (t : RegisterType) (ht : t.integral = true)
    (lhs : List Nat) (n : Nat) (hn : n < t.bits) :
    neon.bitwise_rshift t lhs (n : Int)
      = some (if n = 0 then lhs else neon.vshrq_n t lhs n) := by
  have hguard : (0 : Int) ≤ (n : Int) ∧ (n : Int) < (t.bits : Int) :=
    ⟨Int.ofNat_nonneg n, by exact_mod_cast hn⟩
  have himpl : neon.detail.bitwise_rshift_impl t lhs (n : Int)
      (neon.make_int_sequence t.bits)
      = some (if n = 0 then lhs else neon.vshrq_n t lhs n) := by
    obtain ⟨N, hN⟩ : ∃ N, t.bits = N + 1 := ⟨t.bits - 1, by omega⟩
    have hseq : neon.make_int_sequence t.bits
        = 0 :: (List.range N).map (fun (i : Nat) => ((i + 1 : Nat) : Int)) := by
      rw [hN, neon_make_int_sequence_succ]
    rw [hseq, neon_bitwise_rshift_impl_cons]
    by_cases h0 : n = 0
    · simp [h0]
    · have h0i : ¬ ((n : Int) = 0) := by exact_mod_cast h0
      rw [if_neg h0i, if_neg h0,
        neon_detail_bitwise_rshift_of_mem t lhs n _
          (neon_mem_make_int_sequence_tail N n (by omega) (by omega))]
      simp
  cases t <;> first
    | exact absurd ht (by decide)
    | (unfold neon.bitwise_rshift
       simp only [if_pos hguard]
       exact himpl)

/-- C17.  Constant-amount NEON `bitwise_lshift` on an integer register type `t`
of lane width `w`: for a batch `a` with lanes below `2^w` and `0 ≤ n < w`, the
call returns the batch whose lanes are `(a_k * 2^n) mod 2^w`, for signed and
unsigned types alike. -/
theorem neon_bitwise_lshift_mul_pow (t : RegisterType) (ht : t.integral = true)
    (a : List Nat) (hlt : ∀ x ∈ a, x < 2 ^ t.bits) (n : Nat) (hn : n < t.bits) :
    neon.bitwise_lshift t a (n : Int)
      = some (a.map (fun x => (x * 2 ^ n) % 2 ^ t.bits)) := by
  rw [neon_bitwise_lshift_const t ht a n hn]
  congr 1
  by_cases h0 : n = 0
  · rw [if_pos h0, h0]
    conv_lhs => rw [← List.map_id a]
    apply List.map_congr_left
    intro x hx
    simp [Nat.mod_eq_of_lt (hlt x hx)]
  · rw [if_neg h0]
    unfold neon.vshlq_n
    apply List.map_congr_left
    intro x _
    rw [Nat.shiftLeft_eq]

theorem neon_bitwise_lshift_mul_pow_witness :
    RegisterType.int8x16_t.integral = true ∧
    (∀ x ∈ ([129, 1, 255, 64, 0, 0, 0, 0, 0, 0, 0, 0, 0, 0, 0, 0] : List Nat),
      x < 2 ^ RegisterType.int8x16_t.bits) ∧
    3 < RegisterType.int8x16_t.bits ∧
    neon.bitwise_lshift .int8x16_t [129, 1, 255, 64, 0, 0, 0, 0, 0, 0, 0, 0, 0, 0, 0, 0] 3
      = some [8, 8, 248, 0, 0, 0, 0, 0, 0, 0, 0, 0, 0, 0, 0, 0] ∧
    neon.bitwise_lshift .int8x16_t [129, 1, 255, 64, 0, 0, 0, 0, 0, 0, 0, 0, 0, 0, 0, 0]
        ((3 : Nat) : Int)
      = some (([129, 1, 255, 64, 0, 0, 0, 0, 0, 0, 0, 0, 0, 0, 0, 0] : List Nat).map
          (fun x => (x * 2 ^ 3) % 2 ^ RegisterType.int8x16_t.bits)) :=
  ⟨rfl, by decide, by decide, by decide,
    neon_bitwise_lshift_mul_pow .int8x16_t rfl
      [129, 1, 255, 64, 0, 0, 0, 0, 0, 0, 0, 0, 0, 0, 0, 0] (by decide) 3 (by decide)⟩


theorem ofInt_toInt (w x : Nat) (hx : x < 2 ^ w) : ofInt w (toInt w x) = x := by
  have h : ((ofInt w (toInt w x) : Nat) : Int) = (x : Int) := by
    rw [ofInt_cast]
    have h1 := toInt_modEq w x
    unfold Int.ModEq at h1
    push_cast at h1
    rw [h1]
    exact Int.emod_eq_of_lt (Int.ofNat_nonneg x) (by exact_mod_cast hx)
  exact_mod_cast h

theorem int_ediv_pow_range (P z : Int) (n : Nat) (h0 : -P ≤ z) (h1 : z < P) :
    -P ≤ z / 2 ^ n ∧ z / 2 ^ n < P := by
  have hd : (0 : Int) < 2 ^ n := by positivity
  have hd1 : (1 : Int) ≤ 2 ^ n := by omega
  have hP : 0 ≤ P := by omega
  constructor
  · rw [Int.le_ediv_iff_mul_le hd]
    nlinarith
  · rw [Int.ediv_lt_iff_lt_mul hd]
    nlinarith

/-- One lane of the constant right shift, read in the lane type: the floor of
the lane value divided by `2^n`. -/
theorem neon_vshrq_n_lane_value (t : RegisterType) (x n : Nat) (hx : x < 2 ^ t.bits) :
    t.value (if t.signed then ofInt t.bits (toInt t.bits x >>> n) else x >>> n)
      = t.value x / 2 ^ n := by
  have hw := registerType_bits_pos t
  unfold RegisterType.value
  rcases Bool.eq_false_or_eq_true t.signed with hs | hs
  · simp only [hs, if_true]
    have hr := toInt_range t.bits hw x hx
    have hshift : toInt t.bits x >>> n = toInt t.bits x / 2 ^ n := by
      rw [Int.shiftRight_eq_div_pow]
      push_cast
      rfl
    rw [hshift]
    have hb := int_ediv_pow_range _ _ n hr.1 hr.2
    exact toInt_ofInt_of_range t.bits hw _ hb.1 hb.2
  · simp only [hs, Bool.false_eq_true, if_false]
    rw [Nat.shiftRight_eq_div_pow]
    push_cast
    rfl

theorem neon_vshrq_n_zero (t : RegisterType) (a : List Nat) (hlt : ∀ x ∈ a, x < 2 ^ t.bits) :
    neon.vshrq_n t a 0 = a := by
  unfold neon.vshrq_n
  conv_rhs => rw [← List.map_id a]
  apply List.map_congr_left
  intro x hx
  rcases Bool.eq_false_or_eq_true t.signed with hs | hs
  · simp only [hs, if_true]
    have h0 : toInt t.bits x >>> (0 : Nat) = toInt t.bits x := by
      rw [Int.shiftRight_eq_div_pow]
      simp
    rw [h0]
    exact ofInt_toInt t.bits x (hlt x hx)
  · simp [hs]

/-- The constant-amount right shift with `0 ≤ n < bits` on well-formed lanes is
`vshrq_n` lane by lane, the amount `0` included. -/
theorem neon_bitwise_rshift_const_lanes (t : RegisterType) (ht : t.integral = true)
    (a : List Nat) (hlt : ∀ x ∈ a, x < 2 ^ t.bits) (n : Nat) (hn : n < t.bits) :
    neon.bitwise_rshift t a (n : Int) = some (neon.vshrq_n t a n) := by
  rw [neon_bitwise_rshift_const t ht a n hn]
  by_cases h0 : n = 0
  · rw [if_pos h0, h0, neon_vshrq_n_zero t a hlt]
  · rw [if_neg h0]

theorem neon_vshrq_n_value (t : RegisterType) (a : List Nat)
    (hlt : ∀ x ∈ a, x < 2 ^ t.bits) (n : Nat) :
    (neon.vshrq_n t a n).map t.value = a.map (fun x => t.value x / 2 ^ n) := by
  unfold neon.vshrq_n
  rw [List.map_map]
  apply List.map_congr_left
  intro x hx
  exact neon_vshrq_n_lane_value t x n (hlt x hx)

theorem neon_vshrq_n_unsigned (t : RegisterType) (hs : t.signed = false) (a : List Nat)
    (n : Nat) : neon.vshrq_n t a n = a.map (fun x => x / 2 ^ n) := by
  unfold neon.vshrq_n
  apply List.map_congr_left
  intro x _
  simp [hs, Nat.shiftRight_eq_div_pow]

/-- C18.  Constant-amount NEON `bitwise_rshift` on an integer register type `t`
of lane width `w`: for a batch `a` with lanes below `2^w` and `0 ≤ n < w`, the
call returns a batch of the same lane count whose lanes, read in the lane type
(unsigned value for unsigned `T`, two's complement value for signed `T`), are
`floor(a_k / 2^n)`; for unsigned `T` the lane patterns themselves are
`a_k / 2^n` (logical shift). -/
theorem neon_bitwise_rshift_floor (t : RegisterType) (ht : t.integral = true)
    (a : List Nat) (hlt : ∀ x ∈ a, x < 2 ^ t.bits) (n : Nat) (hn : n < t.bits) :
    ∃ r, neon.bitwise_rshift t a (n : Int) = some r ∧ r.length = a.length ∧
      r.map t.value = a.map (fun x => t.value x / 2 ^ n) ∧
      (t.signed = false → r = a.map (fun x => x / 2 ^ n)) := by
  refine ⟨neon.vshrq_n t a n, neon_bitwise_rshift_const_lanes t ht a hlt n hn, ?_,
    neon_vshrq_n_value t a hlt n, fun hs => neon_vshrq_n_unsigned t hs a n⟩
  simp [neon.vshrq_n]

theorem neon_bitwise_rshift_floor_witness :
    RegisterType.int8x16_t.integral = true ∧
    (∀ x ∈ ([129, 1, 255, 64, 0, 0, 0, 0, 0, 0, 0, 0, 0, 0, 0, 0] : List Nat),
      x < 2 ^ RegisterType.int8x16_t.bits) ∧
    2 < RegisterType.int8x16_t.bits ∧
    neon.bitwise_rshift .int8x16_t [129, 1, 255, 64, 0, 0, 0, 0, 0, 0, 0, 0, 0, 0, 0, 0] 2
      = some [224, 0, 255, 16, 0, 0, 0, 0, 0, 0, 0, 0, 0, 0, 0, 0] ∧
    neon.bitwise_rshift .uint8x16_t [129, 1, 255, 64, 0, 0, 0, 0, 0, 0, 0, 0, 0, 0, 0, 0] 2
      = some [32, 0, 63, 16, 0, 0, 0, 0, 0, 0, 0, 0, 0, 0, 0, 0] ∧
    ∃ r, neon.bitwise_rshift .int8x16_t
          [129, 1, 255, 64, 0, 0, 0, 0, 0, 0, 0, 0, 0, 0, 0, 0] ((2 : Nat) : Int) = some r ∧
      r.length = ([129, 1, 255, 64, 0, 0, 0, 0, 0, 0, 0, 0, 0, 0, 0, 0] : List Nat).length ∧
      r.map RegisterType.int8x16_t.value
        = ([129, 1, 255, 64, 0, 0, 0, 0, 0, 0, 0, 0, 0, 0, 0, 0] : List Nat).map
            (fun x => RegisterType.int8x16_t.value x / 2 ^ 2) ∧
      (RegisterType.int8x16_t.signed = false →
        r = ([129, 1, 255, 64, 0, 0, 0, 0, 0, 0, 0, 0, 0, 0, 0, 0] : List Nat).map
            (fun x => x / 2 ^ 2)) :=
  ⟨rfl, by decide, by decide, by decide, by decide,
    neon_bitwise_rshift_floor .int8x16_t rfl
      [129, 1, 255, 64, 0, 0, 0, 0, 0, 0, 0, 0, 0, 0, 0, 0] (by decide) 2 (by decide)⟩


theorem list_zipWith_replicate_right {β γ δ : Type} (f : β → γ → δ) (a : List β) (c : γ) :
    List.zipWith f a (List.replicate a.length c) = a.map (fun x => f x c) := by
  induction a with
  | nil => rfl
  | cons x xs ih =>
    simp only [List.length_cons, List.replicate_succ, List.zipWith_cons_cons, List.map_cons,
      ih]

/-- The shift amount `vshlq` reads from a lane holding `-n` (as a `w`-bit
pattern, `w` = 8, 16 or 32, `n < w`) is `-n`. -/
theorem neon_shift_amount_neg (w n : Nat) (hw : w = 8 ∨ w = 16 ∨ w = 32) (hn : n < w) :
    toInt 8 ((2 ^ w - n) % 2 ^ w % 256) = -(n : Int) := by
  unfold toInt
  rcases hw with rfl | rfl | rfl <;>
  · norm_num
    split_ifs <;> omega

/-- One lane of `vshlq` shifted by a lane holding `-n`: the right shift by `n`
of the constant-amount intrinsic. -/
theorem neon_vshl_lane_neg (t : RegisterType) (ht : t.integral = true)
    (h64 : t.bits ≠ 64) (x n : Nat) (hx : x < 2 ^ t.bits) (hn : n < t.bits) :
    neon.vshl_lane t x ((2 ^ t.bits - n) % 2 ^ t.bits)
      = if t.signed then ofInt t.bits (toInt t.bits x >>> n) else x >>> n := by
  have hw : t.bits = 8 ∨ t.bits = 16 ∨ t.bits = 32 := by
    cases t <;> first
      | exact absurd ht (by decide)
      | exact absurd rfl h64
      | exact Or.inl rfl
      | exact Or.inr (Or.inl rfl)
      | exact Or.inr (Or.inr rfl)
  unfold neon.vshl_lane
  rw [neon_shift_amount_neg t.bits n hw hn]
  by_cases h0 : n = 0
  · subst h0
    have hz : toInt t.bits x >>> (0 : Nat) = toInt t.bits x := by
      rw [Int.shiftRight_eq_div_pow]
      simp
    rcases Bool.eq_false_or_eq_true t.signed with hs | hs
    · simp [hs, hz, ofInt_toInt t.bits x hx, Nat.mod_eq_of_lt hx]
    · simp [hs, Nat.mod_eq_of_lt hx]
  · have hneg : ¬ (0 : Int) ≤ -(n : Int) := by omega
    have htn : (-(-(n : Int))).toNat = n := by simp
    rw [if_neg hneg, htn]

theorem neon_bitwise_rshift_batch_eq (t : RegisterType) (ht : t.integral = true)
    (h64 : t.bits ≠ 64) (a s : List Nat) :
    neon.bitwise_rshift_batch t a s = some (neon.vshlq t a (neon.vnegq t.bits s)) := by
  cases t <;> first
    | rfl
    | exact absurd ht (by decide)
    | exact absurd rfl h64

/-- C19.  Variable-amount NEON `bitwise_rshift` on an 8-, 16- or 32-bit integer
register type `t` of lane width `w`: for every batch `a` and every batch `s` of
the signed-equivalent type `neg(s)` is defined, the shift is defined and it
equals `bitwise_lshift(a, neg(s))`; and when `a` has `t.size` lanes below `2^w` and
every lane of `s` equals the same `n` with `0 ≤ n < w`, it equals the
constant-amount `bitwise_rshift(a, n)`, whose lanes read in the lane type are
`floor(a_k / 2^n)` (arithmetic for signed `T`, logical for unsigned `T`). -/
theorem neon_bitwise_rshift_batch_spec (fp : FloatLane) (t : RegisterType)
    (ht : t.integral = true) (h64 : t.bits ≠ 64) (a s : List Nat)
    (hlen : a.length = t.size) (hlt : ∀ x ∈ a, x < 2 ^ t.bits) (n : Nat)
    (hn : n < t.bits) :
    (∃ r m, neon.neg fp (neon.as_signed_integer t) s = some m ∧
      neon.bitwise_rshift_batch t a s = some r ∧
      neon.bitwise_lshift_batch t a m = some r) ∧
    neon.bitwise_rshift_batch t a (neon.broadcast (neon.as_signed_integer t) n)
      = neon.bitwise_rshift t a (n : Int) ∧
    (∃ r, neon.bitwise_rshift_batch t a (neon.broadcast (neon.as_signed_integer t) n)
        = some r ∧
      r.map t.value = a.map (fun x => t.value x / 2 ^ n)) := by
  have hw := registerType_bits_pos t
  have hnw : n < 2 ^ t.bits := lt_trans hn (Nat.lt_two_pow t.bits)
  have hsz : (neon.as_signed_integer t).size = t.size := by cases t <;> rfl
  have hvar : neon.bitwise_rshift_batch t a (neon.broadcast (neon.as_signed_integer t) n)
      = some (neon.vshrq_n t a n) := by
    rw [neon_bitwise_rshift_batch_eq t ht h64, neon.broadcast,
      neon_vnegq_lanes t.bits _ (by
        intro x hx
        rw [List.eq_of_mem_replicate hx]
        exact hnw),
      List.map_replicate, hsz, ← hlen, neon.vshlq, list_zipWith_replicate_right]
    congr 1
    unfold neon.vshrq_n
    apply List.map_congr_left
    intro x hx
    exact neon_vshl_lane_neg t ht h64 x n (hlt x hx) hn
  refine ⟨?_, ?_, ?_⟩
  · cases t <;> first
      | exact ⟨_, _, rfl, rfl, rfl⟩
      | exact absurd ht (by decide)
      | exact absurd rfl h64
  · rw [hvar, neon_bitwise_rshift_const_lanes t ht a hlt n hn]
  · exact ⟨_, hvar, neon_vshrq_n_value t a hlt n⟩

theorem neon_bitwise_rshift_batch_spec_witness :
    RegisterType.int16x8_t.integral = true ∧ RegisterType.int16x8_t.bits ≠ 64 ∧
    ([33000, 1, 65535, 64, 0, 8, 16, 32768] : List Nat).length
      = RegisterType.int16x8_t.size ∧
    (∀ x ∈ ([33000, 1, 65535, 64, 0, 8, 16, 32768] : List Nat),
      x < 2 ^ RegisterType.int16x8_t.bits) ∧
    3 < RegisterType.int16x8_t.bits ∧
    neon.bitwise_rshift_batch .int16x8_t [33000, 1, 65535, 64, 0, 8, 16, 32768]
        [3, 3, 3, 3, 3, 3, 3, 3]
      = some [61469, 0, 65535, 8, 0, 1, 2, 61440] ∧
    neon.bitwise_rshift_batch .int16x8_t [33000, 1, 65535, 64, 0, 8, 16, 32768]
        (neon.broadcast (neon.as_signed_integer .int16x8_t) 3)
      = neon.bitwise_rshift .int16x8_t [33000, 1, 65535, 64, 0, 8, 16, 32768]
          ((3 : Nat) : Int) :=
  ⟨rfl, by decide, rfl, by decide, by decide, by decide,
    (neon_bitwise_rshift_batch_spec FloatLane.unused .int16x8_t rfl (by decide)
      [33000, 1, 65535, 64, 0, 8, 16, 32768] [3, 3, 3, 3, 3, 3, 3, 3] rfl (by decide) 3
      (by decide)).2.1⟩


/-! ## zip_lo, zip_hi -/

theorem neon_interleave_length (a b : List α) (h : a.length = b.length) :
    (neon.interleave a b).length = 2 * a.length := by
  induction a generalizing b with
  | nil => simp [neon.interleave]
  | cons x xs ih =>
    match b, h with
    | y :: ys, h =>
      simp only [List.length_cons, Nat.add_right_cancel_iff] at h
      simp only [neon.interleave, List.length_cons, ih ys h]
      omega

theorem neon_interleave_lanes (a b : List α) (h : a.length = b.length) (k : Nat) :
    (neon.interleave a b)[2 * k]? = a[k]? ∧ (neon.interleave a b)[2 * k + 1]? = b[k]? := by
  induction a generalizing b k with
  | nil =>
    have hb : b = [] := List.length_eq_zero.mp h.symm
    subst hb
    simp [neon.interleave]
  | cons x xs ih =>
    match b, h with
    | y :: ys, h =>
      simp only [List.length_cons, Nat.add_right_cancel_iff] at h
      cases k with
      | zero => simp [neon.interleave]
      | succ j =>
        have e1 : 2 * (j + 1) = (2 * j + 1) + 1 := by omega
        rw [e1]
        simp only [neon.interleave, List.getElem?_cons_succ]
        exact ih ys h j

theorem neon_vzip_combine (a b : List α) :
    neon.vcombine (neon.vzip a b).1 (neon.vzip a b).2 = neon.interleave a b := by
  simp [neon.vcombine, neon.vzip]

theorem neon_zip_lo_interleave (t : RegisterType) (a b : List α)
    (ha : a.length = t.size) (hb : b.length = t.size) :
    neon.zip_lo t a b = neon.interleave (neon.vget_low a) (neon.vget_low b) := by
  cases t
  case uint64x2_t =>
    match a, ha, b, hb with
    | [a0, a1], _, [b0, b1], _ =>
      simp [neon.zip_lo, neon.vcombine, neon.vget_low, neon.interleave]
  case int64x2_t =>
    match a, ha, b, hb with
    | [a0, a1], _, [b0, b1], _ =>
      simp [neon.zip_lo, neon.vcombine, neon.vget_low, neon.interleave]
  all_goals exact neon_vzip_combine _ _

theorem neon_zip_hi_interleave (t : RegisterType) (a b : List α)
    (ha : a.length = t.size) (hb : b.length = t.size) :
    neon.zip_hi t a b = neon.interleave (neon.vget_high a) (neon.vget_high b) := by
  cases t
  case uint64x2_t =>
    match a, ha, b, hb with
    | [a0, a1], _, [b0, b1], _ =>
      simp [neon.zip_hi, neon.vcombine, neon.vget_high, neon.interleave]
  case int64x2_t =>
    match a, ha, b, hb with
    | [a0, a1], _, [b0, b1], _ =>
      simp [neon.zip_hi, neon.vcombine, neon.vget_high, neon.interleave]
  all_goals exact neon_vzip_combine _ _

theorem registerType_size_even (t : RegisterType) : 2 * (t.size / 2) = t.size := by
  cases t <;> rfl

/-- C20.  NEON `zip_lo` and `zip_hi` for each of the nine register types `t`
and batches `a`, `b` of `N = t.size` lanes: both results have `N` lanes; for
every `k < N/2`, `zip_lo(a, b)` has lane `2k = a[k]` and lane `2k+1 = b[k]`, and
`zip_hi(a, b)` has lane `2k = a[N/2 + k]` and lane `2k+1 = b[N/2 + k]`; on
64-bit lanes `zip_lo = {a0, b0}` and `zip_hi = {a1, b1}`. -/
theorem neon_zip_lanes (t : RegisterType) (a b : List α)
    (ha : a.length = t.size) (hb : b.length = t.size) :
    (neon.zip_lo t a b).length = t.size ∧ (neon.zip_hi t a b).length = t.size ∧
    (∀ k, k < t.size / 2 →
      ((neon.zip_lo t a b)[2 * k]? = a[k]? ∧ a[k]?.isSome = true) ∧
      ((neon.zip_lo t a b)[2 * k + 1]? = b[k]? ∧ b[k]?.isSome = true) ∧
      ((neon.zip_hi t a b)[2 * k]? = a[t.size / 2 + k]? ∧
        a[t.size / 2 + k]?.isSome = true) ∧
      ((neon.zip_hi t a b)[2 * k + 1]? = b[t.size / 2 + k]? ∧
        b[t.size / 2 + k]?.isSome = true)) ∧
    (∀ a0 a1 b0 b1 : α,
      neon.zip_lo .uint64x2_t [a0, a1] [b0, b1] = [a0, b0] ∧
      neon.zip_hi .uint64x2_t [a0, a1] [b0, b1] = [a1, b1] ∧
      neon.zip_lo .int64x2_t [a0, a1] [b0, b1] = [a0, b0] ∧
      neon.zip_hi .int64x2_t [a0, a1] [b0, b1] = [a1, b1]) := by
  have he := registerType_size_even t
  have hlo := neon_zip_lo_interleave t a b ha hb
  have hhi := neon_zip_hi_interleave t a b ha hb
  have hll : (neon.vget_low a).length = (neon.vget_low b).length := by
    simp [neon.vget_low, ha, hb]
  have hhl : (neon.vget_high a).length = (neon.vget_high b).length := by
    simp [neon.vget_high, ha, hb]
  refine ⟨?_, ?_, ?_, ?_⟩
  · rw [hlo, neon_interleave_length _ _ hll]
    simp only [neon.vget_low, List.length_take, ha]
    omega
  · rw [hhi, neon_interleave_length _ _ hhl]
    simp only [neon.vget_high, List.length_drop, ha]
    omega
  · intro k hk
    have h1 := neon_interleave_lanes _ _ hll k
    have h2 := neon_interleave_lanes _ _ hhl k
    have ka : k < a.length := by omega
    have kb : k < b.length := by omega
    have ka2 : t.size / 2 + k < a.length := by omega
    have kb2 : t.size / 2 + k < b.length := by omega
    rw [hlo, hhi, h1.1, h1.2, h2.1, h2.2]
    simp only [neon.vget_low, neon.vget_high, ha, hb, List.getElem?_take_of_lt hk,
      List.getElem?_drop, List.getElem?_eq_getElem ka, List.getElem?_eq_getElem kb,
      List.getElem?_eq_getElem ka2, List.getElem?_eq_getElem kb2, Option.isSome_some,
      and_self]
  · intro a0 a1 b0 b1
    simp [neon.zip_lo, neon.zip_hi, neon.vcombine, neon.vget_low, neon.vget_high]

theorem neon_zip_lanes_witness :
    ([0, 1, 2, 3] : List Nat).length = RegisterType.float32x4_t.size ∧
    ([10, 11, 12, 13] : List Nat).length = RegisterType.float32x4_t.size ∧
    neon.zip_lo .float32x4_t [0, 1, 2, 3] [10, 11, 12, 13] = [0, 10, 1, 11] ∧
    neon.zip_hi .float32x4_t [0, 1, 2, 3] [10, 11, 12, 13] = [2, 12, 3, 13] ∧
    (neon.zip_lo .float32x4_t [0, 1, 2, 3] [10, 11, 12, 13]).length
      = RegisterType.float32x4_t.size :=
  ⟨rfl, rfl, by decide, by decide,
    (neon_zip_lanes .float32x4_t [0, 1, 2, 3] [10, 11, 12, 13] rfl rfl).1⟩


/-! ## Zip inverse -/

theorem list_range_map_getElem_opt (l : List α) (n : Nat) (h : l.length = n) :
    (List.range n).map (fun k => l[k]?) = l.map some := by
  subst h
  apply List.ext_getElem?
  intro i
  by_cases hi : i < l.length
  · simp [hi]
  · have hle := Nat.le_of_not_lt hi
    rw [List.getElem?_eq_none (by simpa using hle), List.getElem?_eq_none (by simpa using hle)]

/-- The even-indexed lanes of an interleaving are the lanes of its first
operand and the odd-indexed lanes those of the second. -/
theorem neon_interleave_even_odd (a b : List α) (h : a.length = b.length) :
    (List.range a.length).map (fun k => (neon.interleave a b)[2 * k]?) = a.map some ∧
    (List.range a.length).map (fun k => (neon.interleave a b)[2 * k + 1]?) = b.map some := by
  constructor
  · rw [← list_range_map_getElem_opt a a.length rfl]
    apply List.map_congr_left
    intro k _
    exact (neon_interleave_lanes a b h k).1
  · rw [h, ← list_range_map_getElem_opt b b.length rfl, ← h]
    apply List.map_congr_left
    intro k _
    exact (neon_interleave_lanes a b h k).2

/-- C21.  Zip inverse on the NEON kernel, for each of the nine register types
`t` and all batches `a`, `b` of `N = t.size` lanes: the even-indexed lanes
`0, 2, .., N - 2` of `zip_lo(a, b)` followed by the even-indexed lanes of
`zip_hi(a, b)` are the lanes of `a`, and the odd-indexed lanes `1, 3, .., N - 1`
of `zip_lo(a, b)` followed by those of `zip_hi(a, b)` are the lanes of `b`. -/
theorem neon_zip_inverse (t : RegisterType) (a b : List α)
    (ha : a.length = t.size) (hb : b.length = t.size) :
    (List.range (t.size / 2)).map (fun k => (neon.zip_lo t a b)[2 * k]?) ++
      (List.range (t.size / 2)).map (fun k => (neon.zip_hi t a b)[2 * k]?)
      = a.map some ∧
    (List.range (t.size / 2)).map (fun k => (neon.zip_lo t a b)[2 * k + 1]?) ++
      (List.range (t.size / 2)).map (fun k => (neon.zip_hi t a b)[2 * k + 1]?)
      = b.map some := by
  have he := registerType_size_even t
  have hlo := neon_zip_lo_interleave t a b ha hb
  have hhi := neon_zip_hi_interleave t a b ha hb
  have hla : (neon.vget_low a).length = t.size / 2 := by
    simp only [neon.vget_low, List.length_take, ha]
    omega
  have hlb : (neon.vget_low b).length = t.size / 2 := by
    simp only [neon.vget_low, List.length_take, hb]
    omega
  have hha : (neon.vget_high a).length = t.size / 2 := by
    simp only [neon.vget_high, List.length_drop, ha]
    omega
  have hhb : (neon.vget_high b).length = t.size / 2 := by
    simp only [neon.vget_high, List.length_drop, hb]
    omega
  have h1 := neon_interleave_even_odd (neon.vget_low a) (neon.vget_low b) (hla.trans hlb.symm)
  have h2 := neon_interleave_even_odd (neon.vget_high a) (neon.vget_high b)
    (hha.trans hhb.symm)
  rw [hla] at h1
  rw [hha] at h2
  rw [hlo, hhi, h1.1, h1.2, h2.1, h2.2, ← List.map_append, ← List.map_append]
  simp only [neon.vget_low, neon.vget_high, List.take_append_drop, and_self]

theorem neon_zip_inverse_witness :
    ([0, 1, 2, 3, 4, 5, 6, 7] : List Nat).length = RegisterType.int16x8_t.size ∧
    ([10, 11, 12, 13, 14, 15, 16, 17] : List Nat).length = RegisterType.int16x8_t.size ∧
    neon.zip_lo .int16x8_t [0, 1, 2, 3, 4, 5, 6, 7] [10, 11, 12, 13, 14, 15, 16, 17]
      = [0, 10, 1, 11, 2, 12, 3, 13] ∧
    neon.zip_hi .int16x8_t [0, 1, 2, 3, 4, 5, 6, 7] [10, 11, 12, 13, 14, 15, 16, 17]
      = [4, 14, 5, 15, 6, 16, 7, 17] ∧
    (List.range (RegisterType.int16x8_t.size / 2)).map
        (fun k => (neon.zip_lo .int16x8_t [0, 1, 2, 3, 4, 5, 6, 7]
          [10, 11, 12, 13, 14, 15, 16, 17])[2 * k]?) ++
      (List.range (RegisterType.int16x8_t.size / 2)).map
        (fun k => (neon.zip_hi .int16x8_t [0, 1, 2, 3, 4, 5, 6, 7]
          [10, 11, 12, 13, 14, 15, 16, 17])[2 * k]?)
      = ([0, 1, 2, 3, 4, 5, 6, 7] : List Nat).map some :=
  ⟨rfl, rfl, by decide, by decide,
    (neon_zip_inverse .int16x8_t [0, 1, 2, 3, 4, 5, 6, 7] [10, 11, 12, 13, 14, 15, 16, 17]
      rfl rfl).1⟩


/-! ## Load and store -/

theorem neon_vld1q_length (n : Nat) (memory : Nat → α) (src : Nat) :
    (neon.vld1q n memory src).length = n := by
  simp [neon.vld1q]

theorem neon_vld1q_lane (n : Nat) (memory : Nat → α) (src k : Nat) (hk : k < n) :
    (neon.vld1q n memory src)[k]? = some (memory (src + k)) := by
  simp [neon.vld1q, hk]

theorem neon_vst1q_inside (n : Nat) (memory : Nat → α) (dst : Nat) (src : List α)
    (k : Nat) (hk : k < n) :
    neon.vst1q n memory dst src (dst + k) = (src[k]?).getD (memory (dst + k)) := by
  have h : dst ≤ dst + k ∧ dst + k < dst + n := ⟨by omega, by omega⟩
  simp only [neon.vst1q, h, and_self, if_true, Nat.add_sub_cancel_left]

theorem neon_vst1q_outside (n : Nat) (memory : Nat → α) (dst : Nat) (src : List α)
    (j : Nat) (hj : j < dst ∨ dst + n ≤ j) :
    neon.vst1q n memory dst src j = memory j := by
  have h : ¬ (dst ≤ j ∧ j < dst + n) := by omega
  simp only [neon.vst1q, h, if_false]

theorem neon_vld1q_vst1q (n : Nat) (memory : Nat → α) (dst : Nat) (b : List α)
    (hb : b.length = n) :
    neon.vld1q n (neon.vst1q n memory dst b) dst = b := by
  apply List.ext_getElem?
  intro k
  by_cases hk : k < n
  · rw [neon_vld1q_lane n _ dst k hk, neon_vst1q_inside n memory dst b k hk,
      List.getElem?_eq_getElem (by omega)]
    rfl
  · rw [List.getElem?_eq_none (by rw [neon_vld1q_length]; omega),
      List.getElem?_eq_none (by omega)]

/-- C22.  Load/store round trip on the NEON kernel, for each of the nine
register types `t` (`N = t.size`), every memory, all pointers `p`, `q` and every
batch `b` of `N` lanes: `load_aligned(p)` has `N` lanes, lane `k` being `p[k]`;
`store_aligned(q, load_aligned(p))` leaves `q[k] = p[k]` for every `k < N` and
writes nothing outside `q[0 .. N-1]`; `store_aligned(q, b)` leaves `q[k] = b[k]`
and `load_aligned(q)` after it returns `b`; `load_unaligned` and
`store_unaligned` return and write what the aligned kernels do. -/
theorem neon_load_store_round_trip (t : RegisterType) (memory : Nat → α) (p q : Nat)
    (b : List α) (hb : b.length = t.size) :
    (neon.load_aligned t memory p).length = t.size ∧
    (∀ k, k < t.size → (neon.load_aligned t memory p)[k]? = some (memory (p + k))) ∧
    (∀ k, k < t.size →
      neon.store_aligned t memory q (neon.load_aligned t memory p) (q + k)
        = memory (p + k)) ∧
    (∀ j, j < q ∨ q + t.size ≤ j →
      neon.store_aligned t memory q (neon.load_aligned t memory p) j = memory j) ∧
    (∀ k, k < t.size → some (neon.store_aligned t memory q b (q + k)) = b[k]?) ∧
    (∀ j, j < q ∨ q + t.size ≤ j → neon.store_aligned t memory q b j = memory j) ∧
    neon.load_aligned t (neon.store_aligned t memory q b) q = b ∧
    neon.load_unaligned t memory p = neon.load_aligned t memory p ∧
    neon.store_unaligned t memory q b = neon.store_aligned t memory q b := by
  refine ⟨neon_vld1q_length _ _ _, fun k hk => neon_vld1q_lane _ _ _ k hk, ?_,
    fun j hj => neon_vst1q_outside _ _ _ _ j hj, ?_,
    fun j hj => neon_vst1q_outside _ _ _ _ j hj, neon_vld1q_vst1q _ _ _ _ hb, rfl, rfl⟩
  · intro k hk
    unfold neon.store_aligned neon.load_aligned
    rw [neon_vst1q_inside _ _ _ _ k hk, neon_vld1q_lane _ _ _ k hk]
    rfl
  · intro k hk
    unfold neon.store_aligned
    rw [neon_vst1q_inside _ _ _ _ k hk, List.getElem?_eq_getElem (by omega)]
    rfl

theorem neon_load_store_round_trip_witness :
    ([7, 8, 9, 10] : List Nat).length = RegisterType.uint32x4_t.size ∧
    neon.load_aligned .uint32x4_t (fun k => 100 + k) 2 = [102, 103, 104, 105] ∧
    (List.range 8).map (neon.store_aligned .uint32x4_t (fun k => 100 + k) 2 [7, 8, 9, 10])
      = [100, 101, 7, 8, 9, 10, 106, 107] ∧
    neon.load_aligned .uint32x4_t
      (neon.store_aligned .uint32x4_t (fun k => 100 + k) 2 [7, 8, 9, 10]) 2
      = [7, 8, 9, 10] :=
  ⟨rfl, by decide, by decide,
    (neon_load_store_round_trip .uint32x4_t (fun k => 100 + k) 0 2 [7, 8, 9, 10]
      rfl).2.2.2.2.2.2.1⟩


/-! ## Complex load and store on NEON -/

theorem neon_vld2q_lanes (n : Nat) (memory : Nat → α) (buf k : Nat) (hk : k < n) :
    (neon.vld2q n memory buf).1[k]? = some (memory (buf + 2 * k)) ∧
    (neon.vld2q n memory buf).2[k]? = some (memory (buf + 2 * k + 1)) := by
  simp [neon.vld2q, hk]

theorem neon_vst2q_lanes (n : Nat) (memory : Nat → α) (buf : Nat) (tmp : List α × List α)
    (k : Nat) (hk : k < n) :
    neon.vst2q n memory buf tmp (buf + 2 * k) = (tmp.1[k]?).getD (memory (buf + 2 * k)) ∧
    neon.vst2q n memory buf tmp (buf + 2 * k + 1)
      = (tmp.2[k]?).getD (memory (buf + 2 * k + 1)) := by
  have h0 : buf ≤ buf + 2 * k ∧ buf + 2 * k < buf + 2 * n := ⟨by omega, by omega⟩
  have h1 : buf ≤ buf + 2 * k + 1 ∧ buf + 2 * k + 1 < buf + 2 * n := ⟨by omega, by omega⟩
  have e0 : buf + 2 * k - buf = 2 * k := by omega
  have e1 : buf + 2 * k + 1 - buf = 2 * k + 1 := by omega
  have m0 : 2 * k % 2 = 0 := by omega
  have m1 : ¬ ((2 * k + 1) % 2 = 0) := by omega
  have d0 : 2 * k / 2 = k := by omega
  have d1 : (2 * k + 1) / 2 = k := by omega
  constructor
  · simp only [neon.vst2q, h0, and_self, if_true, e0, m0, d0]
  · simp only [neon.vst2q, h1, and_self, if_true, e1, m1, if_false, d1]

theorem neon_vst2q_outside (n : Nat) (memory : Nat → α) (buf : Nat)
    (tmp : List α × List α) (j : Nat) (hj : j < buf ∨ buf + 2 * n ≤ j) :
    neon.vst2q n memory buf tmp j = memory j := by
  have h : ¬ (buf ≤ j ∧ j < buf + 2 * n) := by omega
  simp only [neon.vst2q, h, if_false]

theorem neon_vld2q_vst2q (n : Nat) (memory : Nat → α) (buf : Nat) (z : List α × List α)
    (hr : z.1.length = n) (hi : z.2.length = n) :
    neon.vld2q n (neon.vst2q n memory buf z) buf = z := by
  apply Prod.ext
  · apply List.ext_getElem?
    intro k
    by_cases hk : k < n
    · rw [(neon_vld2q_lanes n _ buf k hk).1, (neon_vst2q_lanes n memory buf z k hk).1,
        List.getElem?_eq_getElem (by omega)]
      rfl
    · rw [List.getElem?_eq_none (by simp [neon.vld2q]; omega),
        List.getElem?_eq_none (by omega)]
  · apply List.ext_getElem?
    intro k
    by_cases hk : k < n
    · rw [(neon_vld2q_lanes n _ buf k hk).2, (neon_vst2q_lanes n memory buf z k hk).2,
        List.getElem?_eq_getElem (by omega)]
      rfl
    · rw [List.getElem?_eq_none (by simp [neon.vld2q]; omega),
        List.getElem?_eq_none (by omega)]

theorem neon_vst2q_vld2q (n : Nat) (memory : Nat → α) (buf j : Nat) :
    neon.vst2q n memory buf (neon.vld2q n memory buf) j = memory j := by
  by_cases h : buf ≤ j ∧ j < buf + 2 * n
  · obtain ⟨k, hk⟩ : ∃ k, j = buf + k := ⟨j - buf, by omega⟩
    subst hk
    rcases Nat.even_or_odd' k with ⟨i, rfl | rfl⟩
    · have hi : i < n := by omega
      rw [(neon_vst2q_lanes n memory buf _ i hi).1, (neon_vld2q_lanes n memory buf i hi).1]
      rfl
    · have hi : i < n := by omega
      have e : buf + (2 * i + 1) = buf + 2 * i + 1 := by omega
      rw [e, (neon_vst2q_lanes n memory buf _ i hi).2,
        (neon_vld2q_lanes n memory buf i hi).2]
      rfl
  · exact neon_vst2q_outside n memory buf _ j (by omega)

/-- C24.  Interleaved complex layout on the NEON kernel (`N = 4` floats per
batch), for every memory, pointer `m` and complex batch `z = (real, imag)` with
`N` lanes each: `load_complex_aligned(m)` returns `(real, imag)` of `N` lanes
with `real[k] = m[2k]` and `imag[k] = m[2k+1]` for every `k < N`;
`store_complex_aligned(dst, z)` leaves `dst[2k] = z.real[k]` and
`dst[2k+1] = z.imag[k]` and writes nothing outside `dst[0 .. 2N-1]`; the load
after the store returns `z`, the store of a loaded batch to where it was loaded
from leaves the memory as it was; the unaligned kernels are the aligned ones. -/
theorem neon_complex_interleaved (memory : Nat → α) (m dst : Nat) (z : List α × List α)
    (hr : z.1.length = 4) (hi : z.2.length = 4) :
    (neon.load_complex_aligned memory m).1.length = 4 ∧
    (neon.load_complex_aligned memory m).2.length = 4 ∧
    (∀ k, k < 4 →
      (neon.load_complex_aligned memory m).1[k]? = some (memory (m + 2 * k)) ∧
      (neon.load_complex_aligned memory m).2[k]? = some (memory (m + 2 * k + 1))) ∧
    (∀ k, k < 4 →
      some (neon.store_complex_aligned memory dst z (dst + 2 * k)) = z.1[k]? ∧
      some (neon.store_complex_aligned memory dst z (dst + 2 * k + 1)) = z.2[k]?) ∧
    (∀ j, j < dst ∨ dst + 8 ≤ j → neon.store_complex_aligned memory dst z j = memory j) ∧
    neon.load_complex_aligned (neon.store_complex_aligned memory dst z) dst = z ∧
    (∀ j, neon.store_complex_aligned memory m (neon.load_complex_aligned memory m) j
      = memory j) ∧
    neon.load_complex_unaligned memory m = neon.load_complex_aligned memory m ∧
    neon.store_complex_unaligned memory dst z = neon.store_complex_aligned memory dst z := by
  refine ⟨by simp [neon.load_complex_aligned, neon.vld2q, RegisterType.size],
    by simp [neon.load_complex_aligned, neon.vld2q, RegisterType.size],
    fun k hk => neon_vld2q_lanes 4 memory m k hk, ?_,
    fun j hj => neon_vst2q_outside 4 memory dst _ j hj,
    neon_vld2q_vst2q 4 memory dst z hr hi,
    fun j => neon_vst2q_vld2q 4 memory m j, rfl, rfl⟩
  intro k hk
  have h := neon_vst2q_lanes 4 memory dst z k hk
  constructor
  · show some (neon.vst2q 4 memory dst z (dst + 2 * k)) = z.1[k]?
    rw [h.1, List.getElem?_eq_getElem (by omega)]
    rfl
  · show some (neon.vst2q 4 memory dst z (dst + 2 * k + 1)) = z.2[k]?
    rw [h.2, List.getElem?_eq_getElem (by omega)]
    rfl

theorem neon_complex_interleaved_witness :
    ([1, 2, 3, 4] : List Nat).length = 4 ∧ ([5, 6, 7, 8] : List Nat).length = 4 ∧
    neon.load_complex_aligned (fun k => 10 * k) 0 = ([0, 20, 40, 60], [10, 30, 50, 70]) ∧
    (List.range 10).map
        (neon.store_complex_aligned (fun _ => 0) 1 (([1, 2, 3, 4] : List Nat), [5, 6, 7, 8]))
      = [0, 1, 5, 2, 6, 3, 7, 4, 8, 0] ∧
    neon.load_complex_aligned
        (neon.store_complex_aligned (fun _ => 0) 1 (([1, 2, 3, 4] : List Nat), [5, 6, 7, 8])) 1
      = ([1, 2, 3, 4], [5, 6, 7, 8]) :=
  ⟨rfl, rfl, by decide, by decide,
    (neon_complex_interleaved (fun _ => 0) 0 1 (([1, 2, 3, 4] : List Nat), [5, 6, 7, 8])
      rfl rfl).2.2.2.2.2.1⟩


/-! ## Generic loads with conversion -/

theorem generic_batch_load_aligned_lane (size : Nat) (memory : Nat → α) (p k : Nat)
    (hk : k < size) :
    (generic.batch_load_aligned size memory p)[k]? = some (memory (p + k)) := by
  simp [generic.batch_load_aligned, hk]

theorem generic_batch_load_store (size : Nat) (memory : Nat → α) (p : Nat) (b : List α)
    (hb : b.length = size) :
    generic.batch_load_aligned size (generic.batch_store_aligned memory p b) p = b := by
  apply List.ext_getElem?
  intro k
  by_cases hk : k < size
  · rw [generic_batch_load_aligned_lane size _ p k hk, List.getElem?_eq_getElem (by omega)]
    simp [generic.batch_store_aligned, List.getElem?_eq_getElem (show k < b.length by omega)]
  · rw [List.getElem?_eq_none (by simp [generic.batch_load_aligned]; omega),
      List.getElem?_eq_none (by omega)]

theorem generic_batch_load_store_below (size : Nat) (memory : Nat → α) (p : Nat)
    (b : List α) :
    generic.batch_load_aligned size (generic.batch_store_aligned memory (p + size) b) p
      = generic.batch_load_aligned size memory p := by
  unfold generic.batch_load_aligned
  apply List.map_congr_left
  intro k hk
  have h : ¬ (p + size ≤ p + k) := by
    have := List.mem_range.mp hk
    omega
  simp only [generic.batch_store_aligned, h, if_false]

theorem generic_batch_unaligned (size : Nat) (memory : Nat → α) (p : Nat) (b : List α) :
    generic.batch_load_unaligned size memory p = generic.batch_load_aligned size memory p ∧
    generic.batch_store_unaligned memory p b = generic.batch_store_aligned memory p b :=
  ⟨rfl, rfl⟩

/-- Counterexample to C25 as stated.  With two-lane real batches, the complex
batch `src = ({1, 2}, {3, 4})`, `complex_high` its first and `complex_low` its
second component: after the generic `store_complex_aligned(dst, src)` the first `N`
reals hold `complex_low(src) = {3, 4}`, not `complex_high(src)`, the following
`N` reals hold `complex_high(src) = {1, 2}`, and the load of what was stored
evaluates `load_complex({3, 4}, {1, 2})`, not
`load_complex(complex_high(src), complex_low(src))`. -/
theorem generic_store_complex_writes_low_first :
    generic.batch_load_aligned 2
        (generic.store_complex_aligned 2 Prod.fst Prod.snd (fun _ => 0) 0
          (([1, 2] : List Nat), ([3, 4] : List Nat))) 0
      = [3, 4] ∧
    generic.batch_load_aligned 2
        (generic.store_complex_aligned 2 Prod.fst Prod.snd (fun _ => 0) 0
          (([1, 2] : List Nat), ([3, 4] : List Nat))) (0 + 2)
      = [1, 2] ∧
    generic.batch_load_aligned 2
        (generic.store_complex_aligned 2 Prod.fst Prod.snd (fun _ => 0) 0
          (([1, 2] : List Nat), ([3, 4] : List Nat))) 0
      ≠ Prod.fst (([1, 2] : List Nat), ([3, 4] : List Nat)) ∧
    generic.load_complex_aligned 2 Prod.mk
        (generic.store_complex_aligned 2 Prod.fst Prod.snd (fun _ => 0) 0
          (([1, 2] : List Nat), ([3, 4] : List Nat))) 0
      = (([3, 4] : List Nat), ([1, 2] : List Nat)) ∧
    generic.load_complex_aligned 2 Prod.mk
        (generic.store_complex_aligned 2 Prod.fst Prod.snd (fun _ => 0) 0
          (([1, 2] : List Nat), ([3, 4] : List Nat))) 0
      ≠ Prod.mk (Prod.fst (([1, 2] : List Nat), ([3, 4] : List Nat)))
          (Prod.snd (([1, 2] : List Nat), ([3, 4] : List Nat))) := by
  decide

/-- C25 (amended).  Generic complex load and store with real batches of `N`
lanes, for every architecture-supplied `load_complex`, `complex_high`,
`complex_low` (the latter two returning batches of `N` lanes), memory, pointer
and complex batch `src`: `load_complex_aligned(mem)` evaluates
`load_complex(hi, lo)` with `hi` the first `N` reals and `lo` the following `N`
reals of memory; `store_complex_aligned(dst, src)` writes `complex_low(src)` to
the first `N` reals and `complex_high(src)` to the following `N` reals, so the
load of what was stored evaluates
`load_complex(complex_low(src), complex_high(src))`; the unaligned pair behaves
the same. -/
theorem generic_complex_store_load {γ : Type} (N : Nat) (load_complex : List α → List α → γ)
    (complex_high complex_low : γ → List α) (memory : Nat → α) (mem dst : Nat) (src : γ)
    (hhi : (complex_high src).length = N) (hlo : (complex_low src).length = N) :
    generic.load_complex_aligned N load_complex memory mem
      = load_complex ((List.range N).map (fun k => memory (mem + k)))
          ((List.range N).map (fun k => memory (mem + N + k))) ∧
    generic.batch_load_aligned N
        (generic.store_complex_aligned N complex_high complex_low memory dst src) dst
      = complex_low src ∧
    generic.batch_load_aligned N
        (generic.store_complex_aligned N complex_high complex_low memory dst src) (dst + N)
      = complex_high src ∧
    generic.load_complex_aligned N load_complex
        (generic.store_complex_aligned N complex_high complex_low memory dst src) dst
      = load_complex (complex_low src) (complex_high src) ∧
    generic.load_complex_unaligned N load_complex memory mem
      = generic.load_complex_aligned N load_complex memory mem ∧
    generic.store_complex_unaligned N complex_high complex_low memory dst src
      = generic.store_complex_aligned N complex_high complex_low memory dst src := by
  have h1 : generic.batch_load_aligned N
      (generic.store_complex_aligned N complex_high complex_low memory dst src) dst
      = complex_low src := by
    unfold generic.store_complex_aligned
    simp only []
    rw [generic_batch_load_store_below, generic_batch_load_store N memory dst _ hlo]
  have h2 : generic.batch_load_aligned N
      (generic.store_complex_aligned N complex_high complex_low memory dst src) (dst + N)
      = complex_high src := by
    unfold generic.store_complex_aligned
    simp only []
    rw [generic_batch_load_store N _ (dst + N) _ hhi]
  refine ⟨rfl, h1, h2, ?_, rfl, rfl⟩
  unfold generic.load_complex_aligned
  simp only []
  rw [h1, h2]

theorem generic_complex_store_load_witness :
    (Prod.fst (([1, 2] : List Nat), ([3, 4] : List Nat))).length = 2 ∧
    (Prod.snd (([1, 2] : List Nat), ([3, 4] : List Nat))).length = 2 ∧
    (List.range 6).map
        (generic.store_complex_aligned 2 Prod.fst Prod.snd (fun _ => 0) 1
          (([1, 2] : List Nat), ([3, 4] : List Nat)))
      = [0, 3, 4, 1, 2, 0] ∧
    generic.load_complex_aligned 2 (fun (hi lo : List Nat) => (hi, lo))
        (generic.store_complex_aligned 2 Prod.fst Prod.snd (fun _ => 0) 1
          (([1, 2] : List Nat), ([3, 4] : List Nat))) 1
      = (fun (hi lo : List Nat) => (hi, lo))
          (Prod.snd (([1, 2] : List Nat), ([3, 4] : List Nat)))
          (Prod.fst (([1, 2] : List Nat), ([3, 4] : List Nat))) :=
  ⟨rfl, rfl, by decide,
    (generic_complex_store_load 2 (fun (hi lo : List Nat) => (hi, lo)) Prod.fst Prod.snd
      (fun _ => 0) 0 1 (([1, 2] : List Nat), ([3, 4] : List Nat)) rfl rfl).2.2.2.1⟩


/-! ## bitwise_cast -/

theorem registerType_bits_mul_size (t : RegisterType) : t.bits * t.size = 128 := by
  cases t <;> rfl

theorem neon_register_lanes_bits (w : Nat) (a : List Nat) (h : ∀ x ∈ a, x < 2 ^ w) :
    neon.register_lanes w a.length (neon.register_bits w a) = a := by
  induction a with
  | nil => rfl
  | cons x rest ih =>
    simp only [List.mem_cons, forall_eq_or_imp] at h
    have hpos : 0 < 2 ^ w := by positivity
    simp only [List.length_cons, neon.register_lanes, neon.register_bits,
      Nat.add_mul_mod_self_left, Nat.mod_eq_of_lt h.1, Nat.add_mul_div_left _ _ hpos,
      Nat.div_eq_of_lt h.1, Nat.zero_add, ih h.2]

theorem neon_register_bits_lanes (w n x : Nat) :
    neon.register_bits w (neon.register_lanes w n x) = x % 2 ^ (w * n) := by
  induction n generalizing x with
  | zero => simp [neon.register_lanes, neon.register_bits, Nat.mod_one]
  | succ n ih =>
    simp only [neon.register_lanes, neon.register_bits, ih]
    have e : 2 ^ (w * (n + 1)) = 2 ^ w * 2 ^ (w * n) := by
      rw [Nat.mul_succ, Nat.pow_add, Nat.mul_comm]
    rw [e, Nat.mod_mul]

theorem neon_register_bits_lt (w : Nat) (a : List Nat) (h : ∀ x ∈ a, x < 2 ^ w) :
    neon.register_bits w a < 2 ^ (w * a.length) := by
  induction a with
  | nil => simp [neon.register_bits]
  | cons x rest ih =>
    simp only [List.mem_cons, forall_eq_or_imp] at h
    have ih1 := ih h.2
    have e : 2 ^ (w * (rest.length + 1)) = 2 ^ w * 2 ^ (w * rest.length) := by
      rw [Nat.mul_succ, Nat.pow_add, Nat.mul_comm]
    simp only [neon.register_bits, List.length_cons, e]
    have h1 : 2 ^ w * (neon.register_bits w rest + 1) ≤ 2 ^ w * 2 ^ (w * rest.length) :=
      Nat.mul_le_mul_left _ ih1
    have h2 := h.1
    rw [Nat.mul_add, Nat.mul_one] at h1
    omega

theorem neon_register_lanes_wf (w n x : Nat) :
    (neon.register_lanes w n x).length = n ∧ ∀ y ∈ neon.register_lanes w n x, y < 2 ^ w := by
  induction n generalizing x with
  | zero => simp [neon.register_lanes]
  | succ n ih =>
    have hpos : 0 < 2 ^ w := by positivity
    simp only [neon.register_lanes, List.length_cons, (ih _).1, List.mem_cons,
      forall_eq_or_imp, true_and]
    exact ⟨Nat.mod_lt _ hpos, (ih _).2⟩

/-- The two-level table of `bitwise_cast` holds, for the source type `T` and the
destination type `R`, the reinterpretation from `T` to `R`. -/
theorem neon_bitwise_cast_table (T R : RegisterType) (a : List Nat) :
    neon.bitwise_cast T R a = some (neon.vreinterpretq R T a) := by
  cases T <;> cases R <;> rfl

/-- A reinterpretation of a well-formed register is a well-formed register of
the destination type. -/
theorem neon_vreinterpretq_wf (T U : RegisterType) (a : List Nat)
    (hlen : a.length = T.size) (hbits : ∀ x ∈ a, x < 2 ^ T.bits) :
    (neon.vreinterpretq U T a).length = U.size ∧
    ∀ x ∈ neon.vreinterpretq U T a, x < 2 ^ U.bits := by
  unfold neon.vreinterpretq
  by_cases hb : U.bits = T.bits
  · have hs : U.size = T.size := by
      have h1 := registerType_bits_mul_size U
      have h2 := registerType_bits_mul_size T
      rw [hb] at h1
      have hpos := registerType_bits_pos T
      exact Nat.eq_of_mul_eq_mul_left hpos (h1.trans h2.symm)
    simp only [hb, if_true, hs]
    exact ⟨hlen, hbits⟩
  · simp only [hb, if_false]
    exact neon_register_lanes_wf _ _ _

theorem neon_vreinterpretq_round_trip (T U : RegisterType) (a : List Nat)
    (hlen : a.length = T.size) (hbits : ∀ x ∈ a, x < 2 ^ T.bits) :
    neon.vreinterpretq T U (neon.vreinterpretq U T a) = a := by
  unfold neon.vreinterpretq
  by_cases hb : U.bits = T.bits
  · simp only [hb, if_true]
  · have hb2 : ¬ T.bits = U.bits := fun h => hb h.symm
    simp only [hb, hb2, if_false]
    have hlt := neon_register_bits_lt T.bits a hbits
    rw [hlen, registerType_bits_mul_size] at hlt
    rw [neon_register_bits_lanes, registerType_bits_mul_size, Nat.mod_eq_of_lt hlt, ← hlen]
    exact neon_register_lanes_bits T.bits a hbits

/-- The bit-level reading of the reinterpretations agrees with the two
specialised intrinsics used by the 64-bit complement. -/
theorem neon_vreinterpretq_32_64_agree (x y : Nat) (hx : x < 2 ^ 64) (hy : y < 2 ^ 64) :
    neon.vreinterpretq .uint32x4_t .uint64x2_t [x, y] = neon.vreinterpretq_32_64 [x, y] ∧
    neon.vreinterpretq .uint64x2_t .uint32x4_t (neon.vreinterpretq_32_64 [x, y])
      = neon.vreinterpretq_64_32 (neon.vreinterpretq_32_64 [x, y]) := by
  have h0 : (2 : Nat) ^ 64 = 18446744073709551616 := by norm_num
  have h1 : (2 : Nat) ^ 32 = 4294967296 := by norm_num
  rw [h0] at hx hy
  simp only [neon.vreinterpretq, RegisterType.bits, RegisterType.size, neon.register_lanes,
    neon.register_bits, neon.vreinterpretq_32_64, neon.vreinterpretq_64_32, h0, h1]
  norm_num
  refine ⟨⟨?_, ?_, ?_, ?_⟩, ?_, ?_⟩ <;> omega

/-- C26.  Reinterpret involutivity on the NEON kernel.  For every (source,
destination) pair of the nine register types the two-level table of
`bitwise_cast` has an entry and it is the reinterpretation from that source to
that destination.  For any two register types `T`, `U` and every batch `a` of
`T` (`T.size` lanes of `T.bits` bits, 128 bits in all): the cast to `U` is a
register of `U.size` lanes of `U.bits` bits, casting it back to `T` returns `a`
bit for bit, and the cast to `T` itself returns `a`. -/
theorem neon_bitwise_cast_involutive (T U : RegisterType) (a : List Nat)
    (hlen : a.length = T.size) (hbits : ∀ x ∈ a, x < 2 ^ T.bits) :
    (∀ (S D : RegisterType) (x : List Nat),
      neon.bitwise_cast S D x = some (neon.vreinterpretq D S x)) ∧
    (∃ b, neon.bitwise_cast T U a = some b ∧ b.length = U.size ∧
      (∀ x ∈ b, x < 2 ^ U.bits) ∧ neon.bitwise_cast U T b = some a) ∧
    (neon.bitwise_cast T U a).bind (neon.bitwise_cast U T) = some a ∧
    neon.bitwise_cast T T a = some a := by
  have hwf := neon_vreinterpretq_wf T U a hlen hbits
  have hrt := neon_vreinterpretq_round_trip T U a hlen hbits
  refine ⟨neon_bitwise_cast_table, ⟨neon.vreinterpretq U T a, neon_bitwise_cast_table T U a,
    hwf.1, hwf.2, ?_⟩, ?_, ?_⟩
  · rw [neon_bitwise_cast_table, hrt]
  · rw [neon_bitwise_cast_table T U a, Option.some_bind, neon_bitwise_cast_table, hrt]
  · rw [neon_bitwise_cast_table]
    simp [neon.vreinterpretq]

theorem neon_bitwise_cast_involutive_witness :
    ([1, 2, 3, 4, 5, 6, 7, 8, 9, 10, 11, 12, 13, 14, 15, 16] : List Nat).length
      = RegisterType.uint8x16_t.size ∧
    (∀ x ∈ ([1, 2, 3, 4, 5, 6, 7, 8, 9, 10, 11, 12, 13, 14, 15, 16] : List Nat),
      x < 2 ^ RegisterType.uint8x16_t.bits) ∧
    neon.bitwise_cast .uint8x16_t .float32x4_t
        [1, 2, 3, 4, 5, 6, 7, 8, 9, 10, 11, 12, 13, 14, 15, 16]
      = some [67305985, 134678021, 202050057, 269422093] ∧
    neon.bitwise_cast .float32x4_t .uint8x16_t [67305985, 134678021, 202050057, 269422093]
      = some [1, 2, 3, 4, 5, 6, 7, 8, 9, 10, 11, 12, 13, 14, 15, 16] ∧
    (neon.bitwise_cast .uint8x16_t .float32x4_t
        [1, 2, 3, 4, 5, 6, 7, 8, 9, 10, 11, 12, 13, 14, 15, 16]).bind
        (neon.bitwise_cast .float32x4_t .uint8x16_t)
      = some [1, 2, 3, 4, 5, 6, 7, 8, 9, 10, 11, 12, 13, 14, 15, 16] :=
  ⟨rfl, by decide, by decide, by decide,
    (neon_bitwise_cast_involutive .uint8x16_t .float32x4_t
      [1, 2, 3, 4, 5, 6, 7, 8, 9, 10, 11, 12, 13, 14, 15, 16] rfl (by decide)).2.2.1⟩


/-! ## to_int, to_float, fast_cast -/

/-- The NEON `fast_cast` is the reinterpretation: between int32 and float it
returns the lanes of its argument unchanged. -/
theorem neon_fast_cast_same_width (tin tout : RegisterType) (x : List Nat)
    (h : tout.bits = tin.bits) :
    neon.detail.fast_cast tin tout x = some x := by
  unfold neon.detail.fast_cast
  rw [neon_bitwise_cast_table]
  simp [neon.vreinterpretq, h]

/-- The conversions `to_float` and `to_int` convert the lane value: every
integer lane of magnitude below `2 ^ 24` is converted exactly, the lane 1 to
the pattern of `1.0f` and back. -/
theorem neon_to_float_to_int_one :
    neon.to_float [1, 0, 4294967295, 16777215] = [1065353216, 0, 3212836864, 1266679807] ∧
    neon.to_int [1065353216, 0, 3212836864, 1266679807] = [1, 0, 4294967295, 16777215] ∧
    neon.float_one = neon.float_of_int 1 := by
  decide

/-- C27.  The NEON `detail::fast_cast` evaluated on the int32 batch
`{1, 0, 0, 0}` and on the float batch `{1.0f, 0, 0, 0}` (bit pattern
`0x3F800000 = 1065353216` in lane 0): it returns the bits of its argument, the
float lane of pattern `1` resp. the int32 lane `1065353216`, where
`to_float({1, 0, 0, 0})` is `{1.0f, 0, 0, 0}` and `to_int({1.0f, 0, 0, 0})` is
`{1, 0, 0, 0}`; the generic fast-conversion `load_aligned` of the int32 memory
`1, 0, 0, 0` built on it yields the float lanes of pattern `1, 0, 0, 0`. -/
theorem neon_fast_cast_reinterprets :
    neon.detail.fast_cast .int32x4_t .float32x4_t [1, 0, 0, 0] = some [1, 0, 0, 0] ∧
    neon.to_float [1, 0, 0, 0] = [1065353216, 0, 0, 0] ∧
    neon.detail.fast_cast .float32x4_t .int32x4_t [1065353216, 0, 0, 0]
      = some [1065353216, 0, 0, 0] ∧
    neon.to_int [1065353216, 0, 0, 0] = [1, 0, 0, 0] ∧
    generic.load_aligned 4 4 (fun x => neon.float_of_int (toInt 32 x))
        (neon.detail.fast_cast .int32x4_t .float32x4_t)
        (fun k => if k = 0 then 1 else 0) 0 .with_fast_conversion
      = some [some 1, some 0, some 0, some 0] ∧
    generic.load_aligned 4 4 (fun x => neon.float_of_int (toInt 32 x))
        (neon.detail.fast_cast .int32x4_t .float32x4_t)
        (fun k => if k = 0 then 1 else 0) 0 .with_slow_conversion
      = some [some 1065353216, some 0, some 0, some 0] := by
  decide


/-! ## from_bool -/

theorem neon_from_bool_vandq (t : RegisterType) (m : List Nat) (hlen : m.length = t.size) :
    neon.from_bool t m
      = m.map (fun x => x &&& (if t = .float32x4_t then neon.float_one else 1)) := by
  have h : ∀ c, neon.vandq m (List.replicate t.size c) = m.map (fun x => x &&& c) := by
    intro c
    rw [← hlen]
    exact list_zipWith_replicate_right _ m c
  cases t
  case float32x4_t =>
    simp only [neon.from_bool, neon.vreinterpretq, neon.vdupq_n, if_true]
    exact h _
  all_goals exact h 1

theorem neon_ones_and_one (t : RegisterType) :
    (2 ^ t.bits - 1) &&& (if t = .float32x4_t then neon.float_one else 1)
      = (if t = .float32x4_t then neon.float_one else 1) := by
  cases t <;> decide

/-- C28.  NEON `from_bool(m)` for every register type `t` and every saturated
mask `m` of `t.size` lanes: the result has `t.size` lanes; lane `i` is the
numeric 1 of the scalar type (the bit pattern `1` for the integer types, of
value 1 in the unsigned and in the two's complement reading; the bit pattern
`0x3F800000` of `1.0f` for float, the float that `to_float` gives for 1 and
`to_int` converts to 1) when `m[i]` is all-ones and `0` when `m[i]` is
all-zeros. -/
theorem neon_from_bool_lanes (t : RegisterType) (m : List Nat) (hlen : m.length = t.size)
    (hsat : neon.saturated t.bits m) :
    (neon.from_bool t m).length = t.size ∧
    (∀ i, i < t.size →
      (m[i]? = some (2 ^ t.bits - 1) →
        (neon.from_bool t m)[i]? = some (if t = .float32x4_t then neon.float_one else 1)) ∧
      (m[i]? = some 0 → (neon.from_bool t m)[i]? = some 0)) ∧
    (t.integral = true → t.value 1 = 1) ∧
    neon.float_one = 0x3F800000 ∧
    neon.to_float [1, 1, 1, 1]
      = [neon.float_one, neon.float_one, neon.float_one, neon.float_one] ∧
    neon.to_int [neon.float_one, neon.float_one, neon.float_one, neon.float_one]
      = [1, 1, 1, 1] := by
  have hv := neon_from_bool_vandq t m hlen
  refine ⟨by rw [hv, List.length_map, hlen], ?_, ?_, rfl, by decide, by decide⟩
  · intro i _
    rw [hv, List.getElem?_map]
    constructor
    · intro h
      rw [h, Option.map_some', neon_ones_and_one]
    · intro h
      rw [h, Option.map_some', Nat.zero_and]
  · intro _
    cases t <;> decide

theorem neon_from_bool_lanes_witness :
    ([4294967295, 0, 0, 4294967295] : List Nat).length = RegisterType.float32x4_t.size ∧
    neon.saturated RegisterType.float32x4_t.bits [4294967295, 0, 0, 4294967295] ∧
    neon.from_bool .float32x4_t [4294967295, 0, 0, 4294967295]
      = [1065353216, 0, 0, 1065353216] ∧
    neon.from_bool .int8x16_t [255, 0, 0, 255, 255, 0, 0, 0, 0, 0, 0, 0, 0, 0, 0, 255]
      = [1, 0, 0, 1, 1, 0, 0, 0, 0, 0, 0, 0, 0, 0, 0, 1] ∧
    (neon.from_bool .float32x4_t [4294967295, 0, 0, 4294967295]).length
      = RegisterType.float32x4_t.size :=
  ⟨rfl, by decide, by decide, by decide,
    (neon_from_bool_lanes .float32x4_t [4294967295, 0, 0, 4294967295] rfl (by decide)).1⟩


/-! ## neq on masks -/

theorem list_zipWith_congr_of_mem {β γ δ : Type} (f g : β → γ → δ) (a : List β)
    (b : List γ) (h : ∀ x ∈ a, ∀ y ∈ b, f x y = g x y) :
    List.zipWith f a b = List.zipWith g a b := by
  induction a generalizing b with
  | nil => simp
  | cons x xs ih =>
    cases b with
    | nil => simp
    | cons y ys =>
      simp only [List.zipWith_cons_cons]
      rw [h x (List.mem_cons_self _ _) y (List.mem_cons_self _ _),
        ih ys (fun x1 hx1 y1 hy1 =>
          h x1 (List.mem_cons_of_mem _ hx1) y1 (List.mem_cons_of_mem _ hy1))]

/-- On saturated masks the mask xor has an all-ones lane exactly where the
lanes differ. -/
theorem neon_neq_bool_lanes (t : RegisterType) (a b : List Nat)
    (hsa : neon.saturated t.bits a) (hsb : neon.saturated t.bits b) :
    neon.neq_bool t a b
      = List.zipWith (fun x y => if x = y then 0 else 2 ^ t.bits - 1) a b := by
  have hM := registerType_ones_pos t
  have hxor : neon.neq_bool t a b = List.zipWith (· ^^^ ·) a b := by
    cases t <;> rfl
  rw [hxor]
  apply list_zipWith_congr_of_mem
  intro x hx y hy
  have hne : ¬ (0 = 2 ^ t.bits - 1) := by omega
  have hne2 : ¬ (2 ^ t.bits - 1 = 0) := by omega
  rcases hsa x hx with rfl | rfl <;> rcases hsb y hy with rfl | rfl <;>
    simp only [Nat.xor_self, Nat.zero_xor, Nat.xor_zero, if_true, hne, hne2, if_false]

theorem neon_not_eq_bool_64 (a0 a1 b0 b1 : Nat)
    (ha0 : a0 = 0 ∨ a0 = 2 ^ 64 - 1) (ha1 : a1 = 0 ∨ a1 = 2 ^ 64 - 1)
    (hb0 : b0 = 0 ∨ b0 = 2 ^ 64 - 1) (hb1 : b1 = 0 ∨ b1 = 2 ^ 64 - 1) :
    neon.detail.bitwise_not_u64
        (neon.batch_bool_init .uint64x2_t
          [neon.get_bool [a0, a1] 0 == neon.get_bool [b0, b1] 0,
            neon.get_bool [a0, a1] 1 == neon.get_bool [b0, b1] 1])
      = [if a0 = b0 then 0 else 2 ^ 64 - 1, if a1 = b1 then 0 else 2 ^ 64 - 1] := by
  rcases ha0 with rfl | rfl <;> rcases ha1 with rfl | rfl <;>
    rcases hb0 with rfl | rfl <;> rcases hb1 with rfl | rfl <;> decide

/-- On saturated masks of the lane count of the type, the complement of the
mask `eq` has an all-ones lane exactly where the lanes differ. -/
theorem neon_not_eq_bool_lanes (t : RegisterType) (a b : List Nat)
    (ha : a.length = t.size) (hb : b.length = t.size)
    (hsa : neon.saturated t.bits a) (hsb : neon.saturated t.bits b) :
    neon.bitwise_not_bool t (neon.eq_bool t a b)
      = List.zipWith (fun x y => if x = y then 0 else 2 ^ t.bits - 1) a b := by
  have h64 : ∀ a b : List Nat, a.length = 2 → b.length = 2 →
      neon.saturated 64 a → neon.saturated 64 b →
      neon.detail.bitwise_not_u64
          (neon.batch_bool_init .uint64x2_t
            [neon.get_bool a 0 == neon.get_bool b 0, neon.get_bool a 1 == neon.get_bool b 1])
        = List.zipWith (fun x y => if x = y then 0 else 2 ^ 64 - 1) a b := by
    intro a b ha hb hsa hsb
    match a, ha, b, hb with
    | [a0, a1], _, [b0, b1], _ =>
      exact neon_not_eq_bool_64 a0 a1 b0 b1 (hsa a0 (by simp)) (hsa a1 (by simp))
        (hsb b0 (by simp)) (hsb b1 (by simp))
  have hgen : ∀ w : Nat, 0 < 2 ^ w - 1 →
      neon.vmvnq w (neon.vcmpq w (fun x y => decide (x = y)) a b)
        = List.zipWith (fun x y => if x = y then 0 else 2 ^ w - 1) a b := by
    intro w hw
    unfold neon.vmvnq neon.vcmpq
    rw [List.map_zipWith]
    apply list_zipWith_congr_of_mem
    intro x _ y _
    by_cases hxy : x = y
    · simp [hxy]
    · simp [hxy]
  cases t
  case uint64x2_t => exact h64 a b ha hb hsa hsb
  case int64x2_t => exact h64 a b ha hb hsa hsb
  case uint8x16_t => exact hgen 8 (by decide)
  case int8x16_t => exact hgen 8 (by decide)
  case uint16x8_t => exact hgen 16 (by decide)
  case int16x8_t => exact hgen 16 (by decide)
  case uint32x4_t => exact hgen 32 (by decide)
  case int32x4_t => exact hgen 32 (by decide)
  case float32x4_t => exact hgen 32 (by decide)

/-- C29.  NEON `neq` on masks, for every register type `t`: `neq(a, b)` is the
mask `bitwise_xor(a, b)` for all mask registers; for saturated masks `a`, `b` of
`t.size` lanes it has `t.size` lanes, equals `bitwise_not(eq(a, b))`, and its
lane `i` is all-ones when `a[i]` differs from `b[i]` and all-zeros when they
are equal. -/
theorem neon_neq_bool_spec (t : RegisterType) (a b : List Nat)
    (ha : a.length = t.size) (hb : b.length = t.size)
    (hsa : neon.saturated t.bits a) (hsb : neon.saturated t.bits b) :
    (∀ x y : List Nat, neon.neq_bool t x y = neon.bitwise_xor_bool t x y) ∧
    (neon.neq_bool t a b).length = t.size ∧
    neon.neq_bool t a b = neon.bitwise_not_bool t (neon.eq_bool t a b) ∧
    (∀ (i x y : Nat), a[i]? = some x → b[i]? = some y →
      (neon.neq_bool t a b)[i]? = some (if x = y then 0 else 2 ^ t.bits - 1)) := by
  have h1 := neon_neq_bool_lanes t a b hsa hsb
  have h2 := neon_not_eq_bool_lanes t a b ha hb hsa hsb
  refine ⟨fun _ _ => rfl, ?_, by rw [h1, h2], ?_⟩
  · rw [h1, List.length_zipWith, ha, hb, Nat.min_self]
  · intro i x y hx hy
    rw [h1, List.getElem?_zipWith, hx, hy]

theorem neon_neq_bool_spec_witness :
    ([18446744073709551615, 0] : List Nat).length = RegisterType.int64x2_t.size ∧
    ([0, 0] : List Nat).length = RegisterType.int64x2_t.size ∧
    neon.saturated RegisterType.int64x2_t.bits [18446744073709551615, 0] ∧
    neon.saturated RegisterType.int64x2_t.bits [0, 0] ∧
    neon.neq_bool .int64x2_t [18446744073709551615, 0] [0, 0] = [18446744073709551615, 0] ∧
    neon.eq_bool .int64x2_t [18446744073709551615, 0] [0, 0] = [0, 18446744073709551615] ∧
    neon.neq_bool .int64x2_t [18446744073709551615, 0] [0, 0]
      = neon.bitwise_not_bool .int64x2_t
          (neon.eq_bool .int64x2_t [18446744073709551615, 0] [0, 0]) :=
  ⟨rfl, rfl, by decide, by decide, by decide, by decide,
    (neon_neq_bool_spec .int64x2_t [18446744073709551615, 0] [0, 0] rfl rfl
      (by decide) (by decide)).2.2.1⟩


/-! ## bitwise_andnot -/

/-- Every overload behind `bitwise_andnot` clears in each lane of the first
operand the bits of the second; every overload behind `bitwise_and` is the
lane-wise and. -/
theorem neon_bitwise_andnot_neon_lanes (t : RegisterType) (a b : List Nat) :
    neon.detail.bitwise_andnot_neon t a b
      = List.zipWith (fun x y => x &&& (2 ^ t.bits - 1 - y)) a b ∧
    neon.detail.bitwise_and_neon t a b = List.zipWith (· &&& ·) a b := by
  cases t <;> exact ⟨rfl, rfl⟩

theorem neon_bitwise_and_not_neon (t : RegisterType) (a b : List Nat)
    (hb : ∀ x ∈ b, x < 2 ^ t.bits) :
    neon.detail.bitwise_andnot_neon t a b
      = neon.detail.bitwise_and_neon t a (neon.detail.bitwise_not_neon t b) := by
  rw [(neon_bitwise_andnot_neon_lanes t a b).1, (neon_bitwise_andnot_neon_lanes t a _).2,
    neon_bitwise_not_neon_lanes t b hb, List.zipWith_map_right]

/-- C30.  NEON `bitwise_andnot` for each of the nine register types `t` (float
through its bit pattern) and all registers `a`, `b`, the lanes of `b` being
`t.bits`-bit patterns: on batches and on masks
`bitwise_andnot(a, b) = bitwise_and(a, bitwise_not(b))`, and lane `i` of the
result is `a[i] AND (NOT b[i])`, the complement being taken of the second
operand. -/
theorem neon_bitwise_andnot_spec (t : RegisterType) (a b : List Nat)
    (hb : ∀ x ∈ b, x < 2 ^ t.bits) :
    neon.bitwise_andnot t a b = neon.bitwise_and t a (neon.bitwise_not t b) ∧
    neon.bitwise_andnot_bool t a b
      = neon.bitwise_and_bool t a (neon.bitwise_not_bool t b) ∧
    neon.bitwise_andnot t a b = List.zipWith (fun x y => x &&& (2 ^ t.bits - 1 - y)) a b ∧
    neon.bitwise_andnot_bool t a b
      = List.zipWith (fun x y => x &&& (2 ^ t.bits - 1 - y)) a b := by
  refine ⟨neon_bitwise_and_not_neon t a b hb, ?_, (neon_bitwise_andnot_neon_lanes t a b).1,
    ?_⟩
  · exact neon_bitwise_and_not_neon _ a b (by rw [comp_return_type_bits]; exact hb)
  · have h := (neon_bitwise_andnot_neon_lanes (neon.detail.comp_return_type t) a b).1
    rw [comp_return_type_bits] at h
    exact h

theorem neon_bitwise_andnot_spec_witness :
    (∀ x ∈ ([10, 18446744073709551615] : List Nat), x < 2 ^ RegisterType.uint64x2_t.bits) ∧
    neon.bitwise_andnot .uint64x2_t [12, 18446744073709551615] [10, 18446744073709551615]
      = [4, 0] ∧
    neon.bitwise_andnot .uint64x2_t [10, 18446744073709551615] [12, 18446744073709551615]
      = [2, 0] ∧
    neon.bitwise_not .uint64x2_t [10, 18446744073709551615] = [18446744073709551605, 0] ∧
    neon.bitwise_andnot .uint64x2_t [12, 18446744073709551615] [10, 18446744073709551615]
      = neon.bitwise_and .uint64x2_t [12, 18446744073709551615]
          (neon.bitwise_not .uint64x2_t [10, 18446744073709551615]) :=
  ⟨by decide, by decide, by decide, by decide,
    (neon_bitwise_andnot_spec .uint64x2_t [12, 18446744073709551615]
      [10, 18446744073709551615] (by decide)).1⟩


/-! ## Enabling predicates -/

/-- C34.  The enabling predicates partition the nine scalar types for each
NEON operation.  For every operation among `eq`, `lt`, `le`, `gt`, `ge`, `min`,
`max`, `broadcast`, `from_bool`, `load_aligned`, `store_aligned`, `neg`,
`zip_lo`, `zip_hi`, `hadd`, `all`, `any` and every scalar type exactly one
overload of the operation is enabled.  Type by type: exactly one of
`exclude_int64_neon_t<T>` and `enable_sized_integral_t<T, 8>` holds; exactly
one of the eight sized signed / unsigned predicates (sizes 1, 2, 4, 8) and
`T = float` holds; exactly one of `enable_sized_t<T, S>`, `S` = 1, 2, 4, 8,
holds. -/
theorem neon_enabling_predicates_partition (op : neon.Operation) (t : RegisterType) :
    ((neon.overloads op).filter (fun p => p t)).length = 1 ∧
    (neon.detail.exclude_int64_neon_t t ≠ neon.detail.enable_sized_integral_t t 8) ∧
    (([neon.detail.enable_sized_unsigned_t t 1, neon.detail.enable_sized_signed_t t 1,
        neon.detail.enable_sized_unsigned_t t 2, neon.detail.enable_sized_signed_t t 2,
        neon.detail.enable_sized_unsigned_t t 4, neon.detail.enable_sized_signed_t t 4,
        neon.detail.enable_sized_unsigned_t t 8, neon.detail.enable_sized_signed_t t 8,
        neon.detail.is_same_float t].filter (fun b => b)).length = 1) ∧
    (([neon.detail.enable_sized_t t 1, neon.detail.enable_sized_t t 2,
        neon.detail.enable_sized_t t 4, neon.detail.enable_sized_t t 8].filter
          (fun b => b)).length = 1) := by
  cases t <;> cases op <;> decide


/-! ## The search of the constant-amount shifts -/

theorem neon_detail_bitwise_lshift_of_not_mem (t : RegisterType) (lhs : List Nat) (n : Int)
    (Is : List Int) (h : n ∉ Is) :
    neon.detail.bitwise_lshift t lhs n Is = none := by
  induction Is with
  | nil => rfl
  | cons I Is ih =>
    unfold neon.detail.bitwise_lshift
    have hI : ¬ n = I := fun e => h (e ▸ List.mem_cons_self _ _)
    rw [if_neg hI]
    exact ih (fun hm => h (List.mem_cons_of_mem _ hm))

theorem neon_detail_bitwise_rshift_of_not_mem (t : RegisterType) (lhs : List Nat) (n : Int)
    (Is : List Int) (h : n ∉ Is) :
    neon.detail.bitwise_rshift t lhs n Is = none := by
  induction Is with
  | nil => rfl
  | cons I Is ih =>
    unfold neon.detail.bitwise_rshift
    have hI : ¬ n = I := fun e => h (e ▸ List.mem_cons_self _ _)
    rw [if_neg hI]
    exact ih (fun hm => h (List.mem_cons_of_mem _ hm))

theorem neon_mem_make_int_sequence (N : Nat) (n : Int) :
    n ∈ neon.make_int_sequence N ↔ 0 ≤ n ∧ n < (N : Int) := by
  unfold neon.make_int_sequence
  rw [List.mem_map]
  constructor
  · rintro ⟨i, hi, rfl⟩
    have := List.mem_range.mp hi
    omega
  · rintro ⟨h0, h1⟩
    exact ⟨n.toNat, List.mem_range.mpr (by omega), by omega⟩

/-- The search of the left shift over `0 .. w-1`: it ends in the branch for `n`
when `0 ≤ n < w` and in the assertion of the empty sequence otherwise. -/
theorem neon_bitwise_lshift_impl_search (t : RegisterType) (lhs : List Nat) (n : Int) :
    neon.detail.bitwise_lshift_impl t lhs n (neon.make_int_sequence t.bits)
      = if 0 ≤ n ∧ n < (t.bits : Int) then
          some (if n = 0 then lhs else neon.vshlq_n t.bits lhs n.toNat)
        else none := by
  obtain ⟨N, hN⟩ : ∃ N, t.bits = N + 1 := ⟨t.bits - 1, by have := registerType_bits_pos t; omega⟩
  have hmem := neon_mem_make_int_sequence t.bits n
  have hseq : neon.make_int_sequence t.bits
      = 0 :: (List.range N).map (fun (i : Nat) => ((i + 1 : Nat) : Int)) := by
    rw [hN, neon_make_int_sequence_succ]
  rw [hseq] at hmem
  rw [hseq, neon_bitwise_lshift_impl_cons]
  by_cases h0 : n = 0
  · subst h0
    have hr : (0 : Int) ≤ 0 ∧ (0 : Int) < (t.bits : Int) := by omega
    simp only [hr, and_self, if_true]
  · simp only [h0, if_false]
    by_cases hr : 0 ≤ n ∧ n < (t.bits : Int)
    · have hm : n ∈ (List.range N).map (fun (i : Nat) => ((i + 1 : Nat) : Int)) := by
        rcases List.mem_cons.mp (hmem.mpr hr) with h | h
        · exact absurd h h0
        · exact h
      rw [if_pos hr, neon_detail_bitwise_lshift_of_mem t lhs n _ hm]
    · have hm : n ∉ (List.range N).map (fun (i : Nat) => ((i + 1 : Nat) : Int)) :=
        fun h => hr (hmem.mp (List.mem_cons_of_mem _ h))
      rw [if_neg hr, neon_detail_bitwise_lshift_of_not_mem t lhs n _ hm]

/-- The search of the right shift over `0 .. w-1`. -/
theorem neon_bitwise_rshift_impl_search (t : RegisterType) (lhs : List Nat) (n : Int) :
    neon.detail.bitwise_rshift_impl t lhs n (neon.make_int_sequence t.bits)
      = if 0 ≤ n ∧ n < (t.bits : Int) then
          some (if n = 0 then lhs else neon.vshrq_n t lhs n.toNat)
        else none := by
  obtain ⟨N, hN⟩ : ∃ N, t.bits = N + 1 := ⟨t.bits - 1, by have := registerType_bits_pos t; omega⟩
  have hmem := neon_mem_make_int_sequence t.bits n
  have hseq : neon.make_int_sequence t.bits
      = 0 :: (List.range N).map (fun (i : Nat) => ((i + 1 : Nat) : Int)) := by
    rw [hN, neon_make_int_sequence_succ]
  rw [hseq] at hmem
  rw [hseq, neon_bitwise_rshift_impl_cons]
  by_cases h0 : n = 0
  · subst h0
    have hr : (0 : Int) ≤ 0 ∧ (0 : Int) < (t.bits : Int) := by omega
    simp only [hr, and_self, if_true]
  · simp only [h0, if_false]
    by_cases hr : 0 ≤ n ∧ n < (t.bits : Int)
    · have hm : n ∈ (List.range N).map (fun (i : Nat) => ((i + 1 : Nat) : Int)) := by
        rcases List.mem_cons.mp (hmem.mpr hr) with h | h
        · exact absurd h h0
        · exact h
      rw [if_pos hr, neon_detail_bitwise_rshift_of_mem t lhs n _ hm]
    · have hm : n ∉ (List.range N).map (fun (i : Nat) => ((i + 1 : Nat) : Int)) :=
        fun h => hr (hmem.mp (List.mem_cons_of_mem _ h))
      rw [if_neg hr, neon_detail_bitwise_rshift_of_not_mem t lhs n _ hm]

/-- C36.  The compile-time search of the constant-amount shifts, for every
integer register type `t` of lane width `w = t.bits`, every batch `lhs` and
every `int n`.  The recursion over the sequence `0 .. w-1` is a total function
(it consumes one element of the sequence per step).  When `0 ≤ n < w` it ends
in the branch for `I = n`: the input itself for `n = 0`, `vshlq_n(lhs, n)`
resp. `vshrq_n(lhs, n)` otherwise.  When `n` is outside that range it runs to
the empty sequence and ends in the `out of bounds` assertion (no value).  So the
search has a value if and only if `0 ≤ n < w`; the kernels, which assert the
range first, have a value under the same condition. -/
theorem neon_shift_search_in_range_iff (t : RegisterType) (ht : t.integral = true)
    (lhs : List Nat) (n : Int) :
    (0 ≤ n ∧ n < (t.bits : Int) →
      neon.detail.bitwise_lshift_impl t lhs n (neon.make_int_sequence t.bits)
        = some (if n = 0 then lhs else neon.vshlq_n t.bits lhs n.toNat) ∧
      neon.detail.bitwise_rshift_impl t lhs n (neon.make_int_sequence t.bits)
        = some (if n = 0 then lhs else neon.vshrq_n t lhs n.toNat)) ∧
    (¬ (0 ≤ n ∧ n < (t.bits : Int)) →
      neon.detail.bitwise_lshift_impl t lhs n (neon.make_int_sequence t.bits) = none ∧
      neon.detail.bitwise_rshift_impl t lhs n (neon.make_int_sequence t.bits) = none) ∧
    ((neon.detail.bitwise_lshift_impl t lhs n (neon.make_int_sequence t.bits)).isSome = true
      ↔ 0 ≤ n ∧ n < (t.bits : Int)) ∧
    ((neon.detail.bitwise_rshift_impl t lhs n (neon.make_int_sequence t.bits)).isSome = true
      ↔ 0 ≤ n ∧ n < (t.bits : Int)) ∧
    ((neon.bitwise_lshift t lhs n).isSome = true ↔ 0 ≤ n ∧ n < (t.bits : Int)) ∧
    ((neon.bitwise_rshift t lhs n).isSome = true ↔ 0 ≤ n ∧ n < (t.bits : Int)) := by
  have hl := neon_bitwise_lshift_impl_search t lhs n
  have hr := neon_bitwise_rshift_impl_search t lhs n
  have hkl : neon.bitwise_lshift t lhs n
      = if 0 ≤ n ∧ n < (t.bits : Int) then
          neon.detail.bitwise_lshift_impl t lhs n (neon.make_int_sequence t.bits)
        else none := by
    cases t <;> first | (exact absurd ht (by decide)) | rfl
  have hkr : neon.bitwise_rshift t lhs n
      = if 0 ≤ n ∧ n < (t.bits : Int) then
          neon.detail.bitwise_rshift_impl t lhs n (neon.make_int_sequence t.bits)
        else none := by
    cases t <;> first | (exact absurd ht (by decide)) | rfl
  rw [hkl, hkr, hl, hr]
  by_cases h : 0 ≤ n ∧ n < (t.bits : Int)
  · simp only [h, and_self, if_true, not_true_eq_false, Option.isSome_some, iff_true,
      true_implies, false_implies, and_true]
  · simp only [h, if_false, not_false_eq_true, true_implies, false_implies, and_self,
      Option.isSome_none, Bool.false_eq_true, iff_false, true_and]

theorem neon_shift_search_in_range_iff_witness :
    RegisterType.uint8x16_t.integral = true ∧
    neon.detail.bitwise_lshift_impl .uint8x16_t
        [1, 2, 3, 4, 5, 6, 7, 8, 9, 10, 11, 12, 13, 14, 15, 200] 7
        (neon.make_int_sequence 8)
      = some [128, 0, 128, 0, 128, 0, 128, 0, 128, 0, 128, 0, 128, 0, 128, 0] ∧
    neon.detail.bitwise_lshift_impl .uint8x16_t
        [1, 2, 3, 4, 5, 6, 7, 8, 9, 10, 11, 12, 13, 14, 15, 200] 8
        (neon.make_int_sequence 8) = none ∧
    neon.detail.bitwise_rshift_impl .uint8x16_t
        [1, 2, 3, 4, 5, 6, 7, 8, 9, 10, 11, 12, 13, 14, 15, 200] (-1)
        (neon.make_int_sequence 8) = none ∧
    ((neon.detail.bitwise_lshift_impl .uint8x16_t
        [1, 2, 3, 4, 5, 6, 7, 8, 9, 10, 11, 12, 13, 14, 15, 200] 7
        (neon.make_int_sequence RegisterType.uint8x16_t.bits)).isSome = true
      ↔ (0 : Int) ≤ 7 ∧ (7 : Int) < (RegisterType.uint8x16_t.bits : Int)) :=
  ⟨rfl, by decide, by decide, by decide,
    (neon_shift_search_in_range_iff .uint8x16_t rfl
      [1, 2, 3, 4, 5, 6, 7, 8, 9, 10, 11, 12, 13, 14, 15, 200] 7).2.2.1⟩


/-! ## The generic extract_pair loop, lane by lane -/

/-- C37.  The generic `extract_pair` on batches `self`, `other` of `N` lanes at
an index `i < N`.  The call returns a buffer of `N` lanes, and every lane of it
is written if and only if `2 * i ≤ N`.  For `2 * i ≤ N` (that is `i ≤ N/2`) the
result is the window of `(other, self)` that starts at `i`.  For `N < 2 * i`
the lanes `N-i .. i-1` are never assigned and the lanes `0 .. N-i-1` and
`i .. N-1` are.  With `N = 4`, `self = {0, 1, 2, 3}`, `other = {10, 11, 12, 13}`
and `i = 2` the result is `{12, 13, 0, 1}`. -/
theorem generic_extract_pair_all_written_iff (N i : Nat) (self other : List α)
    (hs : self.length = N) (ho : other.length = N) (hi : i < N) :
    ∃ r, generic.extract_pair N self other i = some r ∧ r.length = N ∧
      ((∀ k, k < N → ∃ v, r[k]? = some (some v)) ↔ 2 * i ≤ N) ∧
      (2 * i ≤ N → ∀ k, k < N →
        r[k]? = some (other ++ self)[i + k]? ∧ (other ++ self)[i + k]?.isSome = true) ∧
      (N < 2 * i → ∀ k, k < N →
        (N - i ≤ k ∧ k < i → r[k]? = some none) ∧
        (k < N - i ∨ i ≤ k → ∃ v, r[k]? = some (some v))) ∧
      generic.extract_pair 4 [0, 1, 2, 3] [10, 11, 12, 13] 2
        = some [some 12, some 13, some 0, some 1] := by
  obtain ⟨r, hr, hlen, hget⟩ := generic_extract_pair_lanes N i self other hi
  have hwritten : ∀ k, k < N → (k < N - i ∨ i ≤ k) → ∃ v, r[k]? = some (some v) := by
    intro k hk hcase
    rw [hget k hk]
    by_cases h1 : k < N - i
    · rw [if_pos h1, List.getElem?_eq_getElem (show i + k < other.length by omega)]
      exact ⟨_, rfl⟩
    · have h2 : i ≤ k := by omega
      rw [if_neg h1, if_pos h2,
        List.getElem?_eq_getElem (show i + k - N < self.length by omega)]
      exact ⟨_, rfl⟩
  have hunwritten : ∀ k, k < N → N - i ≤ k → k < i → r[k]? = some none := by
    intro k hk h1 h2
    rw [hget k hk, if_neg (by omega), if_neg (by omega)]
  refine ⟨r, hr, hlen, ?_, ?_, ?_, by decide⟩
  · constructor
    · intro hall
      by_contra hgt
      have hk : N - i < N := by omega
      obtain ⟨v, hv⟩ := hall (N - i) hk
      rw [hunwritten (N - i) hk (Nat.le_refl _) (by omega)] at hv
      simp at hv
    · intro hle k hk
      exact hwritten k hk (by omega)
  · intro hle k hk
    have hin : i + k < (other ++ self).length := by
      rw [List.length_append, hs, ho]
      omega
    refine ⟨?_, by rw [List.getElem?_eq_getElem hin]; rfl⟩
    rw [hget k hk]
    by_cases h1 : k < N - i
    · rw [if_pos h1, List.getElem?_append_left (by omega)]
    · rw [if_neg h1, if_pos (by omega), List.getElem?_append_right (by omega), ho]
  · intro hgt k hk
    exact ⟨fun h => hunwritten k hk h.1 h.2, hwritten k hk⟩

theorem generic_extract_pair_all_written_iff_witness :
    ([0, 1, 2, 3] : List Nat).length = 4 ∧ ([10, 11, 12, 13] : List Nat).length = 4 ∧
    3 < 4 ∧
    generic.extract_pair 4 [0, 1, 2, 3] [10, 11, 12, 13] 1
      = some [some 11, some 12, some 13, some 0] ∧
    generic.extract_pair 4 [0, 1, 2, 3] [10, 11, 12, 13] 3
      = some [some 13, none, none, some 2] ∧
    ∃ r, generic.extract_pair 4 [0, 1, 2, 3] [10, 11, 12, 13] 3 = some r ∧ r.length = 4 ∧
      ((∀ k, k < 4 → ∃ v, r[k]? = some (some v)) ↔ 2 * 3 ≤ 4) :=
  ⟨rfl, rfl, by decide, by decide, by decide,
    (generic_extract_pair_all_written_iff 4 3 [0, 1, 2, 3] [10, 11, 12, 13] rfl rfl
      (by decide)).imp (fun _ h => ⟨h.1, h.2.1, h.2.2.1⟩)⟩


/-! ## sum_batch and the half register -/

/-- C38.  The calls of `detail::sum_batch<T, A>` made by the 8-bit and 16-bit
`hadd` overloads, at the batches `{1, .., 16}` of `uint8_t` and `{1, .., 8}` of
`uint16_t`: the vector handed over is the half register `vpadd(low, high)` of 8
resp. 4 lanes, the loop bound `batch<T, A>::size` is 16 resp. 8, so the loop
subscripts the lane 8 resp. 4, which the vector does not have, and neither the
sum nor `hadd` has a value. -/
theorem neon_sum_batch_indexes_past_half_register :
    (neon.vpadd 8 (neon.vget_low [1, 2, 3, 4, 5, 6, 7, 8, 9, 10, 11, 12, 13, 14, 15, 16])
      (neon.vget_high [1, 2, 3, 4, 5, 6, 7, 8, 9, 10, 11, 12, 13, 14, 15, 16]))
      = [3, 7, 11, 15, 19, 23, 27, 31] ∧
    RegisterType.uint8x16_t.size = 16 ∧
    neon.vget_lane [3, 7, 11, 15, 19, 23, 27, 31] 7 = some 31 ∧
    neon.vget_lane [3, 7, 11, 15, 19, 23, 27, 31] 8 = none ∧
    neon.detail.sum_batch 8 RegisterType.uint8x16_t.size [3, 7, 11, 15, 19, 23, 27, 31]
      = none ∧
    neon.detail.sum_batch 8 8 [3, 7, 11, 15, 19, 23, 27, 31] = some 136 ∧
    neon.hadd_u8 [1, 2, 3, 4, 5, 6, 7, 8, 9, 10, 11, 12, 13, 14, 15, 16] = none ∧
    (neon.vpadd 16 (neon.vget_low [1, 2, 3, 4, 5, 6, 7, 8])
      (neon.vget_high [1, 2, 3, 4, 5, 6, 7, 8])) = [3, 7, 11, 15] ∧
    RegisterType.uint16x8_t.size = 8 ∧
    neon.vget_lane [3, 7, 11, 15] 4 = none ∧
    neon.detail.sum_batch 16 RegisterType.uint16x8_t.size [3, 7, 11, 15] = none ∧
    neon.detail.sum_batch 16 4 [3, 7, 11, 15] = some 36 ∧
    neon.hadd_u16 [1, 2, 3, 4, 5, 6, 7, 8] = none := by
  decide


/-! ## all on registers that are not saturated -/

theorem neon_all_halves16 (t : RegisterType)
    (ht : t = .uint8x16_t ∨ t = .int8x16_t)
    (m0 m1 m2 m3 m4 m5 m6 m7 m8 m9 m10 m11 m12 m13 m14 m15 : Nat) :
    ∃ r, neon.all t [m0, m1, m2, m3, m4, m5, m6, m7, m8, m9, m10, m11, m12, m13, m14, m15] = some r ∧
      (r = true ↔ ∀ k, k < 8 →
        ([m0, m1, m2, m3, m4, m5, m6, m7, m8, m9, m10, m11, m12, m13, m14, m15] : List Nat).getD k 0 &&&
          ([m0, m1, m2, m3, m4, m5, m6, m7, m8, m9, m10, m11, m12, m13, m14, m15] : List Nat).getD (k + 8) 0 ≠ 0) := by
  refine ⟨_, neon_all_value16 t ht m0 m1 m2 m3 m4 m5 m6 m7 m8 m9 m10 m11 m12 m13 m14 m15, ?_⟩
  simp only [bne_iff_ne, ne_eq, nat_min_ne_zero]
  constructor
  · rintro ⟨⟨⟨h0, h1⟩, ⟨h2, h3⟩⟩, ⟨⟨h4, h5⟩, ⟨h6, h7⟩⟩⟩ k hk
    interval_cases k
    exacts [h0, h1, h2, h3, h4, h5, h6, h7]
  · intro h
    exact ⟨⟨⟨h 0 (by omega), h 1 (by omega)⟩, ⟨h 2 (by omega), h 3 (by omega)⟩⟩, ⟨⟨h 4 (by omega), h 5 (by omega)⟩, ⟨h 6 (by omega), h 7 (by omega)⟩⟩⟩

theorem neon_all_halves8 (t : RegisterType)
    (ht : t = .uint16x8_t ∨ t = .int16x8_t)
    (m0 m1 m2 m3 m4 m5 m6 m7 : Nat) :
    ∃ r, neon.all t [m0, m1, m2, m3, m4, m5, m6, m7] = some r ∧
      (r = true ↔ ∀ k, k < 4 →
        ([m0, m1, m2, m3, m4, m5, m6, m7] : List Nat).getD k 0 &&&
          ([m0, m1, m2, m3, m4, m5, m6, m7] : List Nat).getD (k + 4) 0 ≠ 0) := by
  refine ⟨_, neon_all_value8 t ht m0 m1 m2 m3 m4 m5 m6 m7, ?_⟩
  simp only [bne_iff_ne, ne_eq, nat_min_ne_zero]
  constructor
  · rintro ⟨⟨h0, h1⟩, ⟨h2, h3⟩⟩ k hk
    interval_cases k
    exacts [h0, h1, h2, h3]
  · intro h
    exact ⟨⟨h 0 (by omega), h 1 (by omega)⟩, ⟨h 2 (by omega), h 3 (by omega)⟩⟩

theorem neon_all_halves4 (t : RegisterType)
    (ht : t = .uint32x4_t ∨ t = .int32x4_t ∨ t = .float32x4_t)
    (m0 m1 m2 m3 : Nat) :
    ∃ r, neon.all t [m0, m1, m2, m3] = some r ∧
      (r = true ↔ ∀ k, k < 2 →
        ([m0, m1, m2, m3] : List Nat).getD k 0 &&&
          ([m0, m1, m2, m3] : List Nat).getD (k + 2) 0 ≠ 0) := by
  refine ⟨_, neon_all_value4 t ht m0 m1 m2 m3, ?_⟩
  simp only [bne_iff_ne, ne_eq, nat_min_ne_zero]
  constructor
  · rintro ⟨h0, h1⟩ k hk
    interval_cases k
    exacts [h0, h1]
  · intro h
    exact ⟨h 0 (by omega), h 1 (by omega)⟩

theorem neon_all_halves2 (t : RegisterType)
    (ht : t = .uint64x2_t ∨ t = .int64x2_t)
    (m0 m1 : Nat) :
    ∃ r, neon.all t [m0, m1] = some r ∧
      (r = true ↔ ∀ k, k < 1 →
        ([m0, m1] : List Nat).getD k 0 &&&
          ([m0, m1] : List Nat).getD (k + 1) 0 ≠ 0) := by
  refine ⟨_, neon_all_value2 t ht m0 m1, ?_⟩
  simp only [bne_iff_ne, ne_eq, nat_min_ne_zero]
  constructor
  · rintro h0 k hk
    interval_cases k
    exact h0
  · intro h
    exact h 0 (by omega)

/-- C39.  NEON `all(m)` on an arbitrary register `m` of `N = t.size` lanes,
saturated or not, for every register type `t`: the call returns a value, and
it is `true` if and only if for every `k < N/2` the bitwise and of the lanes
`m[k]` and `m[k + N/2]` is nonzero.  The register with every lane `0x01` has no
all-ones lane and `all` returns `true` on it; the register with `m[k] = 0x01`
and `m[k + N/2] = 0x02` has every lane nonzero and `all` returns `false` on
it. -/
theorem neon_all_unsaturated (t : RegisterType) (m : List Nat) (hlen : m.length = t.size) :
    (∃ r, neon.all t m = some r ∧
      (r = true ↔ ∀ k, k < t.size / 2 → m.getD k 0 &&& m.getD (k + t.size / 2) 0 ≠ 0)) ∧
    neon.all t (List.replicate t.size 1) = some true ∧
    (∀ x ∈ List.replicate t.size 1, x ≠ 2 ^ t.bits - 1) ∧
    neon.all t (List.replicate (t.size / 2) 1 ++ List.replicate (t.size / 2) 2)
      = some false ∧
    (∀ x ∈ List.replicate (t.size / 2) 1 ++ List.replicate (t.size / 2) 2, x ≠ 0) := by
  refine ⟨?_, by cases t <;> decide, by cases t <;> decide, by cases t <;> decide,
    by cases t <;> decide⟩
  cases t
  case uint8x16_t =>
    match m, hlen with
    | [m0, m1, m2, m3, m4, m5, m6, m7, m8, m9, m10, m11, m12, m13, m14, m15], _ =>
      exact neon_all_halves16 _ (Or.inl rfl) m0 m1 m2 m3 m4 m5 m6 m7 m8 m9 m10 m11 m12 m13
        m14 m15
  case int8x16_t =>
    match m, hlen with
    | [m0, m1, m2, m3, m4, m5, m6, m7, m8, m9, m10, m11, m12, m13, m14, m15], _ =>
      exact neon_all_halves16 _ (Or.inr rfl) m0 m1 m2 m3 m4 m5 m6 m7 m8 m9 m10 m11 m12 m13
        m14 m15
  case uint16x8_t =>
    match m, hlen with
    | [m0, m1, m2, m3, m4, m5, m6, m7], _ =>
      exact neon_all_halves8 _ (Or.inl rfl) m0 m1 m2 m3 m4 m5 m6 m7
  case int16x8_t =>
    match m, hlen with
    | [m0, m1, m2, m3, m4, m5, m6, m7], _ =>
      exact neon_all_halves8 _ (Or.inr rfl) m0 m1 m2 m3 m4 m5 m6 m7
  case uint32x4_t =>
    match m, hlen with
    | [m0, m1, m2, m3], _ => exact neon_all_halves4 _ (Or.inl rfl) m0 m1 m2 m3
  case int32x4_t =>
    match m, hlen with
    | [m0, m1, m2, m3], _ => exact neon_all_halves4 _ (Or.inr (Or.inl rfl)) m0 m1 m2 m3
  case float32x4_t =>
    match m, hlen with
    | [m0, m1, m2, m3], _ => exact neon_all_halves4 _ (Or.inr (Or.inr rfl)) m0 m1 m2 m3
  case uint64x2_t =>
    match m, hlen with
    | [m0, m1], _ => exact neon_all_halves2 _ (Or.inl rfl) m0 m1
  case int64x2_t =>
    match m, hlen with
    | [m0, m1], _ => exact neon_all_halves2 _ (Or.inr rfl) m0 m1

theorem neon_all_unsaturated_witness :
    ([1, 1, 1, 1, 2, 2, 2, 2] : List Nat).length = RegisterType.uint16x8_t.size ∧
    neon.all .uint16x8_t [1, 1, 1, 1, 2, 2, 2, 2] = some false ∧
    neon.all .uint16x8_t [1, 1, 1, 1, 1, 1, 1, 1] = some true ∧
    neon.all .uint16x8_t [1, 2, 4, 8, 3, 6, 12, 24] = some true ∧
    (∃ r, neon.all .uint16x8_t [1, 1, 1, 1, 2, 2, 2, 2] = some r ∧
      (r = true ↔ ∀ k, k < RegisterType.uint16x8_t.size / 2 →
        ([1, 1, 1, 1, 2, 2, 2, 2] : List Nat).getD k 0 &&&
          ([1, 1, 1, 1, 2, 2, 2, 2] : List Nat).getD (k + RegisterType.uint16x8_t.size / 2) 0
          ≠ 0)) :=
  ⟨rfl, by decide, by decide, by decide,
    (neon_all_unsaturated .uint16x8_t [1, 1, 1, 1, 2, 2, 2, 2] rfl).1⟩

/-! ## abs, min, max -/

/-- One lane of `vabsq_s<w>`: the absolute value, except that the minimum of
the type, whose absolute value is not in the type, is returned as it is. -/
theorem neon_vabsq_lane (w : Nat) (hw : 0 < w) (x : Nat) (hx : x < 2 ^ w) :
    (toInt w x ≠ -(2 ^ (w - 1)) →
      toInt w (ofInt w ((toInt w x).natAbs : Int)) = |toInt w x|) ∧
    (toInt w x = -(2 ^ (w - 1)) →
      toInt w (ofInt w ((toInt w x).natAbs : Int)) = -(2 ^ (w - 1))) := by
  have hr := toInt_range w hw x hx
  obtain ⟨v, rfl⟩ : ∃ v, w = v + 1 := ⟨w - 1, by omega⟩
  simp only [Nat.add_sub_cancel] at hr ⊢
  have hP : (0 : Int) < 2 ^ v := by positivity
  have h2 : (2 : Int) ^ (v + 1) = 2 * 2 ^ v := by ring
  rw [Int.natCast_natAbs]
  constructor
  · intro hne
    have h0 : -(2 ^ (v + 1 - 1)) ≤ |toInt (v + 1) x| := by
      simp only [Nat.add_sub_cancel]
      have := abs_nonneg (toInt (v + 1) x)
      omega
    have h1 : |toInt (v + 1) x| < 2 ^ (v + 1 - 1) := by
      simp only [Nat.add_sub_cancel]
      rw [abs_lt]
      omega
    exact toInt_ofInt_of_range (v + 1) hw _ h0 h1
  · intro he
    rw [he, abs_neg, abs_of_pos hP]
    have hc : ((ofInt (v + 1) (2 ^ v) : Nat) : Int) = 2 ^ v := by
      rw [ofInt_cast_of_range (v + 1) (2 ^ v) (le_of_lt hP) (by omega)]
    have hn : ¬ (ofInt (v + 1) (2 ^ v) < 2 ^ (v + 1 - 1)) := by
      simp only [Nat.add_sub_cancel]
      intro hlt
      have : ((ofInt (v + 1) (2 ^ v) : Nat) : Int) < ((2 ^ v : Nat) : Int) := by
        exact_mod_cast hlt
      rw [hc] at this
      push_cast at this
      omega
    unfold toInt
    rw [if_neg hn, hc]
    omega

/-- C40.  NEON `abs` on the 8-, 16- and 32-bit integer batches, the lanes of
`a` being bit patterns of the lane width.  For the signed types the result has
the lanes of `a` in number, lane `k` has the value `|a_k|` when `a_k` is not the
minimum of the type and is the minimum itself, a negative number, when `a_k` is
the minimum; hence every lane of `abs(a)` is non-negative if and only if no
lane of `a` holds the minimum.  For the unsigned types `abs(a) = a`. -/
theorem neon_abs_signed_minimum (t : RegisterType) (a : List Nat)
    (hbits : ∀ x ∈ a, x < 2 ^ t.bits) :
    (t = .int8x16_t ∨ t = .int16x8_t ∨ t = .int32x4_t →
      ∃ r, neon.abs t a = some r ∧ r.length = a.length ∧
        (∀ (k x : Nat), a[k]? = some x → ∃ y, r[k]? = some y ∧
          (t.value x ≠ t.minValue → t.value y = |t.value x|) ∧
          (t.value x = t.minValue → t.value y = t.minValue ∧ t.value y < 0)) ∧
        ((∀ y ∈ r, 0 ≤ t.value y) ↔ ∀ x ∈ a, t.value x ≠ t.minValue)) ∧
    (t = .uint8x16_t ∨ t = .uint16x8_t ∨ t = .uint32x4_t → neon.abs t a = some a) := by
  constructor
  · intro ht
    have hw := registerType_bits_pos t
    have hv : ∀ x, t.value x = toInt t.bits x := by
      rcases ht with rfl | rfl | rfl <;> intro x <;> rfl
    have hmin : t.minValue = -(2 ^ (t.bits - 1)) := by
      rcases ht with rfl | rfl | rfl <;> rfl
    have habs : neon.abs t a = some (neon.vabsq t.bits a) := by
      rcases ht with rfl | rfl | rfl <;> rfl
    have hneg : (-(2 ^ (t.bits - 1)) : Int) < 0 := by
      have : (0 : Int) < 2 ^ (t.bits - 1) := by positivity
      omega
    refine ⟨_, habs, by simp [neon.vabsq], ?_, ?_⟩
    · intro k x hx
      have hxa : x ∈ a := by
        obtain ⟨hk, he⟩ := List.getElem?_eq_some.mp hx
        rw [← he]
        exact List.getElem_mem hk
      have hl := neon_vabsq_lane t.bits hw x (hbits x hxa)
      have hy : (neon.vabsq t.bits a)[k]?
          = some (ofInt t.bits ((toInt t.bits x).natAbs : Int)) := by
        simp only [neon.vabsq, List.getElem?_map, hx, Option.map_some']
      refine ⟨_, hy, ?_, ?_⟩
      · intro hne
        rw [hv, hv]
        rw [hv, hmin] at hne
        exact hl.1 hne
      · intro he
        rw [hv, hmin] at he
        rw [hv, hmin, hl.2 he]
        exact ⟨rfl, hneg⟩
    · constructor
      · intro hall x hx he
        have hl := neon_vabsq_lane t.bits hw x (hbits x hx)
        rw [hv, hmin] at he
        have hy := hall (ofInt t.bits ((toInt t.bits x).natAbs : Int))
          (by simp only [neon.vabsq, List.mem_map]; exact ⟨x, hx, rfl⟩)
        rw [hv, hl.2 he] at hy
        omega
      · intro hall y hy
        simp only [neon.vabsq, List.mem_map] at hy
        obtain ⟨x, hx, rfl⟩ := hy
        have hl := neon_vabsq_lane t.bits hw x (hbits x hx)
        have hne := hall x hx
        rw [hv, hmin] at hne
        rw [hv, hl.1 hne]
        exact abs_nonneg _
  · intro ht
    rcases ht with rfl | rfl | rfl <;> rfl

theorem neon_abs_signed_minimum_witness :
    (∀ x ∈ ([128, 255, 5, 0, 127, 129, 1, 2, 3, 4, 5, 6, 7, 8, 9, 10] : List Nat),
      x < 2 ^ RegisterType.int8x16_t.bits) ∧
    neon.abs .int8x16_t [128, 255, 5, 0, 127, 129, 1, 2, 3, 4, 5, 6, 7, 8, 9, 10]
      = some [128, 1, 5, 0, 127, 127, 1, 2, 3, 4, 5, 6, 7, 8, 9, 10] ∧
    RegisterType.int8x16_t.value 128 = -128 ∧
    RegisterType.int8x16_t.minValue = -128 ∧
    neon.abs .uint8x16_t [128, 255, 5, 0, 127, 129, 1, 2, 3, 4, 5, 6, 7, 8, 9, 10]
      = some [128, 255, 5, 0, 127, 129, 1, 2, 3, 4, 5, 6, 7, 8, 9, 10] :=
  ⟨by decide, by decide, by decide, by decide,
    (neon_abs_signed_minimum .uint8x16_t
      [128, 255, 5, 0, 127, 129, 1, 2, 3, 4, 5, 6, 7, 8, 9, 10] (by decide)).2
      (Or.inl rfl)⟩


/-- Counterexample to C35 as stated.  The NEON kernel has no `abs` for the
64-bit integer batches: its only overload is enabled by
`exclude_int64_neon_t<T>`, which is false for `int64_t` and `uint64_t`, so the
call on the batches `{5, -5}` of `int64_t` and `{5, 7}` of `uint64_t` selects no
NEON overload, where `min` and `max` on the same types have their pairwise
scalar overload. -/
theorem neon_abs_64_no_overload :
    neon.abs .int64x2_t [5, 18446744073709551611] = none ∧
    neon.abs .uint64x2_t [5, 7] = none ∧
    neon.detail.exclude_int64_neon_t .int64x2_t = false ∧
    neon.detail.exclude_int64_neon_t .uint64x2_t = false ∧
    neon.min (fun _ _ => 0) .int64x2_t [5, 18446744073709551611] [3, 2]
      = [3, 18446744073709551611] ∧
    neon.max (fun _ _ => 0) .int64x2_t [5, 18446744073709551611] [3, 2] = [5, 2] := by
  decide

theorem neon_std_min_max_value (t : RegisterType) (a b : Nat) :
    (neon.std_min t a b = a ∨ neon.std_min t a b = b) ∧
    t.value (neon.std_min t a b) = min (t.value a) (t.value b) ∧
    (neon.std_max t a b = a ∨ neon.std_max t a b = b) ∧
    t.value (neon.std_max t a b) = max (t.value a) (t.value b) := by
  unfold neon.std_min neon.std_max
  refine ⟨?_, ?_, ?_, ?_⟩
  · by_cases h : t.value b < t.value a
    · rw [if_pos h]; exact Or.inr rfl
    · rw [if_neg h]; exact Or.inl rfl
  · by_cases h : t.value b < t.value a
    · rw [if_pos h, min_eq_right (le_of_lt h)]
    · rw [if_neg h, min_eq_left (not_lt.mp h)]
  · by_cases h : t.value a < t.value b
    · rw [if_pos h]; exact Or.inr rfl
    · rw [if_neg h]; exact Or.inl rfl
  · by_cases h : t.value a < t.value b
    · rw [if_pos h, max_eq_right (le_of_lt h)]
    · rw [if_neg h, max_eq_left (not_lt.mp h)]

/-- C35 (amended).  On the NEON kernel `min` and `max` are defined for the
64-bit integer batches by pairwise scalar evaluation: for two-lane batches
`a`, `b` of `int64_t` or `uint64_t`, each lane of `min(a, b)` is one of `a_k`,
`b_k` and has the smaller of the two values, each lane of `max(a, b)` is one of
them and has the larger.  `abs` has no NEON overload for the 64-bit integer
batches: on them the NEON kernel defines no value. -/
theorem neon_min_max_64_pairwise (fmin fmax : Nat → Nat → Nat) (t : RegisterType)
    (ht : t = .uint64x2_t ∨ t = .int64x2_t) (a0 a1 b0 b1 : Nat) :
    neon.min fmin t [a0, a1] [b0, b1] = [neon.std_min t a0 b0, neon.std_min t a1 b1] ∧
    neon.max fmax t [a0, a1] [b0, b1] = [neon.std_max t a0 b0, neon.std_max t a1 b1] ∧
    (neon.std_min t a0 b0 = a0 ∨ neon.std_min t a0 b0 = b0) ∧
    (neon.std_min t a1 b1 = a1 ∨ neon.std_min t a1 b1 = b1) ∧
    t.value (neon.std_min t a0 b0) = min (t.value a0) (t.value b0) ∧
    t.value (neon.std_min t a1 b1) = min (t.value a1) (t.value b1) ∧
    (neon.std_max t a0 b0 = a0 ∨ neon.std_max t a0 b0 = b0) ∧
    (neon.std_max t a1 b1 = a1 ∨ neon.std_max t a1 b1 = b1) ∧
    t.value (neon.std_max t a0 b0) = max (t.value a0) (t.value b0) ∧
    t.value (neon.std_max t a1 b1) = max (t.value a1) (t.value b1) ∧
    (∀ a : List Nat, neon.abs t a = none) := by
  have h0 := neon_std_min_max_value t a0 b0
  have h1 := neon_std_min_max_value t a1 b1
  refine ⟨?_, ?_, h0.1, h1.1, h0.2.1, h1.2.1, h0.2.2.1, h1.2.2.1, h0.2.2.2, h1.2.2.2, ?_⟩
  · rcases ht with rfl | rfl <;> rfl
  · rcases ht with rfl | rfl <;> rfl
  · intro a
    rcases ht with rfl | rfl <;> rfl

theorem neon_min_max_64_pairwise_witness :
    neon.min (fun _ _ => 0) .int64x2_t [5, 18446744073709551611] [3, 2]
      = [3, 18446744073709551611] ∧
    RegisterType.int64x2_t.value 18446744073709551611 = -5 ∧
    neon.max (fun _ _ => 0) .uint64x2_t [5, 18446744073709551611] [3, 2]
      = [5, 18446744073709551611] ∧
    neon.max (fun _ _ => 0) .int64x2_t [5, 18446744073709551611] [3, 2]
      = [neon.std_max .int64x2_t 5 3, neon.std_max .int64x2_t 18446744073709551611 2] :=
  ⟨by decide, by decide, by decide,
    (neon_min_max_64_pairwise (fun _ _ => 0) (fun _ _ => 0) .int64x2_t (Or.inr rfl)
      5 18446744073709551611 3 2).2.1⟩


/-! ## sqrt -/

theorem neon_sqrt_approx_wf (fa : neon.FloatArith Nat) (x : List Nat)
    (hmul : ∀ a b, fa.mul a b < 2 ^ 32) :
    (neon.sqrt_approx fa x).length = x.length ∧
    ∀ y ∈ neon.sqrt_approx fa x, y < 2 ^ 32 := by
  constructor
  · simp [neon.sqrt_approx, neon.vmulq_f32, neon.vrsqrtsq_f32, neon.vrsqrteq_f32]
  · unfold neon.sqrt_approx neon.vmulq_f32
    exact list_forall_zipWith _ _ (fun a b => hmul a b) _ _

/-- C31.  NEON `sqrt(x)` on a float batch `x` of four binary32 lanes, for every
float comparison `vceqq_f32` and all float lane operations (their results being
32-bit patterns).  The result has four lanes; a lane whose input compares equal
to `0.0f` is exactly `0.0f` (bit pattern 0), whatever the approximation holds
in that lane, and every other lane is the lane of the approximation.  For
`x = {0.0, 1.0, 4.0, 9.0}`, `0.0f` comparing equal to itself, lane 0 is exactly
`0.0f`. -/
theorem neon_sqrt_zero_lanes (fp : FloatLane) (fa : neon.FloatArith Nat) (x : List Nat)
    (hlen : x.length = 4) (hmul : ∀ a b, fa.mul a b < 2 ^ 32) :
    (neon.sqrt fp fa x).length = 4 ∧
    (∀ (i xi : Nat), x[i]? = some xi →
      (fp.ceq xi 0 = true → (neon.sqrt fp fa x)[i]? = some 0) ∧
      (fp.ceq xi 0 = false →
        (neon.sqrt fp fa x)[i]? = (neon.sqrt_approx fa x)[i]? ∧
        (neon.sqrt_approx fa x)[i]?.isSome = true)) ∧
    (fp.ceq 0 0 = true →
      ∀ fb : neon.FloatArith Nat, (∀ a b, fb.mul a b < 2 ^ 32) →
        (neon.sqrt fp fb [0, 1065353216, 1082130432, 1091567616])[0]? = some 0) := by
  have key : ∀ (fb : neon.FloatArith Nat) (z : List Nat), z.length = 4 →
      (∀ a b, fb.mul a b < 2 ^ 32) →
      (neon.sqrt fp fb z).length = 4 ∧
      ∀ (i zi : Nat), z[i]? = some zi →
        (fp.ceq zi 0 = true → (neon.sqrt fp fb z)[i]? = some 0) ∧
        (fp.ceq zi 0 = false →
          (neon.sqrt fp fb z)[i]? = (neon.sqrt_approx fb z)[i]? ∧
          (neon.sqrt_approx fb z)[i]?.isSome = true) := by
    intro fb z hz hm
    obtain ⟨hal, hab⟩ := neon_sqrt_approx_wf fb z hm
    have hcond : neon.eq fp .float32x4_t z (neon.broadcast .float32x4_t 0)
        = neon.vcmpq 32 fp.ceq z (List.replicate 4 0) := rfl
    have hcl : (neon.vcmpq 32 fp.ceq z (List.replicate 4 0)).length = 4 := by
      simp [neon.vcmpq, hz]
    have hzero : ∀ y ∈ List.replicate 4 0, y < 2 ^ 32 := by decide
    have hsel : neon.sqrt fp fb z
        = neon.vbslq 32 (neon.vcmpq 32 fp.ceq z (List.replicate 4 0)) (List.replicate 4 0)
            (neon.sqrt_approx fb z) := rfl
    refine ⟨?_, ?_⟩
    · rw [hsel]
      exact neon_vbslq_length 32 _ _ _ 4 hcl (by simp) (by rw [hal, hz])
    · intro i zi hzi
      have hi : i < 4 := by
        have := (List.getElem?_eq_some.mp hzi).1
        omega
      have hlane := neon_vbslq_lane 32 (by decide)
        (neon.vcmpq 32 fp.ceq z (List.replicate 4 0)) (List.replicate 4 0)
        (neon.sqrt_approx fb z) (by rw [hcl]; simp) (by rw [hcl, hal, hz])
        (neon_vcmpq_saturated 32 fp.ceq z _) hzero hab i
      have hci : (neon.vcmpq 32 fp.ceq z (List.replicate 4 0))[i]?
          = some (if fp.ceq zi 0 then 2 ^ 32 - 1 else 0) := by
        simp only [neon.vcmpq, List.getElem?_zipWith, hzi, List.getElem?_replicate, hi,
          if_true, Option.map_some', Option.bind_some]
      have h0 : (List.replicate 4 0)[i]? = some 0 := by
        interval_cases i <;> rfl
      rw [hsel, hlane, hci, h0]
      constructor
      · intro hc
        simp [hc]
      · intro hc
        refine ⟨by simp [hc], ?_⟩
        rw [List.getElem?_eq_getElem (by rw [hal, hz]; exact hi)]
        rfl
  refine ⟨(key fa x hlen hmul).1, (key fa x hlen hmul).2, ?_⟩
  intro h00 fb hfb
  exact ((key fb [0, 1065353216, 1082130432, 1091567616] rfl hfb).2 0 0 rfl).1 h00

theorem neon_sqrt_zero_lanes_witness :
    ([0, 1065353216, 1082130432, 1091567616] : List Nat).length = 4 ∧
    (∀ a b : Nat, (fun (u v : Nat) => (u + v) % 2 ^ 32) a b < 2 ^ 32) ∧
    neon.sqrt
        ⟨fun _ _ => 0, fun _ _ => 0, fun _ => 0,
          fun u v => decide (u % 2 ^ 31 = 0 ∧ v % 2 ^ 31 = 0) || u == v,
          fun _ _ => false, fun _ _ => false, fun _ _ => false, fun _ _ => false⟩
        ⟨fun u => u, fun u v => (u + v) % 2 ^ 32, fun u _ _ => u, fun u => u,
          fun u _ => u, fun _ => 7, fun _ v => v⟩
        [0, 1065353216, 1082130432, 1091567616]
      = [0, 1065353244, 1082130460, 1091567644] ∧
    (neon.sqrt
        ⟨fun _ _ => 0, fun _ _ => 0, fun _ => 0,
          fun u v => decide (u % 2 ^ 31 = 0 ∧ v % 2 ^ 31 = 0) || u == v,
          fun _ _ => false, fun _ _ => false, fun _ _ => false, fun _ _ => false⟩
        ⟨fun u => u, fun u v => (u + v) % 2 ^ 32, fun u _ _ => u, fun u => u,
          fun u _ => u, fun _ => 7, fun _ v => v⟩
        [0, 1065353216, 1082130432, 1091567616]).length = 4 :=
  ⟨rfl, fun a b => Nat.mod_lt _ (by decide), by decide,
    (neon_sqrt_zero_lanes
      ⟨fun _ _ => 0, fun _ _ => 0, fun _ => 0,
        fun u v => decide (u % 2 ^ 31 = 0 ∧ v % 2 ^ 31 = 0) || u == v,
        fun _ _ => false, fun _ _ => false, fun _ _ => false, fun _ _ => false⟩
      ⟨fun u => u, fun u v => (u + v) % 2 ^ 32, fun u _ _ => u, fun u => u,
        fun u _ => u, fun _ => 7, fun _ v => v⟩
      [0, 1065353216, 1082130432, 1091567616] rfl
      (fun a b => Nat.mod_lt _ (by decide))).1⟩


/-! ## Fused operations and division over exact arithmetic -/

theorem neon_map3_rotate {β : Type} (f : β → β → β → β) (x y z : List β) :
    neon.map3 f z x y = neon.map3 (fun a b c => f c a b) x y z := by
  induction x generalizing y z with
  | nil => cases z <;> rfl
  | cons a as ih =>
    cases y with
    | nil => cases z <;> rfl
    | cons b bs =>
      cases z with
      | nil => rfl
      | cons c cs => simp only [neon.map3, ih]

theorem neon_map3_map_first {β : Type} (f : β → β → β → β) (g : β → β) (z x y : List β) :
    neon.map3 f (z.map g) x y = neon.map3 (fun c a b => f (g c) a b) z x y := by
  induction z generalizing x y with
  | nil => rfl
  | cons c cs ih =>
    cases x with
    | nil => rfl
    | cons a as =>
      cases y with
      | nil => rfl
      | cons b bs => simp only [List.map_cons, neon.map3, ih]

theorem neon_map3_lane {β : Type} (f : β → β → β → β) (x y z : List β) (k : Nat) (a b c : β)
    (hx : x[k]? = some a) (hy : y[k]? = some b) (hz : z[k]? = some c) :
    (neon.map3 f x y z)[k]? = some (f a b c) := by
  induction x generalizing y z k with
  | nil => simp at hx
  | cons a1 as ih =>
    cases y with
    | nil => simp at hy
    | cons b1 bs =>
      cases z with
      | nil => simp at hz
      | cons c1 cs =>
        cases k with
        | zero =>
          simp only [List.getElem?_cons_zero, Option.some.injEq] at hx hy hz
          subst hx hy hz
          simp only [neon.map3, List.getElem?_cons_zero]
        | succ j =>
          simp only [List.getElem?_cons_succ] at hx hy hz
          simp only [neon.map3, List.getElem?_cons_succ]
          exact ih bs cs j hx hy hz

/-- C32.  The fused kernels over exact arithmetic (a field `R`), lane by lane,
for all `x`, `y`, `z`.  On the FMA4 tag, float and double alike:
`fma = x*y + z`, `fms = x*y - z`, `fnma = -(x*y) + z`, `fnms = -(x*y) - z`.
On the NEON tag with hardware FMA: `fma(x, y, z) = z + x*y = x*y + z` and
`fms(x, y, z) = (-z) + x*y = x*y - z`. -/
theorem fused_kernels_exact {R : Type} [Field R] (recpe rsqrte : R → R) (x y z : List R) :
    fma4.fma fma4.FusedArith.exact x y z = neon.map3 (fun a b c => a * b + c) x y z ∧
    fma4.fms fma4.FusedArith.exact x y z = neon.map3 (fun a b c => a * b - c) x y z ∧
    fma4.fnma fma4.FusedArith.exact x y z = neon.map3 (fun a b c => -(a * b) + c) x y z ∧
    fma4.fnms fma4.FusedArith.exact x y z = neon.map3 (fun a b c => -(a * b) - c) x y z ∧
    neon.fma (neon.FloatArith.exact recpe rsqrte) x y z
      = neon.map3 (fun a b c => c + a * b) x y z ∧
    neon.fma (neon.FloatArith.exact recpe rsqrte) x y z
      = neon.map3 (fun a b c => a * b + c) x y z ∧
    neon.fms (neon.FloatArith.exact recpe rsqrte) x y z
      = neon.map3 (fun a b c => -c + a * b) x y z ∧
    neon.fms (neon.FloatArith.exact recpe rsqrte) x y z
      = neon.map3 (fun a b c => a * b - c) x y z ∧
    (∀ (k : Nat) (a b c : R), x[k]? = some a → y[k]? = some b → z[k]? = some c →
      (fma4.fma fma4.FusedArith.exact x y z)[k]? = some (a * b + c) ∧
      (fma4.fms fma4.FusedArith.exact x y z)[k]? = some (a * b - c) ∧
      (fma4.fnma fma4.FusedArith.exact x y z)[k]? = some (-(a * b) + c) ∧
      (fma4.fnms fma4.FusedArith.exact x y z)[k]? = some (-(a * b) - c) ∧
      (neon.fma (neon.FloatArith.exact recpe rsqrte) x y z)[k]? = some (a * b + c) ∧
      (neon.fms (neon.FloatArith.exact recpe rsqrte) x y z)[k]? = some (a * b - c)) := by
  have hfma : neon.fma (neon.FloatArith.exact recpe rsqrte) x y z
      = neon.map3 (fun a b c => c + a * b) x y z :=
    neon_map3_rotate (fun a b c => a + b * c) x y z
  have hfms : neon.fms (neon.FloatArith.exact recpe rsqrte) x y z
      = neon.map3 (fun a b c => -c + a * b) x y z := by
    show neon.map3 (fun a b c => a + b * c) (z.map (fun a => -a)) x y = _
    rw [neon_map3_map_first, neon_map3_rotate]
  have e1 : (fun (a b c : R) => c + a * b) = (fun a b c => a * b + c) := by
    funext a b c
    ring
  have e2 : (fun (a b c : R) => -c + a * b) = (fun a b c => a * b - c) := by
    funext a b c
    ring
  have hfma2 := hfma
  have hfms2 := hfms
  rw [e1] at hfma2
  rw [e2] at hfms2
  refine ⟨rfl, rfl, rfl, rfl, hfma, hfma2, hfms, hfms2, ?_⟩
  intro k a b c hx hy hz
  refine ⟨neon_map3_lane _ x y z k a b c hx hy hz, neon_map3_lane _ x y z k a b c hx hy hz,
    neon_map3_lane _ x y z k a b c hx hy hz, neon_map3_lane _ x y z k a b c hx hy hz, ?_, ?_⟩
  · rw [hfma2]
    exact neon_map3_lane _ x y z k a b c hx hy hz
  · rw [hfms2]
    exact neon_map3_lane _ x y z k a b c hx hy hz

theorem fused_kernels_exact_witness :
    fma4.fma fma4.FusedArith.exact ([2, 3] : List ℚ) [5, 7] [11, 13] = [21, 34] ∧
    fma4.fnms fma4.FusedArith.exact ([2, 3] : List ℚ) [5, 7] [11, 13] = [-21, -34] ∧
    neon.fms (neon.FloatArith.exact (fun (b : ℚ) => b) (fun b => b)) [2, 3] [5, 7] [11, 13]
      = [-1, 8] ∧
    neon.fma (neon.FloatArith.exact (fun (b : ℚ) => b) (fun b => b)) [2, 3] [5, 7] [11, 13]
      = neon.map3 (fun a b c => a * b + c) [2, 3] [5, 7] [11, 13] :=
  ⟨by norm_num [fma4.fma, fma4._mm_macc, fma4.FusedArith.exact, neon.map3],
    by norm_num [fma4.fnms, fma4._mm_nmsub, fma4.FusedArith.exact, neon.map3],
    by norm_num [neon.fms, neon.vfmaq_f32, neon.vnegq_f32, neon.FloatArith.exact, neon.map3],
    (fused_kernels_exact (fun (b : ℚ) => b) (fun b => b) [2, 3] [5, 7] [11, 13]).2.2.2.2.2.1⟩


theorem neon_div_reciprocal {R : Type} [Field R] (recpe rsqrte : R → R) (lhs rhs : List R) :
    neon.div (neon.FloatArith.exact recpe rsqrte) lhs rhs
      = List.zipWith
          (fun a b => a * ((2 - b * ((2 - b * recpe b) * recpe b)) * ((2 - b * recpe b) * recpe b)))
          lhs rhs := by
  unfold neon.div neon.vmulq_f32 neon.vrecpsq_f32 neon.vrecpeq_f32
  simp only [neon.FloatArith.exact]
  induction rhs generalizing lhs with
  | nil => simp
  | cons b bs ih =>
    cases lhs with
    | nil => simp
    | cons a as =>
      simp only [List.map_cons, List.zipWith_cons_cons]
      rw [ih as]

/-- C33.  NEON float `div(a, b)` over exact arithmetic (a field `R`), for every
reciprocal estimate `vrecpeq` and all batches: with `r0` the estimate of `b`,
`r1 = r0 * (2 - b*r0)` and `r2 = r1 * (2 - b*r1)` (two Newton-Raphson
refinements), lane `k` of the result is `a_k * r2`.  The refinements square the
error: `1 - b*r1 = (1 - b*r0)^2` and `1 - b*r2 = (1 - b*r0)^4`, so for `b ≠ 0`
the quotient is `(a / b) * (1 - (1 - b*r0)^4)`: its relative error is the
fourth power of the relative error of the estimate. -/
theorem neon_div_newton_raphson {R : Type} [Field R] (recpe rsqrte : R → R)
    (lhs rhs : List R) :
    neon.div (neon.FloatArith.exact recpe rsqrte) lhs rhs
      = List.zipWith
          (fun a b => a * (recpe b * (2 - b * recpe b)
            * (2 - b * (recpe b * (2 - b * recpe b))))) lhs rhs ∧
    (∀ b : R, 1 - b * (recpe b * (2 - b * recpe b)) = (1 - b * recpe b) ^ 2) ∧
    (∀ b : R, 1 - b * (recpe b * (2 - b * recpe b)
        * (2 - b * (recpe b * (2 - b * recpe b)))) = (1 - b * recpe b) ^ 4) ∧
    (∀ a b : R, b ≠ 0 →
      a * (recpe b * (2 - b * recpe b) * (2 - b * (recpe b * (2 - b * recpe b))))
        = a / b * (1 - (1 - b * recpe b) ^ 4)) ∧
    (∀ a b : R, b ≠ 0 →
      a / b - a * (recpe b * (2 - b * recpe b) * (2 - b * (recpe b * (2 - b * recpe b))))
        = a / b * (1 - b * recpe b) ^ 4) := by
  refine ⟨?_, fun b => by ring, fun b => by ring, ?_, ?_⟩
  · rw [neon_div_reciprocal]
    congr 1
    funext a b
    ring
  · intro a b hb
    field_simp
    ring
  · intro a b hb
    field_simp
    ring

theorem neon_div_newton_raphson_witness :
    (4 : ℚ) ≠ 0 ∧
    neon.div (neon.FloatArith.exact (fun (_ : ℚ) => 1 / 2) (fun b => b)) [3, 8] [4, 4]
      = [0, 0] ∧
    neon.div (neon.FloatArith.exact (fun (_ : ℚ) => 1 / 5) (fun b => b)) [3, 8] [4, 4]
      = [1872 / 2500, 4992 / 2500] ∧
    (3 : ℚ) / 4 - 3 * (1 / 5 * (2 - 4 * (1 / 5)) * (2 - 4 * (1 / 5 * (2 - 4 * (1 / 5)))))
      = 3 / 4 * (1 - 4 * (1 / 5)) ^ 4 :=
  ⟨by norm_num,
    by norm_num [neon.div, neon.vmulq_f32, neon.vrecpsq_f32, neon.vrecpeq_f32,
      neon.FloatArith.exact],
    by norm_num [neon.div, neon.vmulq_f32, neon.vrecpsq_f32, neon.vrecpeq_f32,
      neon.FloatArith.exact],
    (neon_div_newton_raphson (fun (_ : ℚ) => 1 / 5) (fun b => b) [3, 8] [4, 4]).2.2.2.2
      3 4 (by norm_num)⟩


end xsimd.kernel
